import Mathlib

/-!
Shallow embedding of the file-system-recovery-tool core
(`src/src/Inode.cpp` = `InodeManager` + `VirtualDisk`, `src/unnamed/part_008`
= `Directory.cpp`, `src/src/FileSystem.cpp` and `src/unnamed/part_006` =
the two revisions of `FileSystem.cpp`, `src/unnamed/part_009` =
`DefragManager.cpp`).

Modelling conventions:
  * machine integers are `Nat`; the stored sentinel `(uint32_t)-1` is the
    literal `4294967295`.  All volumes considered have
    `totalBlocks < 2^31`, under which the source's mixed signed/unsigned
    comparisons reduce to plain `Nat` comparisons (noted at each use).
  * disk blocks are modelled at the granularity the source reads and
    writes them: a block holds raw file bytes, a packed array of
    directory entries, a packed array of `uint32` block pointers, or
    zeros (the state `freeBlock` leaves behind).  The interpretation
    functions pad to the fixed sizes the 4096-byte block gives each view.
  * `time(nullptr)` is modelled by a logical clock that increases at
    every sample, starting at 1 (wall-clock time is positive and the
    source only compares timestamps for order).
  * the on-disk mirrors of bitmap / superblock / inode table are not
    modelled separately: `writeBitmap` / `writeSuperblock` are identity
    on the modelled state, and the inode table is the `inodes` list.
-/

namespace FsTool

/-- `BLOCK_SIZE` from `VirtualDisk.h`. -/
def BLOCK_SIZE : Nat := 4096

/-- `DIRECT_BLOCKS` from `Inode.h`. -/
def DIRECT_BLOCKS : Nat := 12

/-- `(uint32_t)(-1)`, the second empty-slot sentinel. -/
def U32MAX : Nat := 4294967295

/-- `MAX_FILENAME_LENGTH` from `Directory.h`. -/
def MAX_FILENAME_LENGTH : Nat := 56

/-- `DIR_ENTRY_SIZE` from `Directory.h`. -/
def DIR_ENTRY_SIZE : Nat := 64

/-- Directory entries per 4096-byte block (`BLOCK_SIZE / DIR_ENTRY_SIZE`). -/
def ENTRIES_PER_BLOCK : Nat := 64

/-- `uint32` pointers per 4096-byte indirect block. -/
def PTRS_PER_BLOCK : Nat := 1024

/-- `FileType` from `Inode.h`. -/
inductive FileType where
  | FREE
  | REGULAR_FILE
  | DIRECTORY
deriving DecidableEq, Repr

/-- The `uint8_t` tag a `FileType` is stored as in a directory entry. -/
def FileType.tag : FileType → Nat
  | .FREE => 0
  | .REGULAR_FILE => 1
  | .DIRECTORY => 2

/-- `struct Inode` from `Inode.h`.  `directBlocks` always has length 12. -/
structure Inode where
  inodeNumber : Nat
  fileType : FileType
  permissions : Nat
  linkCount : Nat
  fileSize : Nat
  blockCount : Nat
  createdTime : Nat
  modifiedTime : Nat
  accessedTime : Nat
  directBlocks : List Nat
  indirectBlock : Nat
deriving DecidableEq, Repr

/-- `Inode::reset()`: the all-zero record. -/
def Inode.reset : Inode :=
  { inodeNumber := 0, fileType := .FREE, permissions := 0, linkCount := 0,
    fileSize := 0, blockCount := 0, createdTime := 0, modifiedTime := 0,
    accessedTime := 0, directBlocks := List.replicate 12 0, indirectBlock := 0 }

instance : Inhabited Inode := ⟨Inode.reset⟩

/-- `Inode::isValid()`. -/
def Inode.isValid (i : Inode) : Bool := i.fileType != .FREE

/-- `Inode::isFree()`. -/
def Inode.isFree (i : Inode) : Bool := i.fileType == .FREE

/-- Field names as in `struct DirectoryEntry` from `Directory.h`;
filenames are byte strings modelled as `List Char`. -/
structure DirectoryEntry where
  inodeNumber : Nat
  nameLength : Nat
  fileType : Nat
  filename : List Char
deriving DecidableEq, Repr

/-- `DirectoryEntry::reset()`: the zeroed entry. -/
def DirectoryEntry.zeroed : DirectoryEntry :=
  { inodeNumber := 0, nameLength := 0, fileType := 0, filename := [] }

instance : Inhabited DirectoryEntry := ⟨DirectoryEntry.zeroed⟩

/-- The `DirectoryEntry(inode, name, type)` constructor from
`src/unnamed/part_008`: `nameLength = min(MAX_FILENAME_LENGTH - 1,
name.length())` and only that many characters of the name are stored. -/
def DirectoryEntry.make (inode : Nat) (name : List Char) (ty : FileType) :
    DirectoryEntry :=
  { inodeNumber := inode,
    nameLength := min (MAX_FILENAME_LENGTH - 1) name.length,
    fileType := ty.tag,
    filename := name.take (min (MAX_FILENAME_LENGTH - 1) name.length) }

/-- `DirectoryEntry::isValid()`. -/
def DirectoryEntry.isValid (e : DirectoryEntry) : Bool :=
  e.inodeNumber != 0 && decide (0 < e.nameLength)

/-- `DirectoryEntry::getName()`: the first `nameLength` stored characters. -/
def DirectoryEntry.getName (e : DirectoryEntry) : List Char :=
  e.filename.take e.nameLength

/-- A block's content, at the granularity the source reads and writes it. -/
inductive BlockData where
  | zeros
  | bytes (d : List Nat)
  | dirents (es : List DirectoryEntry)
  | ptrs (ps : List Nat)
deriving DecidableEq, Repr

/-- A block viewed as 4096 raw bytes (zero-padded, as every writer of file
data zero-fills its 4096-byte buffer before copying the payload in). -/
def BlockData.asBytes : BlockData → List Nat
  | .bytes d => d.take BLOCK_SIZE ++ List.replicate (BLOCK_SIZE - d.length) 0
  | _ => List.replicate BLOCK_SIZE 0

/-- A block viewed as 64 packed directory entries; a zeroed block reads as
64 zeroed (invalid) entries. -/
def BlockData.asDirents : BlockData → List DirectoryEntry
  | .dirents es =>
      es.take ENTRIES_PER_BLOCK ++
        List.replicate (ENTRIES_PER_BLOCK - es.length) DirectoryEntry.zeroed
  | _ => List.replicate ENTRIES_PER_BLOCK DirectoryEntry.zeroed

/-- A block viewed as 1024 packed `uint32` pointers; a zeroed block reads
as 1024 zero pointers. -/
def BlockData.asPtrs : BlockData → List Nat
  | .ptrs ps => ps.take PTRS_PER_BLOCK ++ List.replicate (PTRS_PER_BLOCK - ps.length) 0
  | _ => List.replicate PTRS_PER_BLOCK 0

/-- `struct Superblock` from `VirtualDisk.h` (the fields the core uses). -/
structure Superblock where
  totalBlocks : Nat
  freeBlocks : Nat
  inodeCount : Nat
  bitmapStart : Nat
  inodeTableStart : Nat
  dataBlocksStart : Nat
  journalStart : Nat
  journalSize : Nat
  cleanShutdown : Nat
deriving DecidableEq, Repr

/-- The mounted volume state: superblock, in-memory bitmap
(`bitmap_[i] = true` means block `i` is FREE, as in `VirtualDisk`),
block store, inode table, the in-memory block-ownership map
(`blockOwners_`), and the logical clock standing in for `time(nullptr)`. -/
structure Vol where
  sb : Superblock
  bitmap : List Bool
  blocks : List BlockData
  inodes : List Inode
  blockOwners : List (Nat × Nat)
  clock : Nat
deriving DecidableEq, Repr

/-- Sample `time(nullptr)`: returns the current instant and advances the
clock so later samples are strictly larger. -/
def Vol.tick (v : Vol) : Nat × Vol :=
  (v.clock, { v with clock := v.clock + 1 })

namespace VirtualDisk

/-- `VirtualDisk::readBlock`: bounds-checked read. -/
def readBlock (v : Vol) (b : Nat) : Option BlockData :=
  if b < v.sb.totalBlocks then some (v.blocks.getD b .zeros) else none

/-- `VirtualDisk::writeBlock`: bounds-checked write. -/
def writeBlock (v : Vol) (b : Nat) (d : BlockData) : Bool × Vol :=
  if b < v.sb.totalBlocks then (true, { v with blocks := v.blocks.set b d })
  else (false, v)

/-- The scan inside `VirtualDisk::allocateBlock`: first free block of the
data region. -/
def findFree (v : Vol) : Option Nat :=
  (List.range' v.sb.dataBlocksStart (v.sb.totalBlocks - v.sb.dataBlocksStart)).find?
    (fun i => v.bitmap.getD i false)

/-- `VirtualDisk::allocateBlock`: first-fit scan from `dataBlocksStart`;
marks the block used and decrements `freeBlocks`. -/
def allocateBlock (v : Vol) : Option Nat × Vol :=
  match findFree v with
  | some i =>
      (some i,
        { v with bitmap := v.bitmap.set i false,
                 sb := { v.sb with freeBlocks := v.sb.freeBlocks - 1 } })
  | none => (none, v)

/-- Modelled from the spec: `VirtualDisk::allocateBlockCompact` is declared
in `VirtualDisk.h` and called by both `DefragManager.cpp` revisions, but
its definition is not among the sources (only a pseudocode sketch in
`COMPACTION_GUIDE.md`).  Per spec section 4.4 it returns the lowest-indexed
free data block, flips the bit and decrements `freeBlocks` — identical to
the first-fit scan. -/
def allocateBlockCompact (v : Vol) : Option Nat × Vol :=
  allocateBlock v

/-- `VirtualDisk::freeBlock`: refuses out-of-range and system blocks,
no-ops on an already-free block, otherwise flips the bit, increments
`freeBlocks` and zero-fills the block. -/
def freeBlock (v : Vol) (b : Nat) : Bool × Vol :=
  if b ≥ v.sb.totalBlocks then (false, v)
  else if b < v.sb.dataBlocksStart then (false, v)
  else if v.bitmap.getD b false = false then
    (true,
      { v with bitmap := v.bitmap.set b true,
               sb := { v.sb with freeBlocks := v.sb.freeBlocks + 1 },
               blocks := v.blocks.set b .zeros })
  else (false, v)

/-- `VirtualDisk::isBlockFree`. -/
def isBlockFree (v : Vol) (b : Nat) : Bool :=
  if b ≥ v.sb.totalBlocks then false else v.bitmap.getD b false

/-- `VirtualDisk::writeBitmap`: the on-disk mirror is not modelled, so
persisting is the identity. -/
def writeBitmap (v : Vol) : Vol := v

/-- `VirtualDisk::writeSuperblock`: identity, as for `writeBitmap`. -/
def writeSuperblock (v : Vol) : Vol := v

/-- `VirtualDisk::markClean`. -/
def markClean (v : Vol) : Vol :=
  { v with sb := { v.sb with cleanShutdown := 1 } }

/-- `ceil(totalBlocks / (8 * BLOCK_SIZE))` from `calculateBitmapBlocks`. -/
def calculateBitmapBlocks (totalBlocks : Nat) : Nat :=
  (totalBlocks + BLOCK_SIZE * 8 - 1) / (BLOCK_SIZE * 8)

/-- `ceil(inodeCount / (BLOCK_SIZE / 128))` from `calculateInodeBlocks`. -/
def calculateInodeBlocks (inodeCount : Nat) : Nat :=
  (inodeCount + (BLOCK_SIZE / 128) - 1) / (BLOCK_SIZE / 128)

/-- `VirtualDisk::initializeSuperblock`: the layout computation.  The
source computes `freeBlocks = totalBlocks - dataBlocksStart` in `uint32`
arithmetic; the wrap-around is modelled explicitly. -/
def initializeSuperblock (diskSize : Nat) : Superblock :=
  let total := diskSize / BLOCK_SIZE
  let inodeCount := total / 8
  let bitmapStart := 1
  let inodeTableStart := bitmapStart + calculateBitmapBlocks total
  let journalStart := inodeTableStart + calculateInodeBlocks inodeCount
  let journalSize := 64
  let dataBlocksStart := journalStart + journalSize
  { totalBlocks := total,
    freeBlocks := (total + 4294967296 - dataBlocksStart) % 4294967296,
    inodeCount := inodeCount,
    bitmapStart := bitmapStart,
    inodeTableStart := inodeTableStart,
    dataBlocksStart := dataBlocksStart,
    journalStart := journalStart,
    journalSize := journalSize,
    cleanShutdown := 1 }

/-- `VirtualDisk::createDisk` followed by `formatDisk`: fresh volume with
all data blocks free, system blocks used, zeroed block store and inode
table.  The clock starts at 1 (wall-clock time is positive). -/
def createDisk (diskSize : Nat) : Vol :=
  let sb := initializeSuperblock diskSize
  { sb := sb,
    bitmap := (List.range sb.totalBlocks).map (fun i => decide (sb.dataBlocksStart ≤ i)),
    blocks := List.replicate sb.totalBlocks .zeros,
    inodes := List.replicate sb.inodeCount Inode.reset,
    blockOwners := [],
    clock := 1 }

end VirtualDisk

/-- The validity check `getInodeBlocks` applies to a direct-block slot and
to the indirect-block field (`src/src/Inode.cpp` lines 152–163):
`v > 0 && v != -1 && v < (int32_t)totalBlocks` on a `uint32` value, which
for `totalBlocks < 2^31` is the `Nat` condition below.  (The indirect
block's packed entries are compared as `int32_t`; for `totalBlocks < 2^31`
that reduces to the same condition, since an entry `≥ 2^31` fails the
`> 0` signed test and an entry `< 2^31` compares identically.) -/
def validRef (total v : Nat) : Bool :=
  decide (0 < v) && v != U32MAX && decide (v < total)

namespace InodeManager

/-- `InodeManager::readInode`: bounds-checked read of the inode table. -/
def readInode (v : Vol) (k : Nat) : Option Inode :=
  if k < v.sb.inodeCount then some (v.inodes.getD k Inode.reset) else none

/-- `InodeManager::writeInode`. -/
def writeInode (v : Vol) (k : Nat) (ino : Inode) : Bool × Vol :=
  if k < v.sb.inodeCount then (true, { v with inodes := v.inodes.set k ino })
  else (false, v)

/-- The slot of the first free inode, as scanned by
`InodeManager::allocateInode`. -/
def findFreeInode (v : Vol) : Option Nat :=
  (List.range v.sb.inodeCount).find? (fun k => (v.inodes.getD k Inode.reset).isFree)

/-- `InodeManager::allocateInode`: first free slot, initialized with the
current time, permissions 0644, link count 1, size and block count 0.  As
in the source, the block-pointer fields are whatever the freed record held
(all zeros, since `freeInode`/format reset them). -/
def allocateInode (v : Vol) (ty : FileType) : Option Nat × Vol :=
  match findFreeInode v with
  | some k =>
      let old := v.inodes.getD k Inode.reset
      let (t, v) := v.tick
      let ino : Inode :=
        { old with inodeNumber := k, fileType := ty, permissions := 0x1A4,
                   linkCount := 1, fileSize := 0, blockCount := 0,
                   createdTime := t, modifiedTime := t, accessedTime := t }
      let (ok, v) := writeInode v k ino
      if ok then (some k, v) else (none, v)
  | none => (none, v)

/-- `InodeManager::getInodeBlocks` (`src/src/Inode.cpp` lines 147–182):
every direct slot passing `validRef`, then — if the indirect-block field
itself passes `validRef` — every packed entry of the indirect block that
passes `validRef`. -/
def getInodeBlocks (v : Vol) (ino : Inode) : List Nat :=
  let direct := (ino.directBlocks.take 12).filter (validRef v.sb.totalBlocks)
  let indirect :=
    if validRef v.sb.totalBlocks ino.indirectBlock then
      match VirtualDisk.readBlock v ino.indirectBlock with
      | some bd => bd.asPtrs.filter (validRef v.sb.totalBlocks)
      | none => []
    else []
  direct ++ indirect

/-- `InodeManager::readIndirectBlock`: reads packed pointers up to the
first zero entry. -/
def readIndirectBlock (v : Vol) (b : Nat) : Option (List Nat) :=
  match VirtualDisk.readBlock v b with
  | some bd => some (bd.asPtrs.takeWhile (fun p => p != 0))
  | none => none

/-- `InodeManager::writeIndirectBlock`: writes the packed pointers
(zero-filled tail, which `BlockData.asPtrs` supplies on read). -/
def writeIndirectBlock (v : Vol) (b : Nat) (ps : List Nat) : Bool × Vol :=
  VirtualDisk.writeBlock v b (.ptrs ps)

/-- Index of the first direct slot equal to 0 (the emptiness test
`addBlockToInode` uses; note it does NOT treat `-1` as empty). -/
def firstZeroSlot (ino : Inode) : Option Nat :=
  (List.range 12).find? (fun i => ino.directBlocks.getD i 1 == 0)

/-- `InodeManager::addBlockToInode`: place in the first zero direct slot,
else append through the indirect block (allocating it on first use).
Returns success, the updated in-memory inode, and the volume. -/
def addBlockToInode (v : Vol) (ino : Inode) (b : Nat) : Bool × Inode × Vol :=
  match firstZeroSlot ino with
  | some i =>
      (true,
        { ino with directBlocks := ino.directBlocks.set i b,
                   blockCount := ino.blockCount + 1 }, v)
  | none =>
      if ino.indirectBlock == 0 then
        match VirtualDisk.allocateBlock v with
        | (some ib, v) =>
            let ino := { ino with indirectBlock := ib }
            let ino := { ino with blockCount := ino.blockCount + 1 }
            let (ok, v) := writeIndirectBlock v ino.indirectBlock [b]
            (ok, ino, v)
        | (none, v) => (false, ino, v)
      else
        match readIndirectBlock v ino.indirectBlock with
        | some ps =>
            let ino := { ino with blockCount := ino.blockCount + 1 }
            let (ok, v) := writeIndirectBlock v ino.indirectBlock (ps ++ [b])
            (ok, ino, v)
        | none =>
            let ino := { ino with blockCount := ino.blockCount + 1 }
            let (ok, v) := writeIndirectBlock v ino.indirectBlock [b]
            (ok, ino, v)

/-- `InodeManager::freeInode`: free every block `getInodeBlocks` reports,
then zero the record. -/
def freeInode (v : Vol) (k : Nat) : Bool × Vol :=
  match readInode v k with
  | none => (false, v)
  | some ino =>
      let v := (getInodeBlocks v ino).foldl (fun v b => (VirtualDisk.freeBlock v b).2) v
      writeInode v k Inode.reset

end InodeManager

namespace DirectoryManager

/-- The split loop of `DirectoryManager::splitPath`: components between
slashes, empty components dropped. -/
def splitPath : List Char → List Char → List (List Char)
  | [], acc => if acc.isEmpty then [] else [acc.reverse]
  | c :: rest, acc =>
      if c = '/' then
        if acc.isEmpty then splitPath rest [] else acc.reverse :: splitPath rest []
      else splitPath rest (c :: acc)

/-- `DirectoryManager::readDirectoryEntries`: for each block of the
directory inode, the valid entries among its 64 packed slots, in order. -/
def readDirectoryEntries (v : Vol) (dirInode : Inode) : List DirectoryEntry :=
  ((InodeManager.getInodeBlocks v dirInode).map (fun b =>
    ((v.blocks.getD b .zeros).asDirents).filter DirectoryEntry.isValid)).flatten

/-- The `while (blocks.size() < blocksNeeded)` grow loop of
`DirectoryManager::writeDirectoryEntries`, recursing on the number of
blocks still missing.  On failure the source returns early, leaving the
partial mutations in place. -/
def growBlocks (v : Vol) (ino : Inode) (blocks : List Nat) :
    Nat → Bool × Inode × List Nat × Vol
  | 0 => (true, ino, blocks, v)
  | n + 1 =>
      match VirtualDisk.allocateBlock v with
      | (none, v) => (false, ino, blocks, v)
      | (some b, v) =>
          match InodeManager.addBlockToInode v ino b with
          | (false, ino, v) =>
              let (_, v) := VirtualDisk.freeBlock v b
              (false, ino, blocks, v)
          | (true, ino, v) => growBlocks v ino (blocks ++ [b]) n

/-- The write-out phase of `writeDirectoryEntries` once enough blocks
exist: write the entries 64 per block, ZERO every remaining block (the
fix that keeps deleted entries from reappearing), then persist the inode
with the new size and time. -/
def writePhase (v : Vol) (ino : Inode) (blocks : List Nat)
    (entries : List DirectoryEntry) (blocksNeeded : Nat) : Bool × Vol :=
  let v := (List.range (min blocksNeeded blocks.length)).foldl
    (fun v i =>
      (VirtualDisk.writeBlock v (blocks.getD i 0)
        (.dirents ((entries.drop (i * ENTRIES_PER_BLOCK)).take ENTRIES_PER_BLOCK))).2) v
  let v := (blocks.drop blocksNeeded).foldl
    (fun v b => (VirtualDisk.writeBlock v b .zeros).2) v
  let (t, v) := v.tick
  let ino := { ino with fileSize := entries.length * DIR_ENTRY_SIZE,
                        modifiedTime := t }
  InodeManager.writeInode v ino.inodeNumber ino

/-- `DirectoryManager::writeDirectoryEntries` (`src/unnamed/part_008`
lines 240–293): grow to `blocksNeeded` blocks, then write out.  The
source's mid-loop `writeBlock` failure returns cannot fire because every
block written is below `totalBlocks`. -/
def writeDirectoryEntries (v : Vol) (dirInode : Inode)
    (entries : List DirectoryEntry) : Bool × Vol :=
  let blocksNeeded :=
    if entries.isEmpty then 1
    else (entries.length + ENTRIES_PER_BLOCK - 1) / ENTRIES_PER_BLOCK
  let blocks := InodeManager.getInodeBlocks v dirInode
  match growBlocks v dirInode blocks (blocksNeeded - blocks.length) with
  | (false, _, _, v) => (false, v)
  | (true, ino, blocks, v) => writePhase v ino blocks entries blocksNeeded

/-- `DirectoryManager::addEntry`: reject non-directories and duplicate
names, append, write back. -/
def addEntry (v : Vol) (dirInodeNum : Nat) (name : List Char)
    (entryInodeNum : Nat) (ty : FileType) : Bool × Vol :=
  match InodeManager.readInode v dirInodeNum with
  | none => (false, v)
  | some dirInode =>
      if dirInode.fileType != .DIRECTORY then (false, v)
      else
        let entries := readDirectoryEntries v dirInode
        if entries.any (fun e => e.getName == name) then (false, v)
        else
          writeDirectoryEntries v dirInode
            (entries ++ [DirectoryEntry.make entryInodeNum name ty])

/-- `DirectoryManager::removeEntry`: drop every entry with the name
(`std::remove_if`), fail if none matched, write back. -/
def removeEntry (v : Vol) (dirInodeNum : Nat) (name : List Char) : Bool × Vol :=
  match InodeManager.readInode v dirInodeNum with
  | none => (false, v)
  | some dirInode =>
      let entries := readDirectoryEntries v dirInode
      let kept := entries.filter (fun e => e.getName != name)
      if kept.length == entries.length then (false, v)
      else writeDirectoryEntries v dirInode kept

/-- `DirectoryManager::lookupEntry`: inode number of the first entry with
the name, if any. -/
def lookupEntry (v : Vol) (dirInodeNum : Nat) (name : List Char) : Option Nat :=
  match InodeManager.readInode v dirInodeNum with
  | none => none
  | some dirInode =>
      ((readDirectoryEntries v dirInode).find? (fun e => e.getName == name)).map
        (fun e => e.inodeNumber)

/-- `DirectoryManager::listDirectory`. -/
def listDirectory (v : Vol) (dirInodeNum : Nat) : List DirectoryEntry :=
  match InodeManager.readInode v dirInodeNum with
  | none => []
  | some dirInode => readDirectoryEntries v dirInode

/-- `DirectoryManager::resolvePath`: component-wise lookup from the root
(inode 0) for absolute paths, else from `startInodeNum`. -/
def resolvePath (v : Vol) (path : List Char) (startInodeNum : Nat) : Option Nat :=
  if path.isEmpty || path == ['/'] then some 0
  else
    let components := splitPath path []
    let start := if path.headD ' ' == '/' then 0 else startInodeNum
    components.foldl
      (fun cur comp =>
        match cur with
        | none => none
        | some c => lookupEntry v c comp)
      (some start)

/-- `DirectoryManager::initializeRootDirectory`: no-op when inode 0 is
already valid, else install a directory inode 0 whose body holds the `.`
and `..` self-references. -/
def initializeRootDirectory (v : Vol) : Bool × Vol :=
  let r := (InodeManager.readInode v 0).getD Inode.reset
  if r.isValid then (true, v)
  else
    let (t, v) := v.tick
    let root : Inode :=
      { r with inodeNumber := 0, fileType := .DIRECTORY, permissions := 0x1ED,
               linkCount := 2, createdTime := t, modifiedTime := t,
               accessedTime := t }
    match InodeManager.writeInode v 0 root with
    | (false, v) => (false, v)
    | (true, v) =>
        writeDirectoryEntries v root
          [DirectoryEntry.make 0 ['.'] .DIRECTORY,
           DirectoryEntry.make 0 ['.', '.'] .DIRECTORY]

/-- `DirectoryManager::createDirectory`: allocate a directory inode, write
its `.`/`..` body, then add it to the parent directory. -/
def createDirectory (v : Vol) (name : List Char) (parentInodeNum : Nat) :
    Bool × Vol :=
  match InodeManager.allocateInode v .DIRECTORY with
  | (none, v) => (false, v)
  | (some k, v) =>
      let entries := [DirectoryEntry.make k ['.'] .DIRECTORY,
                      DirectoryEntry.make parentInodeNum ['.', '.'] .DIRECTORY]
      match InodeManager.readInode v k with
      | none => (false, v)
      | some dirInode =>
          match writeDirectoryEntries v dirInode entries with
          | (false, v) =>
              let (_, v) := InodeManager.freeInode v k
              (false, v)
          | (true, v) => addEntry v parentInodeNum name k .DIRECTORY

end DirectoryManager

/-- `FileSystem::setBlockOwner`: `blockOwners_[blockNum] = inodeNum`. -/
def setBlockOwner (v : Vol) (b k : Nat) : Vol :=
  { v with blockOwners := (b, k) :: v.blockOwners.filter (fun p => p.1 != b) }

/-- `FileSystem::clearBlockOwner`. -/
def clearBlockOwner (v : Vol) (b : Nat) : Vol :=
  { v with blockOwners := v.blockOwners.filter (fun p => p.1 != b) }

/-- `FileSystem::getBlockOwner`: the owning inode, or `UINT32_MAX`. -/
def getBlockOwner (v : Vol) (b : Nat) : Nat :=
  match v.blockOwners.find? (fun p => p.1 == b) with
  | some p => p.2
  | none => U32MAX

/-- `path.substr(0, lastSlash)` and `path.substr(lastSlash + 1)` when the
path contains a slash. -/
def splitAtLastSlash (p : List Char) : Option (List Char × List Char) :=
  match p.reverse.findIdx? (fun c => c == '/') with
  | none => none
  | some k =>
      let i := p.length - 1 - k
      some (p.take i, p.drop (i + 1))

/-- The facade state: the volume plus the fields `FileSystem` keeps beside
it in `src/src/FileSystem.cpp` — `mounted_`, `hasCorruption_`,
`corruptedBlocks_`, `activeWriteInodeNum_`. -/
structure FS where
  vol : Vol
  mounted : Bool
  hasCorruption : Bool
  corruptedBlocks : List Nat
  activeWriteInodeNum : Nat
deriving DecidableEq, Repr

namespace FileSystem

/-- `FileSystem::createFileSystem`: create and format the disk, install
the root directory, mark clean, mount.  No corruption initially. -/
def createFileSystem (diskSize : Nat) : FS :=
  let v := VirtualDisk.createDisk diskSize
  let (_, v) := DirectoryManager.initializeRootDirectory v
  let v := VirtualDisk.markClean v
  { vol := v, mounted := true, hasCorruption := false, corruptedBlocks := [],
    activeWriteInodeNum := U32MAX }

/-- `FileSystem::readFileData` (identical in both facade revisions):
concatenate the file's blocks, capping at `fileSize` bytes. -/
def readFileData (v : Vol) (ino : Inode) : List Nat :=
  (InodeManager.getInodeBlocks v ino).foldl
    (fun data b =>
      data ++ ((v.blocks.getD b .zeros).asBytes).take
        (min BLOCK_SIZE (ino.fileSize - data.length)))
    []

/-- `FileSystem::createFile` body (identical in both facade revisions). -/
def createFileVol (v : Vol) (path : List Char) : Bool × Vol :=
  let (dirPath, filename) :=
    match splitAtLastSlash path with
    | some (d, f) => (d, f)
    | none => (['/'], path)
  if filename.isEmpty then (false, v)
  else
    match DirectoryManager.resolvePath v dirPath 0 with
    | none => (false, v)
    | some dirInode =>
        match DirectoryManager.lookupEntry v dirInode filename with
        | some _ => (false, v)
        | none =>
            match InodeManager.allocateInode v .REGULAR_FILE with
            | (none, v) => (false, v)
            | (some fileInode, v) =>
                DirectoryManager.addEntry v dirInode filename fileInode .REGULAR_FILE

/-- `FileSystem::deleteFile` body (identical in both facade revisions):
free the inode (and its blocks), then drop the directory entry. -/
def deleteFileVol (v : Vol) (path : List Char) : Bool × Vol :=
  let (dirPath, filename) :=
    match splitAtLastSlash path with
    | some (d, f) => (d, f)
    | none => (['/'], path)
  match DirectoryManager.resolvePath v dirPath 0 with
  | none => (false, v)
  | some dirInode =>
      match DirectoryManager.lookupEntry v dirInode filename with
      | none => (false, v)
      | some fileInode =>
          match InodeManager.freeInode v fileInode with
          | (false, v) => (false, v)
          | (true, v) => DirectoryManager.removeEntry v dirInode filename

/-- `FileSystem::readFile` body: resolve the full path, require a regular
file, return its bytes. -/
def readFileVol (v : Vol) (path : List Char) : Option (List Nat) :=
  match DirectoryManager.resolvePath v path 0 with
  | none => none
  | some inodeNum =>
      match InodeManager.readInode v inodeNum with
      | none => none
      | some ino =>
          if ino.fileType != .REGULAR_FILE then none
          else some (readFileData v ino)

/-- The final path component `writeFile` computes (its `dirPath` is
computed too but never used afterwards — the lookup is hardwired to the
root directory). -/
def writeFileName (path : List Char) : List Char :=
  match splitAtLastSlash path with
  | some (_, f) => f
  | none => path

/-- The shared front half of both `writeFile` revisions: look the final
component up in the ROOT directory, read the inode, free every old block
(clearing ownership), reset all pointers to the `-1` sentinel. -/
def writeFileFront (v : Vol) (path : List Char) : Option (Nat × Inode × Vol) :=
  match DirectoryManager.lookupEntry v 0 (writeFileName path) with
  | none => none
  | some fileInode =>
      match InodeManager.readInode v fileInode with
      | none => none
      | some ino =>
          let oldBlocks := InodeManager.getInodeBlocks v ino
          let v := oldBlocks.foldl
            (fun v b => (VirtualDisk.freeBlock (clearBlockOwner v b) b).2) v
          let ino := { ino with directBlocks := List.replicate 12 U32MAX,
                                indirectBlock := U32MAX }
          some (fileInode, ino, v)

/-- The direct-slot allocation loop of `FileSystem::allocateFileBlocks`
in `src/src/FileSystem.cpp` (allocate, set slot `i`, bump `blockCount`,
record ownership; the payload is NOT written in this revision). -/
def allocDirectLoop (inodeNum : Nat) : Nat → Nat → Vol → Inode → Bool × Inode × Vol
  | _, 0, v, ino => (true, ino, v)
  | i, n + 1, v, ino =>
      match VirtualDisk.allocateBlock v with
      | (none, v) => (false, ino, v)
      | (some b, v) =>
          let ino := { ino with directBlocks := ino.directBlocks.set i b,
                                blockCount := ino.blockCount + 1 }
          allocDirectLoop inodeNum (i + 1) n (setBlockOwner v b inodeNum) ino

/-- The indirect-entry allocation loop of the same function. -/
def allocIndirectLoop (inodeNum : Nat) : Nat → Vol → Inode → List Nat →
    Bool × Inode × List Nat × Vol
  | 0, v, ino, ps => (true, ino, ps, v)
  | n + 1, v, ino, ps =>
      match VirtualDisk.allocateBlock v with
      | (none, v) => (false, ino, ps, v)
      | (some b, v) =>
          allocIndirectLoop inodeNum n (setBlockOwner v b inodeNum)
            { ino with blockCount := ino.blockCount + 1 } (ps ++ [b])

/-- `FileSystem::allocateFileBlocks` from `src/src/FileSystem.cpp` lines
393–443: allocates up to 12 direct blocks then an indirect block and its
entries, bumping `blockCount` per data block and recording ownership (for
the indirect block too).  This revision never writes the payload bytes.
On a failed allocation it returns false leaving the partial allocations. -/
def allocateFileBlocks (v : Vol) (ino : Inode) (blocksNeeded : Nat)
    (inodeNum : Nat) : Bool × Inode × Vol :=
  if blocksNeeded == 0 then (true, ino, v)
  else
    match allocDirectLoop inodeNum 0 (min blocksNeeded 12) v ino with
    | (false, ino, v) => (false, ino, v)
    | (true, ino, v) =>
        if blocksNeeded > 12 then
          match VirtualDisk.allocateBlock v with
          | (none, v) => (false, ino, v)
          | (some ib, v) =>
              let ino := { ino with indirectBlock := ib }
              let v := setBlockOwner v ib inodeNum
              match allocIndirectLoop inodeNum (blocksNeeded - 12) v ino [] with
              | (false, ino, _, v) => (false, ino, v)
              | (true, ino, ps, v) =>
                  let (_, v) := VirtualDisk.writeBlock v ib (.ptrs ps)
                  (true, ino, v)
        else (true, ino, v)

/-- `FileSystem::writeFile` from `src/src/FileSystem.cpp` lines 271–329.
Note: no corruption check, the lookup is in the root only, the old blocks
are freed before the new allocation, a failed allocation returns before
`writeInode`, and this revision never writes the payload bytes. -/
def writeFileVol (v : Vol) (path : List Char) (data : List Nat) : Bool × Vol :=
  match writeFileFront v path with
  | none => (false, v)
  | some (fileInode, ino, v) =>
      let blocksNeeded := (data.length + BLOCK_SIZE - 1) / BLOCK_SIZE
      match allocateFileBlocks v ino blocksNeeded fileInode with
      | (false, _, v) => (false, v)
      | (true, ino, v) =>
          let ino := { ino with fileSize := data.length }
          InodeManager.writeInode v fileInode ino

/-- `FileSystem::getFileInfo` body. -/
def getFileInfoVol (v : Vol) (path : List Char) : Option Inode :=
  match DirectoryManager.resolvePath v path 0 with
  | none => none
  | some k => InodeManager.readInode v k

/-- `FileSystem::listDir` body. -/
def listDirVol (v : Vol) (path : List Char) : List DirectoryEntry :=
  match DirectoryManager.resolvePath v path 0 with
  | none => []
  | some k => DirectoryManager.listDirectory v k

/-- `FileSystem::createDir` body. -/
def createDirVol (v : Vol) (path : List Char) : Bool × Vol :=
  let (parentPath, dirname) :=
    match splitAtLastSlash path with
    | some (d, f) => (d, f)
    | none => (['/'], path)
  match DirectoryManager.resolvePath v parentPath 0 with
  | none => (false, v)
  | some parentInode => DirectoryManager.createDirectory v dirname parentInode

/- FS-level wrappers: each facade call first checks `mounted_` and
otherwise acts on the volume alone — none of them reads or writes the
corruption fields. -/

/-- `FileSystem::createFile`. -/
def createFile (s : FS) (path : List Char) : Bool × FS :=
  if !s.mounted then (false, s)
  else
    let (r, v) := createFileVol s.vol path
    (r, { s with vol := v })

/-- `FileSystem::deleteFile` — note: NO `hasCorruption_` check. -/
def deleteFile (s : FS) (path : List Char) : Bool × FS :=
  if !s.mounted then (false, s)
  else
    let (r, v) := deleteFileVol s.vol path
    (r, { s with vol := v })

/-- `FileSystem::readFile`. -/
def readFile (s : FS) (path : List Char) : Option (List Nat) :=
  if !s.mounted then none else readFileVol s.vol path

/-- `FileSystem::writeFile` (src/src revision) — note: NO
`hasCorruption_` check. -/
def writeFile (s : FS) (path : List Char) (data : List Nat) : Bool × FS :=
  if !s.mounted then (false, s)
  else
    let (r, v) := writeFileVol s.vol path data
    (r, { s with vol := v })

/-- `FileSystem::createDir`. -/
def createDir (s : FS) (path : List Char) : Bool × FS :=
  if !s.mounted then (false, s)
  else
    let (r, v) := createDirVol s.vol path
    (r, { s with vol := v })

/-- `FileSystem::listDir`. -/
def listDir (s : FS) (path : List Char) : List DirectoryEntry :=
  if !s.mounted then [] else listDirVol s.vol path

/-- `FileSystem::getFileInfo` (`stat`). -/
def getFileInfo (s : FS) (path : List Char) : Option Inode :=
  if !s.mounted then none else getFileInfoVol s.vol path

/-- `FileSystem::getFreeBlocks`. -/
def getFreeBlocks (s : FS) : Nat := s.vol.sb.freeBlocks

end FileSystem

namespace FileSystemAlt

/-- `FileSystem::allocateFileBlocks` from `src/unnamed/part_006` lines
387–458: like the src/src revision it allocates direct then indirect
blocks, but it WRITES the payload chunk into each data block, does NOT
increment `blockCount`, initializes the indirect-pointer buffer to `-1`
(not 0), and does not record ownership of the indirect block itself. -/
def allocDirectLoopA (inodeNum : Nat) (data : List Nat) :
    Nat → Nat → Vol → Inode → Bool × Inode × Vol
  | _, 0, v, ino => (true, ino, v)
  | i, n + 1, v, ino =>
      match VirtualDisk.allocateBlock v with
      | (none, v) => (false, ino, v)
      | (some b, v) =>
          let ino := { ino with directBlocks := ino.directBlocks.set i b }
          let v := setBlockOwner v b inodeNum
          let chunk := (data.drop (i * BLOCK_SIZE)).take
            (min BLOCK_SIZE (data.length - i * BLOCK_SIZE))
          let (_, v) := VirtualDisk.writeBlock v b (.bytes chunk)
          allocDirectLoopA inodeNum data (i + 1) n v ino

/-- The indirect-entry loop of the part_006 revision: allocate, record the
pointer, record ownership, write the payload chunk `12 + i`. -/
def allocIndirectLoopA (inodeNum : Nat) (data : List Nat) :
    Nat → Nat → Vol → List Nat → Bool × List Nat × Vol
  | _, 0, v, ps => (true, ps, v)
  | i, n + 1, v, ps =>
      match VirtualDisk.allocateBlock v with
      | (none, v) => (false, ps, v)
      | (some b, v) =>
          let v := setBlockOwner v b inodeNum
          let chunk := (data.drop ((12 + i) * BLOCK_SIZE)).take
            (min BLOCK_SIZE (data.length - (12 + i) * BLOCK_SIZE))
          let (_, v) := VirtualDisk.writeBlock v b (.bytes chunk)
          allocIndirectLoopA inodeNum data (i + 1) n v (ps ++ [b])

/-- `FileSystem::allocateFileBlocks` (`src/unnamed/part_006`). -/
def allocateFileBlocks (v : Vol) (inodeNum : Nat) (ino : Inode)
    (data : List Nat) : Bool × Inode × Vol :=
  let blocksNeeded := (data.length + BLOCK_SIZE - 1) / BLOCK_SIZE
  if blocksNeeded == 0 then (true, ino, v)
  else
    match allocDirectLoopA inodeNum data 0 (min blocksNeeded 12) v ino with
    | (false, ino, v) => (false, ino, v)
    | (true, ino, v) =>
        if blocksNeeded > 12 then
          match VirtualDisk.allocateBlock v with
          | (none, v) => (false, ino, v)
          | (some ib, v) =>
              let ino := { ino with indirectBlock := ib }
              match allocIndirectLoopA inodeNum data 0 (blocksNeeded - 12) v [] with
              | (false, _, v) => (false, ino, v)
              | (true, ps, v) =>
                  let (_, v) := VirtualDisk.writeBlock v ib
                    (.ptrs (ps ++ List.replicate (PTRS_PER_BLOCK - ps.length) U32MAX))
                  (true, ino, v)
        else (true, ino, v)

/-- `FileSystem::writeFile` from `src/unnamed/part_006` lines 267–324:
same structure as the src/src revision (root-only lookup, free-old-first,
no rollback), but delegating to this revision's `allocateFileBlocks`,
which writes the payload and leaves `blockCount` untouched. -/
def writeFileVol (v : Vol) (path : List Char) (data : List Nat) : Bool × Vol :=
  match FileSystem.writeFileFront v path with
  | none => (false, v)
  | some (fileInode, ino, v) =>
      match allocateFileBlocks v fileInode ino data with
      | (false, _, v) => (false, v)
      | (true, ino, v) =>
          let ino := { ino with fileSize := data.length }
          InodeManager.writeInode v fileInode ino

/-- The part_006 facade `writeFile` with the `mounted_` check. -/
def writeFile (s : FS) (path : List Char) (data : List Nat) : Bool × FS :=
  if !s.mounted then (false, s)
  else
    let (r, v) := writeFileVol s.vol path data
    (r, { s with vol := v })

end FileSystemAlt

namespace DefragManager

/-- Number of maximal consecutive runs in an ascending block list (the
count loop shared by `countFileFragments` and `getFragmentationScore`). -/
def countRuns : List Nat → Nat
  | [] => 0
  | [_] => 1
  | a :: b :: rest => countRuns (b :: rest) + (if b == a + 1 then 0 else 1)

/-- Fragment count of a block list after sorting, as
`getFragmentationScore` and part_009's `countFileFragments` compute it. -/
def fragmentCount (bs : List Nat) : Nat :=
  countRuns (bs.mergeSort (fun a b => decide (a ≤ b)))

/-- One collected file of `DefragManager::defragmentFileSystem`
(`src/unnamed/part_009` lines 110–115): inode number, the in-memory
inode record, the payload read back from the old blocks, and the old
block list. -/
structure FileData where
  inodeNum : Nat
  inode : Inode
  data : List Nat
  oldBlocks : List Nat
deriving DecidableEq, Repr

/-- STEP 1 of `defragmentFileSystem` (part_009): collect every valid
regular file with nonzero size; `oldBlocks` is the list of VALID DIRECT
blocks only (the indirect block and its entries are ignored), and the
payload buffer is `fileSize` zeros overwritten by what the old direct
blocks hold. -/
def collectFile (v : Vol) (i : Nat) : Option FileData :=
  match InodeManager.readInode v i with
  | none => none
  | some ino =>
      if ino.isValid && ino.fileType == .REGULAR_FILE && decide (0 < ino.fileSize) then
        let oldBlocks := (ino.directBlocks.take 12).filter (validRef v.sb.totalBlocks)
        let raw := oldBlocks.foldl
          (fun acc b =>
            acc ++ ((v.blocks.getD b .zeros).asBytes).take
              (min BLOCK_SIZE (ino.fileSize - acc.length)))
          []
        some { inodeNum := i, inode := ino,
               data := raw ++ List.replicate (ino.fileSize - raw.length) 0,
               oldBlocks := oldBlocks }
      else none

/-- All collected files, in inode order. -/
def collectFiles (v : Vol) : List FileData :=
  (List.range v.sb.inodeCount).filterMap (collectFile v)

/-- STEP 2 of `defragmentFileSystem` (part_009): free every old block
(clearing ownership) and reset the in-memory inode record's pointers to
the `-1` sentinel and its `blockCount` to 0.  Nothing is written to the
inode table yet. -/
def drainFile (v : Vol) (fd : FileData) : FileData × Vol :=
  let v := fd.oldBlocks.foldl
    (fun v b => clearBlockOwner (VirtualDisk.freeBlock v b).2 b) v
  let ino := { fd.inode with directBlocks := List.replicate 12 U32MAX,
                             indirectBlock := U32MAX, blockCount := 0 }
  ({ fd with inode := ino }, v)

/-- STEP 2 over all collected files. -/
def drainAll (v : Vol) (fds : List FileData) : List FileData × Vol :=
  fds.foldl
    (fun (acc : List FileData × Vol) fd =>
      let (fd, v) := drainFile acc.2 fd
      (acc.1 ++ [fd], v))
    ([], v)

/-- The compact-allocation loop of STEP 3: allocate `n` blocks recording
ownership; a failed allocation `break`s, keeping what was allocated. -/
def allocCompactLoop (inodeNum : Nat) : Nat → Vol → List Nat × Vol
  | 0, v => ([], v)
  | n + 1, v =>
      match VirtualDisk.allocateBlockCompact v with
      | (none, v) => ([], v)
      | (some b, v) =>
          let v := setBlockOwner v b inodeNum
          let (ps, v) := allocCompactLoop inodeNum n v
          (b :: ps, v)

/-- STEP 3 of `defragmentFileSystem` (part_009) for one file: allocate
`ceil(|data| / B)` blocks compactly, write the payload chunks, record the
first (at most 12) new blocks into the direct slots bumping `blockCount`,
and persist the inode. -/
def reallocFile (v : Vol) (fd : FileData) : Vol :=
  let blocksNeeded := (fd.data.length + BLOCK_SIZE - 1) / BLOCK_SIZE
  let (newBlocks, v) := allocCompactLoop fd.inodeNum blocksNeeded v
  let v := (List.range newBlocks.length).foldl
    (fun v i =>
      (VirtualDisk.writeBlock v (newBlocks.getD i 0)
        (.bytes ((fd.data.drop (i * BLOCK_SIZE)).take
          (min BLOCK_SIZE (fd.data.length - i * BLOCK_SIZE))))).2)
    v
  let ino := (List.range (min newBlocks.length 12)).foldl
    (fun ino i =>
      { ino with directBlocks := ino.directBlocks.set i (newBlocks.getD i 0),
                 blockCount := ino.blockCount + 1 })
    fd.inode
  (InodeManager.writeInode v fd.inodeNum ino).2

/-- `DefragManager::defragmentFileSystem` from `src/unnamed/part_009`
lines 101–225 (the drain-and-reallocate revision), without the
benchmarking, progress-reporting and cancellation plumbing, none of which
touches the volume. -/
def defragmentFileSystem (v : Vol) : Vol :=
  let fds := collectFiles v
  let (fds, v) := drainAll v fds
  let v := fds.foldl reallocFile v
  VirtualDisk.writeSuperblock (VirtualDisk.writeBitmap v)

end DefragManager

namespace FileSystem

/-- `FileSystem::simulatePowerCut` (`src/src/FileSystem.cpp` lines
556–607): pick the valid inode with the strictly largest `modifiedTime`,
record its valid direct blocks as the corrupted set, zero its `fileSize`
on disk, and raise the corruption flag.  (`activeWriteInodeNum_` is set
and then immediately overwritten with `UINT32_MAX`.) -/
def simulatePowerCut (s : FS) : FS :=
  let v := s.vol
  let best := (List.range v.sb.inodeCount).foldl
    (fun (acc : Option Nat × Nat) i =>
      match InodeManager.readInode v i with
      | some ino =>
          if ino.isValid && decide (acc.2 < ino.modifiedTime) then
            (some i, ino.modifiedTime)
          else acc
      | none => acc)
    (none, 0)
  match best.1 with
  | some k =>
      match InodeManager.readInode v k with
      | some ino =>
          let corrupted := (ino.directBlocks.take 12).filter (validRef v.sb.totalBlocks)
          let (_, v) := InodeManager.writeInode v k { ino with fileSize := 0 }
          { s with vol := v, hasCorruption := true, corruptedBlocks := corrupted,
                   activeWriteInodeNum := U32MAX }
      | none =>
          { s with hasCorruption := true, corruptedBlocks := [],
                   activeWriteInodeNum := U32MAX }
  | none =>
      { s with hasCorruption := true, corruptedBlocks := [],
               activeWriteInodeNum := U32MAX }

/-- The partial-write loop of `simulatePowerCutDuringWrite`: for
`i < min(blocksToWrite, 12)` allocate a block, put it in direct slot `i`,
record ownership, and write the payload chunk.  Returns the allocated
blocks.  A failed allocation aborts, keeping partial state. -/
def powerCutWriteLoop (inodeNum : Nat) (fullData : List Nat) :
    Nat → Nat → Vol → Inode → List Nat → Option (Inode × List Nat × Vol) × Vol
  | _, 0, v, ino, acc => (some (ino, acc, v), v)
  | i, n + 1, v, ino, acc =>
      match VirtualDisk.allocateBlock v with
      | (none, v) => (none, v)
      | (some b, v) =>
          let ino := { ino with directBlocks := ino.directBlocks.set i b }
          let v := setBlockOwner v b inodeNum
          let chunk := (fullData.drop (i * BLOCK_SIZE)).take
            (min BLOCK_SIZE (fullData.length - i * BLOCK_SIZE))
          let (_, v) := VirtualDisk.writeBlock v b (.bytes chunk)
          powerCutWriteLoop inodeNum fullData (i + 1) n v ino (acc ++ [b])

/-- `FileSystem::simulatePowerCutDuringWrite` (`src/src/FileSystem.cpp`
lines 609–693).  The `double crashPercent` is modelled as the exact
fraction `crashNum / crashDen` (the driving code passes simple fractions,
for which the floating computation `size * percent` is exact). -/
def simulatePowerCutDuringWrite (s : FS) (filename : List Char)
    (fullData : List Nat) (crashNum crashDen : Nat) : Bool × FS :=
  if !s.mounted then (false, s)
  else
    let crashPoint := fullData.length * crashNum / crashDen
    let blocksToWrite := (crashPoint + BLOCK_SIZE - 1) / BLOCK_SIZE
    match createFileVol s.vol filename with
    | (false, v) => (false, { s with vol := v })
    | (true, v) =>
        match DirectoryManager.resolvePath v filename 0 with
        | none => (false, { s with vol := v })
        | some inodeNum =>
            match InodeManager.readInode v inodeNum with
            | none => (false, { s with vol := v })
            | some ino =>
                match powerCutWriteLoop inodeNum fullData 0
                    (min blocksToWrite 12) v ino [] with
                | (none, v) => (false, { s with vol := v })
                | (some (ino, allocated, _), v) =>
                    let ino := { ino with fileSize := crashPoint,
                                          blockCount := blocksToWrite }
                    let (_, v) := InodeManager.writeInode v inodeNum ino
                    let v := VirtualDisk.writeBitmap v
                    (true,
                      { s with vol := v, hasCorruption := true,
                               corruptedBlocks := allocated,
                               activeWriteInodeNum := inodeNum })

/-- Does inode `k` of volume `v` reference one of the `corrupted` blocks
through the direct-slot scan `runRecovery` uses (slots up to the first 0
entry)?  This is the membership test behind the `affectedInodes` set. -/
def referencesCorrupted (v : Vol) (corrupted : List Nat) (k : Nat) : Bool :=
  match InodeManager.readInode v k with
  | none => false
  | some ino =>
      ino.isValid &&
        ((ino.directBlocks.take 12).takeWhile (fun b => b != 0)).any
          (fun b => corrupted.contains b)

/-- Step 4 of `runRecovery` for one affected inode: remove its entry from
the root listing (first match only), free its direct blocks (up to the
first 0 slot) that are not in the corrupted list, then free the inode. -/
def recoverInode (mounted : Bool) (corrupted : List Nat) (v : Vol) (k : Nat) : Vol :=
  match InodeManager.readInode v k with
  | none => v
  | some ino =>
      let entries := if mounted then listDirVol v ['/'] else []
      let v :=
        match entries.find? (fun e => e.inodeNumber == k) with
        | some e => (DirectoryManager.removeEntry v 0 e.getName).2
        | none => v
      let v := ((ino.directBlocks.take 12).takeWhile (fun b => b != 0)).foldl
        (fun v b =>
          if corrupted.contains b then v else (VirtualDisk.freeBlock v b).2)
        v
      (InodeManager.freeInode v k).2

/-- `FileSystem::runRecovery` (`src/src/FileSystem.cpp` lines 695–775):
no-op without corruption; otherwise free every corrupted block, collect
the affected inodes by scanning the HARDCODED range `1 ≤ k < 128` (inode
0 and every inode `≥ 128` are never considered), clear each affected
inode (root-directory entry, remaining blocks, inode record), persist,
and clear the corruption state. -/
def runRecovery (s : FS) : Bool × FS :=
  if !s.hasCorruption then (true, s)
  else
    let v := s.corruptedBlocks.foldl (fun v b => (VirtualDisk.freeBlock v b).2) s.vol
    let affected := (List.range' 1 127).filter (referencesCorrupted v s.corruptedBlocks)
    let v := affected.foldl (recoverInode s.mounted s.corruptedBlocks) v
    let v := VirtualDisk.writeSuperblock (VirtualDisk.writeBitmap v)
    (true,
      { s with vol := v, hasCorruption := false, corruptedBlocks := [],
               activeWriteInodeNum := 0 })

end FileSystem

/-! ## Basic lemmas -/

theorem validRef_iff (total b : Nat) :
    validRef total b = true ↔ 0 < b ∧ b ≠ U32MAX ∧ b < total := by
  simp [validRef, and_assoc]

/-! ## Demonstration volumes used by the concrete theorems.

`demoFS` is a fresh 128-block volume (`524288` bytes): superblock at 0,
bitmap block 1, inode-table block 2, journal 3–66, data region 67–127,
16 inodes, root body at block 67. -/

namespace Demo

/-- Fresh 128-block volume. -/
def demoFS : FS := FileSystem.createFileSystem 524288

/-- `demoFS` after `create_file("/a")` (inode 1, no data blocks). -/
def demoA : FS := (FileSystem.createFile demoFS ['/', 'a']).2

/-- An inode whose first direct slot holds the system-region index 5. -/
def sysRefInode : Inode :=
  { Inode.reset with fileType := .REGULAR_FILE,
                     directBlocks := [5, 0, 0, 0, 0, 0, 0, 0, 0, 0, 0, 0] }

/-- `demoA` after `simulate_crash`: the root directory (inode 0) is the
most recently modified inode, so its body block 67 becomes the corrupted
set. -/
def demoCrash : FS := FileSystem.simulatePowerCut demoA

/-- `demoFS` after `create_dir("/d")` and `create_file("/d/f")`: the file
`f` exists only inside the subdirectory `d`. -/
def demoSub : FS :=
  (FileSystem.createFile (FileSystem.createDir demoFS ['/', 'd']).2
    ['/', 'd', '/', 'f']).2

/-- A 56-character filename (one over the 55-byte storage cap). -/
def longName : List Char := List.replicate 56 'x'

/-- `demoFS` after `create_file` with the 56-character name. -/
def demoLong : FS := (FileSystem.createFile demoFS ('/' :: longName)).2

/-- A minimal 70-block volume: data region `[67, 70)`, i.e. the root body
at 67 plus two allocatable blocks. -/
def demoU : FS := FileSystem.createFileSystem 286720

/-- `demoU` after `create_file("/a")` and a 100-byte `write_file("/a")`
(part_006 revision): `/a` holds block 68, one free block (69) remains. -/
def demoU2 : FS :=
  (FileSystemAlt.writeFile (FileSystem.createFile demoU ['/', 'a']).2
    ['/', 'a'] (List.replicate 100 9)).2

/-- The on-disk inode of `/a` in `demoU2`. -/
def demoInoA : Inode := (InodeManager.readInode demoU2.vol 1).getD Inode.reset

/-- A 3-block (12288-byte) payload — more than the 2 blocks free after
`/a`'s old extent is freed, so writing it to `/a` fails mid-allocation. -/
def bigData : List Nat := List.replicate 12288 5

/-- `demoCrash` after `run_recovery`. -/
def demoRecovered : FS := (FileSystem.runRecovery demoCrash).2

end Demo

/-! ## C1 — block enumeration and the sentinel range -/

/-- C1 counterexample.  The claim states that `getInodeBlocks` skips every
value outside `[dataBlocksStart, totalBlocks)`, including system-region
indices in `[1, dataBlocksStart)`.  On the fresh demo volume
(`dataBlocksStart = 67`) an inode whose direct slot holds 5 — a
system-region index — has 5 RETURNED by `getInodeBlocks`, not skipped. -/
theorem C1_counterexample :
    5 ∈ InodeManager.getInodeBlocks Demo.demoFS.vol Demo.sysRefInode ∧
      5 < Demo.demoFS.vol.sb.dataBlocksStart ∧
      0 < Demo.demoFS.vol.sb.dataBlocksStart := by decide

/-- C1 (amended): `getInodeBlocks` returns exactly the direct-slot values
and indirect-block entries lying in `(0, totalBlocks)` and distinct from
the all-ones sentinel; `0`, the all-ones value and values `≥ totalBlocks`
are skipped silently, but system-region indices in `[1, dataBlocksStart)`
are NOT treated as empty — they are returned. -/
theorem C1_block_enumeration (v : Vol) (ino : Inode) (b : Nat) :
    b ∈ InodeManager.getInodeBlocks v ino ↔
      (0 < b ∧ b ≠ U32MAX ∧ b < v.sb.totalBlocks) ∧
        (b ∈ ino.directBlocks.take 12 ∨
          (validRef v.sb.totalBlocks ino.indirectBlock = true ∧
            b ∈ (v.blocks.getD ino.indirectBlock .zeros).asPtrs)) := by
  unfold InodeManager.getInodeBlocks
  by_cases h : validRef v.sb.totalBlocks ino.indirectBlock = true
  · have hlt : ino.indirectBlock < v.sb.totalBlocks := ((validRef_iff _ _).1 h).2.2
    simp only [h, VirtualDisk.readBlock, hlt, if_true, if_pos, List.mem_append,
      List.mem_filter, validRef_iff, List.getD]
    tauto
  · simp only [h, if_false, List.append_nil, List.mem_filter, validRef_iff,
      if_neg, Bool.false_eq_true, List.mem_append, List.not_mem_nil, or_false]
    tauto

/-! ## C2 — no corruption gating in the facade -/

/-- C2 counterexample.  In the corrupted state `demoCrash`
(`has_corruption = true`, corrupted set `[67]`), `write_file("/a", …)`
and `delete_file("/a")` both SUCCEED and mutate the volume, instead of
being rejected.  (`write_file` allocates a block, changing `freeBlocks`;
`delete_file` removes the root entry.) -/
theorem C2_counterexample :
    Demo.demoCrash.hasCorruption = true ∧
      (FileSystem.writeFile Demo.demoCrash ['/', 'a'] [9, 9]).1 = true ∧
      (FileSystem.writeFile Demo.demoCrash ['/', 'a'] [9, 9]).2.vol.sb.freeBlocks ≠
        Demo.demoCrash.vol.sb.freeBlocks ∧
      (FileSystem.deleteFile Demo.demoCrash ['/', 'a']).1 = true ∧
      (FileSystem.listDir (FileSystem.deleteFile Demo.demoCrash ['/', 'a']).2
          ['/']).length ≠
        (FileSystem.listDir Demo.demoCrash ['/']).length := by decide

/-- C2 (amended): the facade does not gate mutating operations on the
corruption flag at all — `writeFile` and `deleteFile` read and write
neither `hasCorruption_` nor `corruptedBlocks_`, so they behave on a
corrupted volume exactly as on a clean one (corruption gating exists only
in the GUI layer). -/
theorem C2_no_corruption_gating (s : FS) (b : Bool) (cb : List Nat) (aw : Nat)
    (p : List Char) (d : List Nat) :
    (FileSystem.writeFile
        { s with hasCorruption := b, corruptedBlocks := cb,
                 activeWriteInodeNum := aw } p d =
      ((FileSystem.writeFile s p d).1,
        { (FileSystem.writeFile s p d).2 with
            hasCorruption := b, corruptedBlocks := cb,
            activeWriteInodeNum := aw })) ∧
    (FileSystem.deleteFile
        { s with hasCorruption := b, corruptedBlocks := cb,
                 activeWriteInodeNum := aw } p =
      ((FileSystem.deleteFile s p).1,
        { (FileSystem.deleteFile s p).2 with
            hasCorruption := b, corruptedBlocks := cb,
            activeWriteInodeNum := aw })) := by
  obtain ⟨v, m, hc, cbs, awn⟩ := s
  constructor
  · simp only [FileSystem.writeFile]
    cases m <;> simp
  · simp only [FileSystem.deleteFile]
    cases m <;> simp

/-! ## C9 — `writeFile` resolves only via the root directory -/

theorem findIdx_slash_append (l r : List Char) (h : '/' ∉ l) :
    (l ++ '/' :: r).findIdx? (fun c => c == '/') = some l.length := by
  induction l with
  | nil => simp [List.findIdx?]
  | cons c cs ih =>
      have hc : c ≠ '/' := fun hc => h (hc ▸ List.mem_cons_self c cs)
      have hcs : '/' ∉ cs := fun hm => h (List.mem_cons_of_mem c hm)
      simp only [List.cons_append, List.findIdx?_cons, beq_iff_eq]
      rw [if_neg hc]
      simp [ih hcs]

theorem writeFileName_subdir (dir name : List Char) (h : '/' ∉ name) :
    FileSystem.writeFileName ('/' :: dir ++ '/' :: name) = name := by
  have hrev : ('/' :: dir ++ '/' :: name).reverse =
      name.reverse ++ '/' :: (dir.reverse ++ ['/']) := by
    simp
  have hnr : '/' ∉ name.reverse := by simpa using h
  have hfind := findIdx_slash_append name.reverse (dir.reverse ++ ['/']) hnr
  unfold FileSystem.writeFileName splitAtLastSlash
  rw [hrev, hfind]
  have hlen : ('/' :: dir ++ '/' :: name).length = dir.length + name.length + 2 := by
    simp; omega
  simp only [List.length_reverse, hlen]
  have hidx : dir.length + name.length + 2 - 1 - name.length + 1 =
      (('/' :: dir) ++ ['/']).length := by simp; omega
  have hsplit : ('/' :: dir ++ '/' :: name) = (('/' :: dir) ++ ['/']) ++ name := by
    simp
  rw [hidx, hsplit, List.drop_left]

theorem writeFileName_root (name : List Char) (h : '/' ∉ name) :
    FileSystem.writeFileName ('/' :: name) = name := by
  have hnr : '/' ∉ name.reverse := by simpa using h
  have hfind := findIdx_slash_append name.reverse ([] : List Char) hnr
  unfold FileSystem.writeFileName splitAtLastSlash
  have hrev : ('/' :: name).reverse = name.reverse ++ '/' :: ([] : List Char) := by simp
  rw [hrev, hfind]
  simp

theorem writeFileVol_only_name (v : Vol) (p q : List Char) (d : List Nat)
    (h : FileSystem.writeFileName p = FileSystem.writeFileName q) :
    FileSystem.writeFileVol v p d = FileSystem.writeFileVol v q d := by
  unfold FileSystem.writeFileVol FileSystem.writeFileFront
  rw [h]

theorem writeFileVolAlt_only_name (v : Vol) (p q : List Char) (d : List Nat)
    (h : FileSystem.writeFileName p = FileSystem.writeFileName q) :
    FileSystemAlt.writeFileVol v p d = FileSystemAlt.writeFileVol v q d := by
  unfold FileSystemAlt.writeFileVol FileSystem.writeFileFront
  rw [h]

/-- C9: `writeFile` looks the FINAL path component up in the root
directory only.  For a slash-free `name`, writing to `/dir/name` is the
very same operation as writing to `/name` (both facade revisions), and
when `name` is absent from the root directory the write fails and leaves
the state unchanged — even if `/dir/name` exists. -/
theorem C9_writeFile_root_only (s : FS) (d : List Nat) (dir name : List Char)
    (h : '/' ∉ name) :
    (FileSystem.writeFile s ('/' :: dir ++ '/' :: name) d =
        FileSystem.writeFile s ('/' :: name) d) ∧
    (FileSystemAlt.writeFile s ('/' :: dir ++ '/' :: name) d =
        FileSystemAlt.writeFile s ('/' :: name) d) ∧
    (DirectoryManager.lookupEntry s.vol 0 name = none →
        FileSystem.writeFile s ('/' :: dir ++ '/' :: name) d = (false, s)) := by
  have hname : FileSystem.writeFileName ('/' :: dir ++ '/' :: name) =
      FileSystem.writeFileName ('/' :: name) := by
    rw [writeFileName_subdir dir name h, writeFileName_root name h]
  refine ⟨?_, ?_, ?_⟩
  · unfold FileSystem.writeFile
    rw [writeFileVol_only_name s.vol _ _ d hname]
  · unfold FileSystemAlt.writeFile
    rw [writeFileVolAlt_only_name s.vol _ _ d hname]
  · intro hnone
    obtain ⟨v, m, hc, cbs, awn⟩ := s
    unfold FileSystem.writeFile
    cases m with
    | false => simp
    | true =>
        simp only [Bool.not_true, Bool.false_eq_true, if_false]
        unfold FileSystem.writeFileVol FileSystem.writeFileFront
        rw [writeFileName_subdir dir name h]
        simp_all

/-- C9 witness: on `demoSub`, where `/d/f` exists but the root has no
entry `f`, `write_file("/d/f", …)` fails and changes nothing. -/
theorem C9_witness :
    '/' ∉ ['f'] ∧
      DirectoryManager.lookupEntry Demo.demoSub.vol 0 ['f'] = none ∧
      FileSystem.writeFile Demo.demoSub ['/', 'd', '/', 'f'] [1, 2, 3] =
        (false, Demo.demoSub) :=
  ⟨by decide, by decide,
    (C9_writeFile_root_only Demo.demoSub [1, 2, 3] ['d'] ['f']
      (by decide)).2.2 (by decide)⟩

/-! ## C10 — filename truncation to 55 bytes -/

/-- C10: directory entries store at most 55 name characters.  For any
name longer than 55: the constructed entry's stored name is exactly the
first 55 characters (so `add_entry`/`create_file` silently truncate), and
on any volume whose directory listing holds only entries with
`nameLength ≤ 55` — as every entry built by the constructor is — looking
the full name up fails. -/
theorem C10_name_truncation (name : List Char) (h : 55 < name.length) :
    (∀ ino ty, (DirectoryEntry.make ino name ty).getName = name.take 55 ∧
        (DirectoryEntry.make ino name ty).getName ≠ name) ∧
    (∀ (v : Vol) (k : Nat),
        (∀ e ∈ DirectoryManager.listDirectory v k, e.nameLength ≤ 55) →
        DirectoryManager.lookupEntry v k name = none) := by
  have hmin : min (MAX_FILENAME_LENGTH - 1) name.length = 55 := by
    unfold MAX_FILENAME_LENGTH
    omega
  constructor
  · intro ino ty
    constructor
    · simp [DirectoryEntry.make, DirectoryEntry.getName, hmin, List.take_take]
    · intro heq
      have : (DirectoryEntry.make ino name ty).getName.length = name.length := by
        rw [heq]
      simp [DirectoryEntry.make, DirectoryEntry.getName, hmin, List.take_take,
        List.length_take] at this
      omega
  · intro v k hall
    unfold DirectoryManager.lookupEntry
    cases hr : InodeManager.readInode v k with
    | none => rfl
    | some dirInode =>
        have hlist : DirectoryManager.listDirectory v k =
            DirectoryManager.readDirectoryEntries v dirInode := by
          unfold DirectoryManager.listDirectory
          rw [hr]
        have hfind :
            (DirectoryManager.readDirectoryEntries v dirInode).find?
              (fun e => e.getName == name) = none := by
          rw [List.find?_eq_none]
          intro e he
          have hlen : e.nameLength ≤ 55 := hall e (by rw [hlist]; exact he)
          have hglen : e.getName.length ≤ 55 := by
            unfold DirectoryEntry.getName
            simp only [List.length_take]
            omega
          simp only [beq_iff_eq]
          intro heq
          rw [heq] at hglen
          omega
        simp [hfind]

/-! ## Freeness-monotonicity machinery (used by C4 and C5).

Recovery and the failed-write path free blocks and never re-allocate, so
"block `b` is free" is preserved by everything they do afterwards.  The
only subtle case is `removeEntry`: its `writeDirectoryEntries` call can
in principle allocate, but shrinking a directory read from its own blocks
never needs more blocks than it has, so the grow loop is a no-op and the
bitmap is untouched. -/

/-- `w` keeps every block that is free in `v` free. -/
def keepsFree (v w : Vol) : Prop :=
  ∀ b, VirtualDisk.isBlockFree v b = true → VirtualDisk.isBlockFree w b = true

theorem keepsFree_rfl (v : Vol) : keepsFree v v := fun _ h => h

theorem keepsFree_trans {u v w : Vol} (h1 : keepsFree u v) (h2 : keepsFree v w) :
    keepsFree u w := fun b hb => h2 b (h1 b hb)

theorem keepsFree_of_fields {v w : Vol} (hb : w.bitmap = v.bitmap)
    (ht : w.sb.totalBlocks = v.sb.totalBlocks) : keepsFree v w := by
  intro b
  unfold VirtualDisk.isBlockFree
  rw [hb, ht]
  exact id

theorem isBlockFree_set_true (v : Vol) (i b : Nat) :
    VirtualDisk.isBlockFree v b = true →
    (if b ≥ v.sb.totalBlocks then false else (v.bitmap.set i true).getD b false) = true := by
  unfold VirtualDisk.isBlockFree
  intro h
  by_cases hlt : b ≥ v.sb.totalBlocks
  · rw [if_pos hlt] at h
    exact absurd h (by simp)
  · rw [if_neg hlt] at h ⊢
    rcases eq_or_ne b i with rfl | hne
    · by_cases hblen : b < v.bitmap.length
      · simp [List.getD, List.getElem?_set, hblen]
      · have : v.bitmap.set b true = v.bitmap := List.set_eq_of_length_le (by omega)
        rw [this]
        exact h
    · simpa [List.getD, List.getElem?_set, hne.symm] using h

theorem keepsFree_freeBlock (v : Vol) (b' : Nat) :
    keepsFree v (VirtualDisk.freeBlock v b').2 := by
  intro b hb
  unfold VirtualDisk.freeBlock
  split
  · exact hb
  · split
    · exact hb
    · split
      · exact isBlockFree_set_true v b' b hb
      · exact hb

theorem keepsFree_foldl {α : Type} (f : Vol → α → Vol)
    (hf : ∀ v a, keepsFree v (f v a)) :
    ∀ (l : List α) (v : Vol), keepsFree v (l.foldl f v) := by
  intro l
  induction l with
  | nil => exact fun v => keepsFree_rfl v
  | cons a as ih => exact fun v => keepsFree_trans (hf v a) (ih (f v a))

/-- Every block of `asDirents` output: always exactly 64 entries. -/
theorem asDirents_length (bd : BlockData) : bd.asDirents.length = 64 := by
  cases bd <;> simp [BlockData.asDirents, ENTRIES_PER_BLOCK] <;> omega

/-- A directory read never yields more entries than 64 per body block. -/
theorem readDirectoryEntries_length_le (v : Vol) (dirInode : Inode) :
    (DirectoryManager.readDirectoryEntries v dirInode).length ≤
      64 * (InodeManager.getInodeBlocks v dirInode).length := by
  unfold DirectoryManager.readDirectoryEntries
  generalize InodeManager.getInodeBlocks v dirInode = bs
  induction bs with
  | nil => simp
  | cons b rest ih =>
      simp only [List.map_cons, List.flatten_cons, List.length_append,
        List.length_cons]
      have h1 : ((v.blocks.getD b BlockData.zeros).asDirents.filter
          DirectoryEntry.isValid).length ≤ 64 := by
        calc ((v.blocks.getD b BlockData.zeros).asDirents.filter
              DirectoryEntry.isValid).length
            ≤ (v.blocks.getD b BlockData.zeros).asDirents.length :=
              List.length_filter_le _ _
          _ = 64 := asDirents_length _
      omega

/-- "`w` has the same bitmap and superblock as `v`" — the shape of fact
that lets facts about free bits travel through pure-write phases. -/
def presBS (v w : Vol) : Prop := w.bitmap = v.bitmap ∧ w.sb = v.sb

theorem presBS_rfl (v : Vol) : presBS v v := ⟨rfl, rfl⟩

theorem presBS_trans {u v w : Vol} (h1 : presBS u v) (h2 : presBS v w) :
    presBS u w := ⟨h2.1.trans h1.1, h2.2.trans h1.2⟩

theorem presBS_writeBlock (v : Vol) (b : Nat) (d : BlockData) :
    presBS v (VirtualDisk.writeBlock v b d).2 := by
  unfold VirtualDisk.writeBlock presBS
  split <;> simp

theorem presBS_writeInode (v : Vol) (k : Nat) (ino : Inode) :
    presBS v (InodeManager.writeInode v k ino).2 := by
  unfold InodeManager.writeInode presBS
  split <;> simp

theorem presBS_foldl {α : Type} (f : Vol → α → Vol)
    (hf : ∀ v a, presBS v (f v a)) :
    ∀ (l : List α) (v : Vol), presBS v (l.foldl f v) := by
  intro l
  induction l with
  | nil => exact fun v => presBS_rfl v
  | cons a as ih => exact fun v => presBS_trans (hf v a) (ih (f v a))

/-- Transitivity with the later step first, so that unification can fix
the intermediate state from it. -/
theorem presBS_trans2 {u v w : Vol} (h2 : presBS v w) (h1 : presBS u v) :
    presBS u w := presBS_trans h1 h2

theorem presBS_clockBump (v : Vol) : presBS v { v with clock := v.clock + 1 } :=
  ⟨rfl, rfl⟩

theorem presBS_writePhase (v : Vol) (ino : Inode) (blocks : List Nat)
    (entries : List DirectoryEntry) (blocksNeeded : Nat) :
    presBS v (DirectoryManager.writePhase v ino blocks entries blocksNeeded).2 := by
  unfold DirectoryManager.writePhase
  simp only [Vol.tick]
  exact presBS_trans2 (presBS_writeInode _ _ _)
    (presBS_trans2 (presBS_clockBump _)
      (presBS_trans2 (presBS_foldl _ (fun v a => presBS_writeBlock v _ _) _ _)
        (presBS_foldl _ (fun v a => presBS_writeBlock v _ _) _ v)))

/-- In `removeEntry`'s successful branch the entries being written come
from the directory's own blocks, so `blocksNeeded ≤ blocks.length`, the
grow loop never runs, and the bitmap and superblock are untouched. -/
theorem presBS_writeDirectoryEntries_shrink (v : Vol) (dirInode : Inode)
    (entries : List DirectoryEntry)
    (hcap : (if entries.isEmpty then 1
        else (entries.length + ENTRIES_PER_BLOCK - 1) / ENTRIES_PER_BLOCK) ≤
      (InodeManager.getInodeBlocks v dirInode).length) :
    presBS v (DirectoryManager.writeDirectoryEntries v dirInode entries).2 := by
  unfold DirectoryManager.writeDirectoryEntries
  have hzero : (if entries.isEmpty then 1
      else (entries.length + ENTRIES_PER_BLOCK - 1) / ENTRIES_PER_BLOCK) -
      (InodeManager.getInodeBlocks v dirInode).length = 0 := by omega
  simp only [hzero, DirectoryManager.growBlocks]
  exact presBS_writePhase v dirInode _ entries _

/-- `removeEntry` never touches the bitmap or superblock. -/
theorem presBS_removeEntry (v : Vol) (k : Nat) (name : List Char) :
    presBS v (DirectoryManager.removeEntry v k name).2 := by
  unfold DirectoryManager.removeEntry
  cases hr : InodeManager.readInode v k with
  | none => exact presBS_rfl v
  | some dirInode =>
      simp only
      by_cases hfound : (((DirectoryManager.readDirectoryEntries v
          dirInode).filter (fun e => e.getName != name)).length ==
          (DirectoryManager.readDirectoryEntries v dirInode).length) = true
      · rw [if_pos hfound]
        exact presBS_rfl v
      · rw [if_neg hfound]
        have hle : ((DirectoryManager.readDirectoryEntries v dirInode).filter
            (fun e => e.getName != name)).length ≤
            (DirectoryManager.readDirectoryEntries v dirInode).length :=
          List.length_filter_le _ _
        have hlt : ((DirectoryManager.readDirectoryEntries v dirInode).filter
            (fun e => e.getName != name)).length <
            (DirectoryManager.readDirectoryEntries v dirInode).length := by
          simp only [beq_iff_eq] at hfound
          omega
        have hcap0 := readDirectoryEntries_length_le v dirInode
        apply presBS_writeDirectoryEntries_shrink
        have h64 : ENTRIES_PER_BLOCK = 64 := rfl
        by_cases hemp : ((DirectoryManager.readDirectoryEntries v
            dirInode).filter (fun e => e.getName != name)).isEmpty
        · rw [if_pos hemp]
          omega
        · rw [if_neg hemp]
          rw [h64]
          omega

theorem keepsFree_of_presBS {v w : Vol} (h : presBS v w) : keepsFree v w :=
  keepsFree_of_fields h.1 (by rw [h.2])

theorem keepsFree_trans2 {u v w : Vol} (h2 : keepsFree v w) (h1 : keepsFree u v) :
    keepsFree u w := keepsFree_trans h1 h2

theorem keepsFree_freeInode (v : Vol) (k : Nat) :
    keepsFree v (InodeManager.freeInode v k).2 := by
  unfold InodeManager.freeInode
  cases hr : InodeManager.readInode v k with
  | none => exact keepsFree_rfl v
  | some ino =>
      simp only
      exact keepsFree_trans2
        (keepsFree_of_presBS (presBS_writeInode _ k Inode.reset))
        (keepsFree_foldl _ (fun v b => keepsFree_freeBlock v b) _ v)

theorem keepsFree_recoverInode (mounted : Bool) (corrupted : List Nat)
    (v : Vol) (k : Nat) :
    keepsFree v (FileSystem.recoverInode mounted corrupted v k) := by
  unfold FileSystem.recoverInode
  cases hr : InodeManager.readInode v k with
  | none => exact keepsFree_rfl v
  | some ino =>
      simp only
      cases hfind : ((if mounted then FileSystem.listDirVol v ['/'] else
          ([] : List DirectoryEntry)).find? (fun e => e.inodeNumber == k)) with
      | none =>
          simp only [hfind]
          refine keepsFree_trans (keepsFree_foldl _ ?_ _ _)
            (keepsFree_freeInode _ k)
          intro v' b
          split
          · exact keepsFree_rfl v'
          · exact keepsFree_freeBlock v' b
      | some e =>
          simp only [hfind]
          refine keepsFree_trans
            (keepsFree_of_presBS (presBS_removeEntry v 0 e.getName)) ?_
          refine keepsFree_trans (keepsFree_foldl _ ?_ _ _)
            (keepsFree_freeInode _ k)
          intro v' b
          split
          · exact keepsFree_rfl v'
          · exact keepsFree_freeBlock v' b

/-- `freeBlock` leaves a data-region block free (it either flips it free
or it already was). -/
theorem freeBlock_makes_free (v : Vol) (b : Nat)
    (h1 : v.sb.dataBlocksStart ≤ b) (h2 : b < v.sb.totalBlocks)
    (h3 : b < v.bitmap.length) :
    VirtualDisk.isBlockFree (VirtualDisk.freeBlock v b).2 b = true := by
  have hge : ¬ (b ≥ v.sb.totalBlocks) := by omega
  have hlt : ¬ (b < v.sb.dataBlocksStart) := by omega
  unfold VirtualDisk.freeBlock
  rw [if_neg hge, if_neg hlt]
  by_cases hfree : v.bitmap.getD b false = false
  · rw [if_pos hfree]
    unfold VirtualDisk.isBlockFree
    rw [if_neg (show ¬ (b ≥ v.sb.totalBlocks) from hge)]
    simp [List.getD, List.getElem?_set, h3]
  · rw [if_neg hfree]
    unfold VirtualDisk.isBlockFree
    rw [if_neg hge]
    simpa using hfree

/-- `freeBlock` changes neither the superblock layout constants nor the
bitmap length. -/
theorem freeBlock_dims (v : Vol) (b : Nat) :
    (VirtualDisk.freeBlock v b).2.sb.dataBlocksStart = v.sb.dataBlocksStart ∧
      (VirtualDisk.freeBlock v b).2.sb.totalBlocks = v.sb.totalBlocks ∧
      (VirtualDisk.freeBlock v b).2.bitmap.length = v.bitmap.length := by
  unfold VirtualDisk.freeBlock
  split
  · exact ⟨rfl, rfl, rfl⟩
  · split
    · exact ⟨rfl, rfl, rfl⟩
    · split
      · exact ⟨rfl, rfl, by simp⟩
      · exact ⟨rfl, rfl, rfl⟩

/-- After freeing every block of a list of in-range data blocks, each of
them is free. -/
theorem foldl_freeBlock_all :
    ∀ (l : List Nat) (v : Vol),
      (∀ b ∈ l, v.sb.dataBlocksStart ≤ b ∧ b < v.sb.totalBlocks ∧
        b < v.bitmap.length) →
      ∀ b ∈ l, VirtualDisk.isBlockFree
        (l.foldl (fun v b => (VirtualDisk.freeBlock v b).2) v) b = true := by
  intro l
  induction l with
  | nil => intro v _ b hb; cases hb
  | cons a as ih =>
      intro v hall b hb
      simp only [List.foldl_cons]
      rcases List.mem_cons.1 hb with rfl | hmem
      · have ⟨ha1, ha2, ha3⟩ := hall b (List.mem_cons_self _ _)
        exact keepsFree_foldl _ (fun v b => keepsFree_freeBlock v b) as _ b
          (freeBlock_makes_free v b ha1 ha2 ha3)
      · apply ih (VirtualDisk.freeBlock v a).2 _ b hmem
        intro c hc
        have ⟨hc1, hc2, hc3⟩ := hall c (List.mem_cons_of_mem a hc)
        obtain ⟨d1, d2, d3⟩ := freeBlock_dims v a
        exact ⟨by omega, by omega, by omega⟩

/-! ## C4 — crash recovery -/

/-- C4 counterexample.  `demoCrash` arises from `create_file("/a")` then
`simulate_crash`; the corrupted set is `[67]`, the root directory's body
block.  After `run_recovery`, `has_corruption` is cleared as the claim
says — but the LIVE root inode (inode 0, a valid directory) still
references block 67 of the previously reported corrupted set, so "no
live inode references any block in the previously reported corrupted
set" is false, and the root directory has lost its entries. -/
theorem C4_counterexample :
    Demo.demoRecovered.hasCorruption = false ∧
      Demo.demoCrash.corruptedBlocks = [67] ∧
      (InodeManager.readInode Demo.demoRecovered.vol 0).map Inode.isValid =
        some true ∧
      67 ∈ InodeManager.getInodeBlocks Demo.demoRecovered.vol
        ((InodeManager.readInode Demo.demoRecovered.vol 0).getD Inode.reset) ∧
      FileSystem.listDir Demo.demoRecovered ['/'] = [] := by decide

/-- C4 (amended): after `simulate_crash*` sets the corruption state, a
`run_recovery` on any facade state whose corrupted set lies in the data
region returns success, clears `has_corruption` and the corrupted set,
and leaves every block of the previously reported corrupted set free in
the bitmap.  (The stronger original claim fails: the affected-inode scan
covers only inodes 1–127 and skips directories, so live inodes outside
that scan — the root above — may keep references into the corrupted
set.) -/
theorem C4_recovery (s : FS) (h1 : s.hasCorruption = true)
    (h2 : ∀ b ∈ s.corruptedBlocks,
      s.vol.sb.dataBlocksStart ≤ b ∧ b < s.vol.sb.totalBlocks ∧
        b < s.vol.bitmap.length) :
    (FileSystem.runRecovery s).1 = true ∧
      (FileSystem.runRecovery s).2.hasCorruption = false ∧
      (FileSystem.runRecovery s).2.corruptedBlocks = [] ∧
      ∀ b ∈ s.corruptedBlocks,
        VirtualDisk.isBlockFree (FileSystem.runRecovery s).2.vol b = true := by
  unfold FileSystem.runRecovery
  rw [h1]
  simp only [Bool.not_true, Bool.false_eq_true, if_false,
    VirtualDisk.writeBitmap, VirtualDisk.writeSuperblock]
  refine ⟨trivial, trivial, trivial, ?_⟩
  intro b hb
  have hfree : VirtualDisk.isBlockFree
      (s.corruptedBlocks.foldl (fun v b => (VirtualDisk.freeBlock v b).2) s.vol)
      b = true :=
    foldl_freeBlock_all s.corruptedBlocks s.vol h2 b hb
  exact keepsFree_foldl _
    (fun v k => keepsFree_recoverInode s.mounted s.corruptedBlocks v k) _ _ b hfree

set_option maxRecDepth 8000 in
/-- C4 witness: the amended theorem applied to the concrete crashed state
`demoCrash` (corrupted set `[67]`, data region `[67, 128)`). -/
theorem C4_witness :
    Demo.demoCrash.hasCorruption = true ∧
      ((FileSystem.runRecovery Demo.demoCrash).1 = true ∧
        (FileSystem.runRecovery Demo.demoCrash).2.hasCorruption = false ∧
        (FileSystem.runRecovery Demo.demoCrash).2.corruptedBlocks = [] ∧
        ∀ b ∈ Demo.demoCrash.corruptedBlocks,
          VirtualDisk.isBlockFree (FileSystem.runRecovery Demo.demoCrash).2.vol
            b = true) :=
  ⟨by decide, C4_recovery Demo.demoCrash (by decide) (by decide)⟩

/-! ## Inode-table preservation.

The failed-write paths never touch the inode table: the free phase,
the allocator and the chunk writes change bitmap, superblock counters,
block store and ownership only. -/

/-- "`w` has the same inode table (and table size) as `v`". -/
def presIno (v w : Vol) : Prop :=
  w.inodes = v.inodes ∧ w.sb.inodeCount = v.sb.inodeCount

theorem presIno_rfl (v : Vol) : presIno v v := ⟨rfl, rfl⟩

theorem presIno_trans {u v w : Vol} (h1 : presIno u v) (h2 : presIno v w) :
    presIno u w := ⟨h2.1.trans h1.1, h2.2.trans h1.2⟩

/-- Transitivity with the later step first (for unification). -/
theorem presIno_trans2 {u v w : Vol} (h2 : presIno v w) (h1 : presIno u v) :
    presIno u w := presIno_trans h1 h2

theorem presIno_freeBlock (v : Vol) (b : Nat) :
    presIno v (VirtualDisk.freeBlock v b).2 := by
  unfold VirtualDisk.freeBlock presIno
  split
  · exact ⟨rfl, rfl⟩
  · split
    · exact ⟨rfl, rfl⟩
    · split
      · exact ⟨rfl, rfl⟩
      · exact ⟨rfl, rfl⟩

theorem presIno_clearBlockOwner (v : Vol) (b : Nat) :
    presIno v (clearBlockOwner v b) := ⟨rfl, rfl⟩

theorem presIno_setBlockOwner (v : Vol) (b k : Nat) :
    presIno v (setBlockOwner v b k) := ⟨rfl, rfl⟩

theorem presIno_writeBlock (v : Vol) (b : Nat) (d : BlockData) :
    presIno v (VirtualDisk.writeBlock v b d).2 := by
  unfold VirtualDisk.writeBlock presIno
  split <;> exact ⟨rfl, rfl⟩

theorem presIno_allocateBlock (v : Vol) :
    presIno v (VirtualDisk.allocateBlock v).2 := by
  unfold VirtualDisk.allocateBlock
  cases VirtualDisk.findFree v with
  | none => exact ⟨rfl, rfl⟩
  | some i => exact ⟨rfl, rfl⟩

theorem presIno_foldl {α : Type} (f : Vol → α → Vol)
    (hf : ∀ v a, presIno v (f v a)) :
    ∀ (l : List α) (v : Vol), presIno v (l.foldl f v) := by
  intro l
  induction l with
  | nil => exact fun v => presIno_rfl v
  | cons a as ih => exact fun v => presIno_trans (hf v a) (ih (f v a))

theorem presIno_allocDirectLoopA (inodeNum : Nat) (d : List Nat) :
    ∀ (n i : Nat) (v : Vol) (ino : Inode),
      presIno v (FileSystemAlt.allocDirectLoopA inodeNum d i n v ino).2.2 := by
  intro n
  induction n with
  | zero => intro i v ino; exact presIno_rfl v
  | succ m ih =>
      intro i v ino
      unfold FileSystemAlt.allocDirectLoopA
      cases halloc : VirtualDisk.allocateBlock v with
      | mk ob v' =>
          have hv' : presIno v v' := by
            have := presIno_allocateBlock v
            rw [halloc] at this
            exact this
          cases ob with
          | none => exact hv'
          | some b =>
              simp only
              exact presIno_trans2 (ih (i + 1) _ _)
                (presIno_trans2 (presIno_writeBlock _ b _)
                  (presIno_trans2 (presIno_setBlockOwner v' b inodeNum) hv'))

theorem presIno_allocIndirectLoopA (inodeNum : Nat) (d : List Nat) :
    ∀ (n i : Nat) (v : Vol) (ps : List Nat),
      presIno v (FileSystemAlt.allocIndirectLoopA inodeNum d i n v ps).2.2 := by
  intro n
  induction n with
  | zero => intro i v ps; exact presIno_rfl v
  | succ m ih =>
      intro i v ps
      unfold FileSystemAlt.allocIndirectLoopA
      cases halloc : VirtualDisk.allocateBlock v with
      | mk ob v' =>
          have hv' : presIno v v' := by
            have := presIno_allocateBlock v
            rw [halloc] at this
            exact this
          cases ob with
          | none => exact hv'
          | some b =>
              simp only
              exact presIno_trans2 (ih (i + 1) _ _)
                (presIno_trans2 (presIno_writeBlock _ b _)
                  (presIno_trans2 (presIno_setBlockOwner v' b inodeNum) hv'))

theorem presIno_allocateFileBlocksA (v : Vol) (inodeNum : Nat) (ino : Inode)
    (d : List Nat) :
    presIno v (FileSystemAlt.allocateFileBlocks v inodeNum ino d).2.2 := by
  unfold FileSystemAlt.allocateFileBlocks
  cases hz : ((d.length + BLOCK_SIZE - 1) / BLOCK_SIZE == 0) with
  | true =>
      rw [if_pos hz]
      exact presIno_rfl v
  | false =>
      rw [if_neg (by simp [hz])]
      rcases hdl : FileSystemAlt.allocDirectLoopA inodeNum d 0
          (min ((d.length + BLOCK_SIZE - 1) / BLOCK_SIZE) 12) v ino with
        ⟨okd, inod, vd⟩
      have hd : presIno v vd := by
        have := presIno_allocDirectLoopA inodeNum d
          (min ((d.length + BLOCK_SIZE - 1) / BLOCK_SIZE) 12) 0 v ino
        rw [hdl] at this
        exact this
      cases okd with
      | false => exact hd
      | true =>
          simp only
          by_cases hgt : ((d.length + BLOCK_SIZE - 1) / BLOCK_SIZE > 12)
          · rw [if_pos hgt]
            cases hib : VirtualDisk.allocateBlock vd with
            | mk oib vib =>
                have hv2 : presIno vd vib := by
                  have := presIno_allocateBlock vd
                  rw [hib] at this
                  exact this
                cases oib with
                | none => exact presIno_trans hd hv2
                | some ib =>
                    simp only
                    rcases hil : FileSystemAlt.allocIndirectLoopA inodeNum d 0
                        ((d.length + BLOCK_SIZE - 1) / BLOCK_SIZE - 12)
                        vib [] with ⟨oki, psi, vi⟩
                    have hi : presIno vib vi := by
                      have := presIno_allocIndirectLoopA inodeNum d
                        ((d.length + BLOCK_SIZE - 1) / BLOCK_SIZE - 12) 0 vib []
                      rw [hil] at this
                      exact this
                    have hchain : presIno v vi :=
                      presIno_trans (presIno_trans hd hv2) hi
                    cases oki with
                    | false => exact hchain
                    | true =>
                        simp only
                        exact presIno_trans hchain (presIno_writeBlock vi ib _)
          · rw [if_neg hgt]
            exact hd

theorem readInode_congr {v w : Vol} (h : presIno v w) (k : Nat) :
    InodeManager.readInode w k = InodeManager.readInode v k := by
  unfold InodeManager.readInode
  rw [h.1, h.2]

/-! ## Packed bitmaps and the first-fit allocator.

`packedFrom v k` states that the free blocks of `v` are exactly the
indices in `[k, totalBlocks)`: the bitmap is a used prefix followed by a
free suffix.  On such volumes the first-fit scan is fully determined:
it returns `k` (or fails when `k` is past the end), which is what both
the 13-block-write scenario and the defragmenter rely on. -/

/-- The free blocks of `v` are exactly `[k, totalBlocks)`. -/
def packedFrom (v : Vol) (k : Nat) : Bool :=
  (List.range v.sb.totalBlocks).all
    (fun b => (v.bitmap.getD b false) == decide (k ≤ b))

theorem packedFrom_bit {v : Vol} {k : Nat} (h : packedFrom v k = true) :
    ∀ b, b < v.sb.totalBlocks → v.bitmap.getD b false = decide (k ≤ b) := by
  intro b hb
  have := (List.all_eq_true.1 h) b (List.mem_range.2 hb)
  exact beq_iff_eq.1 this

theorem packedFrom_congr {v w : Vol} (hb : w.bitmap = v.bitmap)
    (ht : w.sb.totalBlocks = v.sb.totalBlocks) (k : Nat) :
    packedFrom w k = packedFrom v k := by
  unfold packedFrom
  rw [hb, ht]

theorem getD_true_lt_length {l : List Bool} {i : Nat}
    (h : l.getD i false = true) : i < l.length := by
  by_contra hge
  rw [List.getD_eq_default _ _ (by omega)] at h
  exact absurd h (by simp)

theorem find?_range'_some (p : Nat → Bool) :
    ∀ (n s k : Nat), s ≤ k → k < s + n →
      (∀ j, s ≤ j → j < k → p j = false) → p k = true →
      (List.range' s n).find? p = some k := by
  intro n
  induction n with
  | zero =>
      intro s k h1 h2 h3 h4
      omega
  | succ m ih =>
      intro s k h1 h2 h3 h4
      rw [List.range'_succ s m 1, List.find?_cons]
      rcases eq_or_lt_of_le h1 with rfl | hlt
      · rw [h4]
      · rw [h3 s (le_refl s) hlt]
        exact ih (s + 1) k (by omega) (by omega)
          (fun j hj1 hj2 => h3 j (by omega) hj2) h4

theorem find?_range'_none (p : Nat → Bool) :
    ∀ (n s : Nat), (∀ j, s ≤ j → j < s + n → p j = false) →
      (List.range' s n).find? p = none := by
  intro n
  induction n with
  | zero => intro s _; rfl
  | succ m ih =>
      intro s h
      rw [List.range'_succ s m 1, List.find?_cons, h s (le_refl s) (by omega)]
      exact ih (s + 1) (fun j hj1 hj2 => h j (by omega) (by omega))

theorem findFree_packed {v : Vol} {k : Nat} (hp : packedFrom v k = true)
    (hds : v.sb.dataBlocksStart ≤ k) (hlt : k < v.sb.totalBlocks) :
    VirtualDisk.findFree v = some k := by
  unfold VirtualDisk.findFree
  apply find?_range'_some _ _ _ _ hds (by omega)
  · intro j hj1 hj2
    rw [packedFrom_bit hp j (by omega)]
    simp
    omega
  · rw [packedFrom_bit hp k hlt]
    simp

theorem findFree_none {v : Vol} {k : Nat} (hp : packedFrom v k = true)
    (hk : v.sb.totalBlocks ≤ k) : VirtualDisk.findFree v = none := by
  unfold VirtualDisk.findFree
  apply find?_range'_none
  intro j hj1 hj2
  rw [packedFrom_bit hp j (by omega)]
  simp
  omega

/-- First-fit allocation on a packed volume: the block `k` is returned,
the volume keeps its layout with bit `k` now used and the free counter
one lower, and the result is packed from `k + 1`. -/
theorem allocateBlock_packed {v : Vol} {k : Nat} (hp : packedFrom v k = true)
    (hds : v.sb.dataBlocksStart ≤ k) (hlt : k < v.sb.totalBlocks) :
    VirtualDisk.allocateBlock v =
      (some k,
        { v with bitmap := v.bitmap.set k false,
                 sb := { v.sb with freeBlocks := v.sb.freeBlocks - 1 } }) ∧
      packedFrom
        { v with bitmap := v.bitmap.set k false,
                 sb := { v.sb with freeBlocks := v.sb.freeBlocks - 1 } }
        (k + 1) = true := by
  have hklen : k < v.bitmap.length := by
    apply getD_true_lt_length (i := k)
    rw [packedFrom_bit hp k hlt]
    simp
  constructor
  · unfold VirtualDisk.allocateBlock
    rw [findFree_packed hp hds hlt]
  · rw [packedFrom]
    apply List.all_eq_true.2
    intro b hb
    rw [List.mem_range] at hb
    simp only at hb ⊢
    apply beq_iff_eq.2
    rcases eq_or_ne b k with rfl | hne
    · simp [List.getD, List.getElem?_set, hklen]
    · have : (v.bitmap.set k false).getD b false = v.bitmap.getD b false := by
        simp [List.getD, List.getElem?_set, hne.symm]
      rw [this, packedFrom_bit hp b hb]
      simp
      omega

/-- Unfolding `writeFileFront` under a successful root lookup: the inode
is read, its current blocks are freed (ownership cleared first), and the
in-memory record's pointers are reset to the `-1` sentinel. -/
theorem writeFileFront_some (v : Vol) (p : List Char) (k : Nat) (ino : Inode)
    (h1 : DirectoryManager.lookupEntry v 0 (FileSystem.writeFileName p) = some k)
    (h2 : InodeManager.readInode v k = some ino) :
    FileSystem.writeFileFront v p = some (k,
      { ino with directBlocks := List.replicate 12 U32MAX,
                 indirectBlock := U32MAX },
      (InodeManager.getInodeBlocks v ino).foldl
        (fun v b => (VirtualDisk.freeBlock (clearBlockOwner v b) b).2) v) := by
  unfold FileSystem.writeFileFront
  simp only [h1, h2]

theorem setBlockOwner_fields (v : Vol) (b k : Nat) :
    (setBlockOwner v b k).bitmap = v.bitmap ∧ (setBlockOwner v b k).sb = v.sb :=
  ⟨rfl, rfl⟩

theorem packedFrom_writeBlock (v : Vol) (b : Nat) (d : BlockData) (k : Nat) :
    packedFrom (VirtualDisk.writeBlock v b d).2 k = packedFrom v k := by
  unfold VirtualDisk.writeBlock
  split
  · rfl
  · rfl

theorem writeBlock_sb (v : Vol) (b : Nat) (d : BlockData) :
    (VirtualDisk.writeBlock v b d).2.sb = v.sb := by
  unfold VirtualDisk.writeBlock
  split
  · rfl
  · rfl

/-- The part_006 direct-allocation loop fails when it needs more blocks
than the packed free suffix holds. -/
theorem allocDirectLoopA_fail (inodeNum : Nat) (d : List Nat) :
    ∀ (n i k : Nat) (v : Vol) (ino : Inode),
      packedFrom v k = true → v.sb.dataBlocksStart ≤ k →
      k ≤ v.sb.totalBlocks → v.sb.totalBlocks < k + n →
      (FileSystemAlt.allocDirectLoopA inodeNum d i n v ino).1 = false := by
  intro n
  induction n with
  | zero =>
      intro i k v ino hp hds hkt hover
      exact absurd hover (by omega)
  | succ m ih =>
      intro i k v ino hp hds hkt hover
      by_cases hk : k < v.sb.totalBlocks
      · obtain ⟨ha, hp'⟩ := allocateBlock_packed hp hds hk
        unfold FileSystemAlt.allocDirectLoopA
        rw [ha]
        simp only
        apply ih (i + 1) (k + 1)
        · rw [packedFrom_writeBlock]
          exact hp'
        · rw [writeBlock_sb]
          exact Nat.le_succ_of_le hds
        · rw [writeBlock_sb]
          exact hk
        · rw [writeBlock_sb]
          show v.sb.totalBlocks < k + 1 + m
          omega
      · unfold FileSystemAlt.allocDirectLoopA
        have hnone : VirtualDisk.allocateBlock v = (none, v) := by
          unfold VirtualDisk.allocateBlock
          rw [findFree_none hp (by omega)]
        rw [hnone]

/-- The part_006 `allocateFileBlocks` fails on a packed volume whose free
suffix is shorter than the direct blocks it must place. -/
theorem allocateFileBlocksA_fail (v : Vol) (inodeNum : Nat) (ino : Inode)
    (d : List Nat) (k : Nat)
    (hp : packedFrom v k = true) (hds : v.sb.dataBlocksStart ≤ k)
    (hkt : k ≤ v.sb.totalBlocks)
    (hover : v.sb.totalBlocks <
      k + min ((d.length + BLOCK_SIZE - 1) / BLOCK_SIZE) 12) :
    (FileSystemAlt.allocateFileBlocks v inodeNum ino d).1 = false := by
  have hn0 : (d.length + BLOCK_SIZE - 1) / BLOCK_SIZE ≠ 0 := by
    intro h0
    rw [h0] at hover
    simp at hover
    omega
  unfold FileSystemAlt.allocateFileBlocks
  rw [if_neg (by simp only [beq_iff_eq]; exact hn0)]
  rcases hdl : FileSystemAlt.allocDirectLoopA inodeNum d 0
      (min ((d.length + BLOCK_SIZE - 1) / BLOCK_SIZE) 12) v ino with
    ⟨okd, inod, vd⟩
  have hfalse : okd = false := by
    have := allocDirectLoopA_fail inodeNum d
      (min ((d.length + BLOCK_SIZE - 1) / BLOCK_SIZE) 12) 0 k v ino
      hp hds hkt hover
    rw [hdl] at this
    exact this
  subst hfalse
  rfl

/-- A failed `writeFile` (part_006) reports failure and leaves the inode
table — in particular the target file's ON-DISK inode — exactly as it
was. -/
theorem writeFileVolA_failed_unchanged (v : Vol) (p : List Char)
    (d : List Nat) (k : Nat) (ino : Inode)
    (h1 : DirectoryManager.lookupEntry v 0 (FileSystem.writeFileName p) = some k)
    (h2 : InodeManager.readInode v k = some ino)
    (hfail : (FileSystemAlt.allocateFileBlocks
        ((InodeManager.getInodeBlocks v ino).foldl
          (fun v b => (VirtualDisk.freeBlock (clearBlockOwner v b) b).2) v)
        k { ino with directBlocks := List.replicate 12 U32MAX,
                     indirectBlock := U32MAX } d).1 = false) :
    (FileSystemAlt.writeFileVol v p d).1 = false ∧
      InodeManager.readInode (FileSystemAlt.writeFileVol v p d).2 k =
        InodeManager.readInode v k := by
  have hfront := writeFileFront_some v p k ino h1 h2
  unfold FileSystemAlt.writeFileVol
  rw [hfront]
  simp only
  rcases halloc : FileSystemAlt.allocateFileBlocks
      ((InodeManager.getInodeBlocks v ino).foldl
        (fun v b => (VirtualDisk.freeBlock (clearBlockOwner v b) b).2) v)
      k { ino with directBlocks := List.replicate 12 U32MAX,
                   indirectBlock := U32MAX } d with ⟨ok, ino', v'⟩
  have hok : ok = false := by
    rw [halloc] at hfail
    exact hfail
  subst hok
  refine ⟨rfl, ?_⟩
  have hpres1 : presIno v
      ((InodeManager.getInodeBlocks v ino).foldl
        (fun v b => (VirtualDisk.freeBlock (clearBlockOwner v b) b).2) v) := by
    apply presIno_foldl
    intro w b
    exact presIno_trans (presIno_clearBlockOwner w b)
      (presIno_freeBlock (clearBlockOwner w b) b)
  have hpres2 : presIno
      ((InodeManager.getInodeBlocks v ino).foldl
        (fun v b => (VirtualDisk.freeBlock (clearBlockOwner v b) b).2) v) v' := by
    have := presIno_allocateFileBlocksA
      ((InodeManager.getInodeBlocks v ino).foldl
        (fun v b => (VirtualDisk.freeBlock (clearBlockOwner v b) b).2) v)
      k { ino with directBlocks := List.replicate 12 U32MAX,
                   indirectBlock := U32MAX } d
    rw [halloc] at this
    exact this
  exact readInode_congr (presIno_trans hpres1 hpres2) k

/-- The dims facts for the free-with-ownership-clearing step. -/
theorem freeClear_dims (v : Vol) (b : Nat) :
    (VirtualDisk.freeBlock (clearBlockOwner v b) b).2.sb.dataBlocksStart =
        v.sb.dataBlocksStart ∧
      (VirtualDisk.freeBlock (clearBlockOwner v b) b).2.sb.totalBlocks =
        v.sb.totalBlocks ∧
      (VirtualDisk.freeBlock (clearBlockOwner v b) b).2.bitmap.length =
        v.bitmap.length := by
  obtain ⟨d1, d2, d3⟩ := freeBlock_dims (clearBlockOwner v b) b
  exact ⟨d1, d2, d3⟩

/-- After `writeFile`'s free-old-blocks loop, every in-range old block is
free. -/
theorem foldl_freeClear_all :
    ∀ (l : List Nat) (v : Vol),
      (∀ b ∈ l, v.sb.dataBlocksStart ≤ b ∧ b < v.sb.totalBlocks ∧
        b < v.bitmap.length) →
      ∀ b ∈ l, VirtualDisk.isBlockFree
        (l.foldl (fun v b => (VirtualDisk.freeBlock (clearBlockOwner v b) b).2) v)
        b = true := by
  intro l
  induction l with
  | nil => intro v _ b hb; cases hb
  | cons a as ih =>
      intro v hall b hb
      simp only [List.foldl_cons]
      rcases List.mem_cons.1 hb with rfl | hmem
      · have ⟨ha1, ha2, ha3⟩ := hall b (List.mem_cons_self _ _)
        refine keepsFree_foldl _ (fun w c => ?_) as _ b
          (freeBlock_makes_free (clearBlockOwner v b) b ha1 ha2 ha3)
        exact keepsFree_trans (keepsFree_of_fields rfl rfl)
          (keepsFree_freeBlock (clearBlockOwner w c) c)
      · apply ih (VirtualDisk.freeBlock (clearBlockOwner v a) a).2 _ b hmem
        intro c hc
        have ⟨hc1, hc2, hc3⟩ := hall c (List.mem_cons_of_mem a hc)
        obtain ⟨d1, d2, d3⟩ := freeClear_dims v a
        exact ⟨by omega, by omega, by omega⟩

/-! ## C5 — failed mid-allocation write -/

/-- C5 (amended): when `write_file` (part_006 revision) fails
mid-allocation, the old extents were indeed already freed at the point
allocation began, but the file is NOT left at size 0 with no blocks: the
write returns failure WITHOUT updating the on-disk inode, which keeps its
old size and its old (now dangling, possibly re-allocated) block
references. -/
theorem C5_failed_write (v : Vol) (p : List Char) (d : List Nat) (k : Nat)
    (ino : Inode)
    (h1 : DirectoryManager.lookupEntry v 0 (FileSystem.writeFileName p) = some k)
    (h2 : InodeManager.readInode v k = some ino)
    (h3 : (FileSystemAlt.allocateFileBlocks
        ((InodeManager.getInodeBlocks v ino).foldl
          (fun v b => (VirtualDisk.freeBlock (clearBlockOwner v b) b).2) v)
        k { ino with directBlocks := List.replicate 12 U32MAX,
                     indirectBlock := U32MAX } d).1 = false)
    (h4 : ∀ b ∈ InodeManager.getInodeBlocks v ino,
      v.sb.dataBlocksStart ≤ b ∧ b < v.sb.totalBlocks ∧ b < v.bitmap.length) :
    (FileSystemAlt.writeFileVol v p d).1 = false ∧
      InodeManager.readInode (FileSystemAlt.writeFileVol v p d).2 k =
        InodeManager.readInode v k ∧
      ∀ b ∈ InodeManager.getInodeBlocks v ino,
        VirtualDisk.isBlockFree
          ((InodeManager.getInodeBlocks v ino).foldl
            (fun v b => (VirtualDisk.freeBlock (clearBlockOwner v b) b).2) v)
          b = true := by
  obtain ⟨c1, c2⟩ := writeFileVolA_failed_unchanged v p d k ino h1 h2 h3
  exact ⟨c1, c2, foldl_freeClear_all _ v h4⟩

/-- C5 counterexample.  On `demoU2` (where `/a` holds 100 bytes in block
68 and only one further block is free), writing a 12288-byte payload to
`/a` fails mid-allocation — yet the on-disk inode is NOT left at size 0
with no blocks: it still records size 100 and its old (freed, then
re-allocated) block 68. -/
theorem C5_counterexample :
    (FileSystemAlt.writeFileVol Demo.demoU2.vol ['/', 'a'] Demo.bigData).1 =
        false ∧
      (InodeManager.readInode
          (FileSystemAlt.writeFileVol Demo.demoU2.vol ['/', 'a']
            Demo.bigData).2 1).map Inode.fileSize = some 100 ∧
      (InodeManager.readInode
          (FileSystemAlt.writeFileVol Demo.demoU2.vol ['/', 'a']
            Demo.bigData).2 1).map (fun i => i.directBlocks.getD 0 0) =
        some 68 ∧
      (100 : Nat) ≠ 0 := by
  obtain ⟨c1, c2⟩ := writeFileVolA_failed_unchanged Demo.demoU2.vol ['/', 'a']
    Demo.bigData 1 Demo.demoInoA (by decide) (by decide)
    (allocateFileBlocksA_fail _ 1 _ Demo.bigData 68 (by decide) (by decide)
      (by decide)
      (by rw [show Demo.bigData.length = 12288 from by
            unfold Demo.bigData
            exact List.length_replicate 12288 5]
          decide))
  refine ⟨c1, ?_, ?_, by decide⟩
  · rw [c2]
    decide
  · rw [c2]
    decide

/-- C5 witness: the amended theorem at the concrete failing input. -/
theorem C5_witness :
    (FileSystemAlt.writeFileVol Demo.demoU2.vol ['/', 'a'] Demo.bigData).1 =
        false ∧
      InodeManager.readInode
          (FileSystemAlt.writeFileVol Demo.demoU2.vol ['/', 'a']
            Demo.bigData).2 1 =
        InodeManager.readInode Demo.demoU2.vol 1 ∧
      ∀ b ∈ InodeManager.getInodeBlocks Demo.demoU2.vol Demo.demoInoA,
        VirtualDisk.isBlockFree
          ((InodeManager.getInodeBlocks Demo.demoU2.vol Demo.demoInoA).foldl
            (fun v b => (VirtualDisk.freeBlock (clearBlockOwner v b) b).2)
            Demo.demoU2.vol) b = true :=
  C5_failed_write Demo.demoU2.vol ['/', 'a'] Demo.bigData 1 Demo.demoInoA
    (by decide) (by decide)
    (allocateFileBlocksA_fail _ 1 _ Demo.bigData 68 (by decide) (by decide)
      (by decide)
      (by rw [show Demo.bigData.length = 12288 from by
            unfold Demo.bigData
            exact List.length_replicate 12288 5]
          decide))
    (by decide)

/-- C10 witness: creating `/xxxx…` (56 `x`s) succeeds, the stored entry
name is the 55-character truncation, and a lookup with the full name
fails on the resulting volume. -/
theorem C10_witness :
    55 < Demo.longName.length ∧
      (DirectoryEntry.make 1 Demo.longName .REGULAR_FILE).getName =
        Demo.longName.take 55 ∧
      DirectoryManager.lookupEntry Demo.demoLong.vol 0 Demo.longName = none :=
  ⟨by decide,
    ((C10_name_truncation Demo.longName (by decide)).1 1 .REGULAR_FILE).1,
    (C10_name_truncation Demo.longName (by decide)).2 Demo.demoLong.vol 0
      (by decide)⟩

/-! ## C6 — the free-count invariant I1.

`I1 v` is the spec's bitmap/free-count agreement: `freeBlocks` equals the
number of free bits at or after `dataBlocksStart` (plus the structural
fact that the bitmap has one bit per block, established at format time).
Every facade operation is shown to preserve it. -/

/-- Number of free bits in the data region. -/
def countFreeData (v : Vol) : Nat :=
  ((List.range' v.sb.dataBlocksStart
    (v.sb.totalBlocks - v.sb.dataBlocksStart)).filter
      (fun i => v.bitmap.getD i false)).length

/-- Invariant I1 plus the bitmap-size fact needed to maintain it. -/
def I1 (v : Vol) : Prop :=
  v.sb.freeBlocks = countFreeData v ∧ v.bitmap.length = v.sb.totalBlocks

theorem getD_set_ne {α : Type} {l : List α} {i j : Nat} (h : i ≠ j) (x d : α) :
    (l.set i x).getD j d = l.getD j d := by
  simp [List.getD, List.getElem?_set_ne h]

theorem getD_set_self {α : Type} {l : List α} {i : Nat} (h : i < l.length)
    (x d : α) :
    (l.set i x).getD i d = x := by
  simp [List.getD, List.getElem?_set_eq h]

/-- Clearing a bit that is set removes exactly one element from the
filtered list (over a duplicate-free index list). -/
theorem filter_length_set_false :
    ∀ (l : List Nat), l.Nodup → ∀ (i : Nat), i ∈ l →
      ∀ (bm : List Bool), bm.getD i false = true →
      ((l.filter (fun j => (bm.set i false).getD j false)).length + 1 =
        (l.filter (fun j => bm.getD j false)).length) := by
  intro l
  induction l with
  | nil => intro _ i hi; cases hi
  | cons a rest ih =>
      intro hnd i hi bm hbit
      have hilt : i < bm.length := getD_true_lt_length hbit
      rcases List.mem_cons.1 hi with rfl | hmem
      · have hnotin : i ∉ rest := (List.nodup_cons.1 hnd).1
        have htail : rest.filter (fun j => (bm.set i false).getD j false) =
            rest.filter (fun j => bm.getD j false) := by
          apply List.filter_congr
          intro j hj
          have hne : i ≠ j := fun h => hnotin (h ▸ hj)
          rw [getD_set_ne hne]
        simp only [List.filter_cons, getD_set_self hilt, hbit, htail]
        simp
      · have hne : i ≠ a := by
          intro h
          subst h
          exact (List.nodup_cons.1 hnd).1 hmem
        have hrec := ih (List.nodup_cons.1 hnd).2 i hmem bm hbit
        simp only [List.filter_cons, getD_set_ne hne]
        cases hba : bm.getD a false
        · rw [if_neg Bool.false_ne_true, if_neg Bool.false_ne_true]
          exact hrec
        · rw [if_pos rfl, if_pos rfl]
          simp only [List.length_cons]
          omega

/-- Setting a bit that is clear adds exactly one element to the filtered
list (over a duplicate-free index list). -/
theorem filter_length_set_true :
    ∀ (l : List Nat), l.Nodup → ∀ (i : Nat), i ∈ l →
      ∀ (bm : List Bool), bm.getD i false = false → i < bm.length →
      ((l.filter (fun j => (bm.set i true).getD j false)).length =
        (l.filter (fun j => bm.getD j false)).length + 1) := by
  intro l
  induction l with
  | nil => intro _ i hi; cases hi
  | cons a rest ih =>
      intro hnd i hi bm hbit hilt
      rcases List.mem_cons.1 hi with rfl | hmem
      · have hnotin : i ∉ rest := (List.nodup_cons.1 hnd).1
        have htail : rest.filter (fun j => (bm.set i true).getD j false) =
            rest.filter (fun j => bm.getD j false) := by
          apply List.filter_congr
          intro j hj
          have hne : i ≠ j := fun h => hnotin (h ▸ hj)
          rw [getD_set_ne hne]
        simp only [List.filter_cons, getD_set_self hilt, hbit, htail]
        simp
      · have hne : i ≠ a := by
          intro h
          subst h
          exact (List.nodup_cons.1 hnd).1 hmem
        have hrec := ih (List.nodup_cons.1 hnd).2 i hmem bm hbit hilt
        simp only [List.filter_cons, getD_set_ne hne]
        cases hba : bm.getD a false
        · rw [if_neg Bool.false_ne_true, if_neg Bool.false_ne_true]
          exact hrec
        · rw [if_pos rfl, if_pos rfl]
          simp only [List.length_cons]
          omega

/-- I1 transfer along equal bitmap and equal superblock counters. -/
theorem I1_congr {v w : Vol} (hb : w.bitmap = v.bitmap)
    (hf : w.sb.freeBlocks = v.sb.freeBlocks)
    (hd : w.sb.dataBlocksStart = v.sb.dataBlocksStart)
    (ht : w.sb.totalBlocks = v.sb.totalBlocks) (h : I1 v) : I1 w := by
  unfold I1 countFreeData at h ⊢
  rw [hb, hf, hd, ht]
  exact h

theorem I1_allocateBlock {v : Vol} (h : I1 v) :
    I1 (VirtualDisk.allocateBlock v).2 := by
  obtain ⟨h1, h2⟩ := h
  unfold VirtualDisk.allocateBlock
  cases hf : VirtualDisk.findFree v with
  | none => exact ⟨h1, h2⟩
  | some i =>
      unfold VirtualDisk.findFree at hf
      have hbit : v.bitmap.getD i false = true := by
        have := List.find?_some hf
        simpa using this
      have hmem : i ∈ List.range' v.sb.dataBlocksStart
          (v.sb.totalBlocks - v.sb.dataBlocksStart) :=
        List.mem_of_find?_eq_some hf
      have hnd : (List.range' v.sb.dataBlocksStart
          (v.sb.totalBlocks - v.sb.dataBlocksStart)).Nodup :=
        List.nodup_range' _ _
      have hcount := filter_length_set_false _ hnd i hmem v.bitmap hbit
      unfold countFreeData at h1
      refine ⟨?_, ?_⟩
      · show v.sb.freeBlocks - 1 = countFreeData _
        unfold countFreeData
        dsimp only
        omega
      · show (v.bitmap.set i false).length = v.sb.totalBlocks
        rw [List.length_set]
        exact h2

theorem I1_freeBlock {v : Vol} (b : Nat) (h : I1 v) :
    I1 (VirtualDisk.freeBlock v b).2 := by
  obtain ⟨h1, h2⟩ := h
  unfold VirtualDisk.freeBlock
  split
  · exact ⟨h1, h2⟩
  · split
    · exact ⟨h1, h2⟩
    · split
      · rename_i hge hlt hbit
        have hbig : b < v.sb.totalBlocks := by omega
        have hblen : b < v.bitmap.length := by
          rw [h2]
          exact hbig
        have hmem : b ∈ List.range' v.sb.dataBlocksStart
            (v.sb.totalBlocks - v.sb.dataBlocksStart) := by
          rw [List.mem_range'_1]
          omega
        have hnd : (List.range' v.sb.dataBlocksStart
            (v.sb.totalBlocks - v.sb.dataBlocksStart)).Nodup :=
          List.nodup_range' _ _
        have hcount := filter_length_set_true _ hnd b hmem v.bitmap hbit hblen
        unfold countFreeData at h1
        refine ⟨?_, ?_⟩
        · show v.sb.freeBlocks + 1 = countFreeData _
          unfold countFreeData
          dsimp only
          omega
        · show (v.bitmap.set b true).length = v.sb.totalBlocks
          rw [List.length_set]
          exact h2
      · exact ⟨h1, h2⟩

/-- "The step from `v` to `w` preserves I1." -/
def presI1 (v w : Vol) : Prop := I1 v → I1 w

theorem presI1_rfl (v : Vol) : presI1 v v := id

theorem presI1_trans {u v w : Vol} (h1 : presI1 u v) (h2 : presI1 v w) :
    presI1 u w := fun h => h2 (h1 h)

/-- Transitivity with the later step first (for unification). -/
theorem presI1_trans2 {u v w : Vol} (h2 : presI1 v w) (h1 : presI1 u v) :
    presI1 u w := fun h => h2 (h1 h)

theorem presI1_of_presBS {v w : Vol} (hp : presBS v w) : presI1 v w :=
  fun h => I1_congr hp.1 (by rw [hp.2]) (by rw [hp.2]) (by rw [hp.2]) h

theorem presI1_allocateBlock (v : Vol) :
    presI1 v (VirtualDisk.allocateBlock v).2 := fun h => I1_allocateBlock h

theorem presI1_freeBlock (v : Vol) (b : Nat) :
    presI1 v (VirtualDisk.freeBlock v b).2 := fun h => I1_freeBlock b h

theorem presI1_writeBlock (v : Vol) (b : Nat) (d : BlockData) :
    presI1 v (VirtualDisk.writeBlock v b d).2 :=
  presI1_of_presBS (presBS_writeBlock v b d)

theorem presI1_writeInode (v : Vol) (k : Nat) (ino : Inode) :
    presI1 v (InodeManager.writeInode v k ino).2 :=
  presI1_of_presBS (presBS_writeInode v k ino)

theorem presI1_setBlockOwner (v : Vol) (b k : Nat) :
    presI1 v (setBlockOwner v b k) :=
  fun h => I1_congr rfl rfl rfl rfl h

theorem presI1_clearBlockOwner (v : Vol) (b : Nat) :
    presI1 v (clearBlockOwner v b) :=
  fun h => I1_congr rfl rfl rfl rfl h

theorem presI1_clockBump (v : Vol) :
    presI1 v { v with clock := v.clock + 1 } :=
  presI1_of_presBS (presBS_clockBump v)

theorem presI1_markClean (v : Vol) :
    presI1 v (VirtualDisk.markClean v) :=
  fun h => I1_congr rfl rfl rfl rfl h

theorem presI1_foldl {α : Type} (f : Vol → α → Vol)
    (hf : ∀ v a, presI1 v (f v a)) :
    ∀ (l : List α) (v : Vol), presI1 v (l.foldl f v) := by
  intro l
  induction l with
  | nil => exact fun v => presI1_rfl v
  | cons a as ih => exact fun v => presI1_trans (hf v a) (ih (f v a))

theorem presI1_writeInode_eq {v : Vol} {k : Nat} {ino : Inode} {ok : Bool}
    {w : Vol} (h : InodeManager.writeInode v k ino = (ok, w)) : presI1 v w := by
  have := presI1_writeInode v k ino
  rw [h] at this
  exact this

theorem presI1_writeBlock_eq {v : Vol} {b : Nat} {d : BlockData} {ok : Bool}
    {w : Vol} (h : VirtualDisk.writeBlock v b d = (ok, w)) : presI1 v w := by
  have := presI1_writeBlock v b d
  rw [h] at this
  exact this

theorem presI1_allocateBlock_eq {v : Vol} {ob : Option Nat} {w : Vol}
    (h : VirtualDisk.allocateBlock v = (ob, w)) : presI1 v w := by
  have := presI1_allocateBlock v
  rw [h] at this
  exact this

theorem presI1_freeBlock_eq {v : Vol} {b : Nat} {ok : Bool} {w : Vol}
    (h : VirtualDisk.freeBlock v b = (ok, w)) : presI1 v w := by
  have := presI1_freeBlock v b
  rw [h] at this
  exact this

theorem presI1_writeIndirectBlock_eq {v : Vol} {b : Nat} {ps : List Nat}
    {ok : Bool} {w : Vol} (h : InodeManager.writeIndirectBlock v b ps = (ok, w)) :
    presI1 v w := by
  unfold InodeManager.writeIndirectBlock at h
  exact presI1_writeBlock_eq h

theorem presI1_allocateInode (v : Vol) (ty : FileType) :
    presI1 v (InodeManager.allocateInode v ty).2 := by
  unfold InodeManager.allocateInode
  cases InodeManager.findFreeInode v with
  | none => exact presI1_rfl v
  | some k =>
      simp only [Vol.tick]
      rcases hw : InodeManager.writeInode { v with clock := v.clock + 1 } k
          { inodeNumber := k, fileType := ty, permissions := 420, linkCount := 1,
            fileSize := 0, blockCount := 0, createdTime := v.clock,
            modifiedTime := v.clock, accessedTime := v.clock,
            directBlocks := (v.inodes.getD k Inode.reset).directBlocks,
            indirectBlock := (v.inodes.getD k Inode.reset).indirectBlock } with
        ⟨ok, v'⟩
      cases ok with
      | false => exact presI1_trans (presI1_clockBump v) (presI1_writeInode_eq hw)
      | true => exact presI1_trans (presI1_clockBump v) (presI1_writeInode_eq hw)

theorem presI1_addBlockToInode (v : Vol) (ino : Inode) (b : Nat) :
    presI1 v (InodeManager.addBlockToInode v ino b).2.2 := by
  unfold InodeManager.addBlockToInode
  cases InodeManager.firstZeroSlot ino with
  | some i => exact presI1_rfl v
  | none =>
      simp only
      by_cases hz : (ino.indirectBlock == 0) = true
      · rw [if_pos hz]
        cases halloc : VirtualDisk.allocateBlock v with
        | mk ob v' =>
            have hv' : presI1 v v' := presI1_allocateBlock_eq halloc
            cases ob with
            | none => exact hv'
            | some ib =>
                simp only
                rcases hw : InodeManager.writeIndirectBlock v' ib [b] with ⟨ok, v2⟩
                exact presI1_trans hv' (presI1_writeIndirectBlock_eq hw)
      · rw [if_neg hz]
        cases hri : InodeManager.readIndirectBlock v ino.indirectBlock with
        | some ps =>
            simp only
            rcases hw : InodeManager.writeIndirectBlock v ino.indirectBlock
                (ps ++ [b]) with ⟨ok, v2⟩
            exact presI1_writeIndirectBlock_eq hw
        | none =>
            simp only
            rcases hw : InodeManager.writeIndirectBlock v ino.indirectBlock [b] with
              ⟨ok, v2⟩
            exact presI1_writeIndirectBlock_eq hw

theorem presI1_freeInode (v : Vol) (k : Nat) :
    presI1 v (InodeManager.freeInode v k).2 := by
  unfold InodeManager.freeInode
  cases InodeManager.readInode v k with
  | none => exact presI1_rfl v
  | some ino =>
      simp only
      exact presI1_trans2 (presI1_writeInode _ k Inode.reset)
        (presI1_foldl _ (fun v b => presI1_freeBlock v b) _ v)

theorem presI1_addBlockToInode_eq {v : Vol} {ino : Inode} {b : Nat} {ok : Bool}
    {ino2 : Inode} {w : Vol}
    (h : InodeManager.addBlockToInode v ino b = (ok, ino2, w)) : presI1 v w := by
  have := presI1_addBlockToInode v ino b
  rw [h] at this
  exact this

theorem presI1_allocateInode_eq {v : Vol} {ty : FileType} {ok : Option Nat}
    {w : Vol} (h : InodeManager.allocateInode v ty = (ok, w)) : presI1 v w := by
  have := presI1_allocateInode v ty
  rw [h] at this
  exact this

theorem presI1_freeInode_eq {v : Vol} {k : Nat} {ok : Bool} {w : Vol}
    (h : InodeManager.freeInode v k = (ok, w)) : presI1 v w := by
  have := presI1_freeInode v k
  rw [h] at this
  exact this

theorem presI1_growBlocks :
    ∀ (n : Nat) (v : Vol) (ino : Inode) (blocks : List Nat),
      presI1 v (DirectoryManager.growBlocks v ino blocks n).2.2.2 := by
  intro n
  induction n with
  | zero => intro v ino blocks; exact presI1_rfl v
  | succ m ih =>
      intro v ino blocks
      unfold DirectoryManager.growBlocks
      cases halloc : VirtualDisk.allocateBlock v with
      | mk ob v' =>
          have hv' : presI1 v v' := presI1_allocateBlock_eq halloc
          cases ob with
          | none => exact hv'
          | some b =>
              simp only
              rcases habi : InodeManager.addBlockToInode v' ino b with ⟨ok, ino2, v2⟩
              have hv2 : presI1 v' v2 := presI1_addBlockToInode_eq habi
              cases ok with
              | false =>
                  simp only
                  rcases hf : VirtualDisk.freeBlock v2 b with ⟨r, v3⟩
                  exact presI1_trans hv'
                    (presI1_trans hv2 (presI1_freeBlock_eq hf))
              | true =>
                  exact presI1_trans hv'
                    (presI1_trans hv2 (ih v2 ino2 (blocks ++ [b])))

theorem presI1_writePhase (v : Vol) (ino : Inode) (blocks : List Nat)
    (entries : List DirectoryEntry) (blocksNeeded : Nat) :
    presI1 v (DirectoryManager.writePhase v ino blocks entries blocksNeeded).2 :=
  presI1_of_presBS (presBS_writePhase v ino blocks entries blocksNeeded)

theorem presI1_writeDirectoryEntries (v : Vol) (dirInode : Inode)
    (entries : List DirectoryEntry) :
    presI1 v (DirectoryManager.writeDirectoryEntries v dirInode entries).2 := by
  unfold DirectoryManager.writeDirectoryEntries
  dsimp only
  rcases hg : DirectoryManager.growBlocks v dirInode
      (InodeManager.getInodeBlocks v dirInode)
      ((if entries.isEmpty then 1
        else (entries.length + ENTRIES_PER_BLOCK - 1) / ENTRIES_PER_BLOCK) -
        (InodeManager.getInodeBlocks v dirInode).length) with ⟨ok, ino2, bl2, v2⟩
  have hv2 : presI1 v v2 := by
    have := presI1_growBlocks
      ((if entries.isEmpty then 1
        else (entries.length + ENTRIES_PER_BLOCK - 1) / ENTRIES_PER_BLOCK) -
        (InodeManager.getInodeBlocks v dirInode).length)
      v dirInode (InodeManager.getInodeBlocks v dirInode)
    rw [hg] at this
    exact this
  cases ok with
  | false => exact hv2
  | true =>
      simp only
      exact presI1_trans hv2 (presI1_writePhase v2 ino2 bl2 entries _)

theorem presI1_writeDirectoryEntries_eq {v : Vol} {dirInode : Inode}
    {entries : List DirectoryEntry} {ok : Bool} {w : Vol}
    (h : DirectoryManager.writeDirectoryEntries v dirInode entries = (ok, w)) :
    presI1 v w := by
  have := presI1_writeDirectoryEntries v dirInode entries
  rw [h] at this
  exact this

theorem presI1_addEntry (v : Vol) (dirInodeNum : Nat) (name : List Char)
    (entryInodeNum : Nat) (ty : FileType) :
    presI1 v (DirectoryManager.addEntry v dirInodeNum name entryInodeNum ty).2 := by
  unfold DirectoryManager.addEntry
  cases InodeManager.readInode v dirInodeNum with
  | none => exact presI1_rfl v
  | some dirInode =>
      simp only
      by_cases hty : (dirInode.fileType != FileType.DIRECTORY) = true
      · rw [if_pos hty]
        exact presI1_rfl v
      · rw [if_neg hty]
        by_cases hdup : ((DirectoryManager.readDirectoryEntries v dirInode).any
            (fun e => e.getName == name)) = true
        · rw [if_pos hdup]
          exact presI1_rfl v
        · rw [if_neg hdup]
          exact presI1_writeDirectoryEntries v dirInode _

theorem presI1_addEntry_eq {v : Vol} {dirInodeNum : Nat} {name : List Char}
    {entryInodeNum : Nat} {ty : FileType} {ok : Bool} {w : Vol}
    (h : DirectoryManager.addEntry v dirInodeNum name entryInodeNum ty = (ok, w)) :
    presI1 v w := by
  have := presI1_addEntry v dirInodeNum name entryInodeNum ty
  rw [h] at this
  exact this

theorem presI1_removeEntry (v : Vol) (k : Nat) (name : List Char) :
    presI1 v (DirectoryManager.removeEntry v k name).2 :=
  presI1_of_presBS (presBS_removeEntry v k name)

theorem presI1_initializeRootDirectory (v : Vol) :
    presI1 v (DirectoryManager.initializeRootDirectory v).2 := by
  unfold DirectoryManager.initializeRootDirectory
  by_cases hval : ((InodeManager.readInode v 0).getD Inode.reset).isValid = true
  · rw [if_pos hval]
    exact presI1_rfl v
  · rw [if_neg hval]
    simp only [Vol.tick]
    rcases hw : InodeManager.writeInode { v with clock := v.clock + 1 } 0
        { inodeNumber := 0, fileType := .DIRECTORY, permissions := 493,
          linkCount := 2,
          fileSize := ((InodeManager.readInode v 0).getD Inode.reset).fileSize,
          blockCount := ((InodeManager.readInode v 0).getD Inode.reset).blockCount,
          createdTime := v.clock, modifiedTime := v.clock, accessedTime := v.clock,
          directBlocks :=
            ((InodeManager.readInode v 0).getD Inode.reset).directBlocks,
          indirectBlock :=
            ((InodeManager.readInode v 0).getD Inode.reset).indirectBlock } with
      ⟨ok, v'⟩
    have hv' : presI1 v v' :=
      presI1_trans (presI1_clockBump v) (presI1_writeInode_eq hw)
    cases ok with
    | false => exact hv'
    | true =>
        simp only
        exact presI1_trans hv' (presI1_writeDirectoryEntries v' _ _)

theorem presI1_createDirectory (v : Vol) (name : List Char)
    (parentInodeNum : Nat) :
    presI1 v (DirectoryManager.createDirectory v name parentInodeNum).2 := by
  unfold DirectoryManager.createDirectory
  rcases ha : InodeManager.allocateInode v .DIRECTORY with ⟨ok, v'⟩
  have hv' : presI1 v v' := presI1_allocateInode_eq ha
  cases ok with
  | none => exact hv'
  | some k =>
      simp only
      cases InodeManager.readInode v' k with
      | none => exact hv'
      | some dirInode =>
          simp only
          rcases hw : DirectoryManager.writeDirectoryEntries v' dirInode
              [DirectoryEntry.make k ['.'] .DIRECTORY,
               DirectoryEntry.make parentInodeNum ['.', '.'] .DIRECTORY] with
            ⟨okw, v2⟩
          have hv2 : presI1 v' v2 := presI1_writeDirectoryEntries_eq hw
          cases okw with
          | false =>
              simp only
              rcases hfi : InodeManager.freeInode v2 k with ⟨r, v3⟩
              exact presI1_trans hv'
                (presI1_trans hv2 (presI1_freeInode_eq hfi))
          | true =>
              exact presI1_trans hv' (presI1_trans hv2
                (presI1_addEntry v2 parentInodeNum name k .DIRECTORY))

theorem presI1_createFileVol (v : Vol) (path : List Char) :
    presI1 v (FileSystem.createFileVol v path).2 := by
  unfold FileSystem.createFileVol
  have core : ∀ (dp fn : List Char),
      presI1 v (if fn.isEmpty then ((false : Bool), v)
        else
          match DirectoryManager.resolvePath v dp 0 with
          | none => ((false : Bool), v)
          | some dirInode =>
              match DirectoryManager.lookupEntry v dirInode fn with
              | some _ => ((false : Bool), v)
              | none =>
                  match InodeManager.allocateInode v .REGULAR_FILE with
                  | (none, v) => ((false : Bool), v)
                  | (some fileInode, v) =>
                      DirectoryManager.addEntry v dirInode fn fileInode
                        .REGULAR_FILE).2 := by
    intro dp fn
    by_cases hfe : fn.isEmpty = true
    · rw [if_pos hfe]
      exact presI1_rfl v
    · rw [if_neg hfe]
      cases DirectoryManager.resolvePath v dp 0 with
      | none => exact presI1_rfl v
      | some dirInode =>
          simp only
          cases DirectoryManager.lookupEntry v dirInode fn with
          | some _ => exact presI1_rfl v
          | none =>
              simp only
              rcases ha : InodeManager.allocateInode v .REGULAR_FILE with ⟨ok, v'⟩
              have hv' : presI1 v v' := presI1_allocateInode_eq ha
              cases ok with
              | none => exact hv'
              | some fileInode =>
                  simp only
                  exact presI1_trans hv'
                    (presI1_addEntry v' dirInode fn fileInode .REGULAR_FILE)
  cases hs : splitAtLastSlash path with
  | none => exact core ['/'] path
  | some pr =>
      obtain ⟨d, f⟩ := pr
      exact core d f

theorem presI1_deleteFileVol (v : Vol) (path : List Char) :
    presI1 v (FileSystem.deleteFileVol v path).2 := by
  unfold FileSystem.deleteFileVol
  have core : ∀ (dp fn : List Char),
      presI1 v (match DirectoryManager.resolvePath v dp 0 with
        | none => ((false : Bool), v)
        | some dirInode =>
            match DirectoryManager.lookupEntry v dirInode fn with
            | none => ((false : Bool), v)
            | some fileInode =>
                match InodeManager.freeInode v fileInode with
                | (false, v) => ((false : Bool), v)
                | (true, v) => DirectoryManager.removeEntry v dirInode fn).2 := by
    intro dp fn
    cases DirectoryManager.resolvePath v dp 0 with
    | none => exact presI1_rfl v
    | some dirInode =>
        simp only
        cases DirectoryManager.lookupEntry v dirInode fn with
        | none => exact presI1_rfl v
        | some fileInode =>
            simp only
            rcases hfi : InodeManager.freeInode v fileInode with ⟨ok, v'⟩
            have hv' : presI1 v v' := presI1_freeInode_eq hfi
            cases ok with
            | false => exact hv'
            | true =>
                exact presI1_trans hv' (presI1_removeEntry v' dirInode fn)
  cases hs : splitAtLastSlash path with
  | none => exact core ['/'] path
  | some pr =>
      obtain ⟨d, f⟩ := pr
      exact core d f

theorem presI1_createDirVol (v : Vol) (path : List Char) :
    presI1 v (FileSystem.createDirVol v path).2 := by
  unfold FileSystem.createDirVol
  have core : ∀ (dp fn : List Char),
      presI1 v (match DirectoryManager.resolvePath v dp 0 with
        | none => ((false : Bool), v)
        | some parentInode =>
            DirectoryManager.createDirectory v fn parentInode).2 := by
    intro dp fn
    cases DirectoryManager.resolvePath v dp 0 with
    | none => exact presI1_rfl v
    | some parentInode =>
        simp only
        exact presI1_createDirectory v fn parentInode
  cases hs : splitAtLastSlash path with
  | none => exact core ['/'] path
  | some pr =>
      obtain ⟨d, f⟩ := pr
      exact core d f

theorem presI1_writeFileFront {v : Vol} {path : List Char} {k : Nat}
    {ino : Inode} {w : Vol}
    (h : FileSystem.writeFileFront v path = some (k, ino, w)) : presI1 v w := by
  unfold FileSystem.writeFileFront at h
  cases hl : DirectoryManager.lookupEntry v 0 (FileSystem.writeFileName path) with
  | none =>
      rw [hl] at h
      simp at h
  | some fileInode =>
      rw [hl] at h
      dsimp only at h
      cases hr : InodeManager.readInode v fileInode with
      | none =>
          rw [hr] at h
          simp at h
      | some ino0 =>
          rw [hr] at h
          simp only [Option.some.injEq, Prod.mk.injEq] at h
          obtain ⟨h1, h2, h3⟩ := h
          subst h3
          exact presI1_foldl _
            (fun v b => presI1_trans (presI1_clearBlockOwner v b)
              (presI1_freeBlock (clearBlockOwner v b) b)) _ v

theorem presI1_allocDirectLoop (inodeNum : Nat) :
    ∀ (n i : Nat) (v : Vol) (ino : Inode),
      presI1 v (FileSystem.allocDirectLoop inodeNum i n v ino).2.2 := by
  intro n
  induction n with
  | zero => intro i v ino; exact presI1_rfl v
  | succ m ih =>
      intro i v ino
      unfold FileSystem.allocDirectLoop
      cases halloc : VirtualDisk.allocateBlock v with
      | mk ob v' =>
          have hv' : presI1 v v' := presI1_allocateBlock_eq halloc
          cases ob with
          | none => exact hv'
          | some b =>
              simp only
              exact presI1_trans2 (ih (i + 1) _ _)
                (presI1_trans2 (presI1_setBlockOwner v' b inodeNum) hv')

theorem presI1_allocIndirectLoop (inodeNum : Nat) :
    ∀ (n : Nat) (v : Vol) (ino : Inode) (ps : List Nat),
      presI1 v (FileSystem.allocIndirectLoop inodeNum n v ino ps).2.2.2 := by
  intro n
  induction n with
  | zero => intro v ino ps; exact presI1_rfl v
  | succ m ih =>
      intro v ino ps
      unfold FileSystem.allocIndirectLoop
      cases halloc : VirtualDisk.allocateBlock v with
      | mk ob v' =>
          have hv' : presI1 v v' := presI1_allocateBlock_eq halloc
          cases ob with
          | none => exact hv'
          | some b =>
              simp only
              exact presI1_trans2 (ih _ _ _)
                (presI1_trans2 (presI1_setBlockOwner v' b inodeNum) hv')

theorem presI1_allocateFileBlocks (v : Vol) (ino : Inode)
    (blocksNeeded inodeNum : Nat) :
    presI1 v (FileSystem.allocateFileBlocks v ino blocksNeeded inodeNum).2.2 := by
  unfold FileSystem.allocateFileBlocks
  by_cases hz : (blocksNeeded == 0) = true
  · rw [if_pos hz]
    exact presI1_rfl v
  · rw [if_neg hz]
    rcases hdl : FileSystem.allocDirectLoop inodeNum 0 (min blocksNeeded 12) v ino
      with ⟨okd, inod, vd⟩
    have hd : presI1 v vd := by
      have := presI1_allocDirectLoop inodeNum (min blocksNeeded 12) 0 v ino
      rw [hdl] at this
      exact this
    cases okd with
    | false => exact hd
    | true =>
        simp only
        by_cases hgt : blocksNeeded > 12
        · rw [if_pos hgt]
          cases hib : VirtualDisk.allocateBlock vd with
          | mk oib vib =>
              have hv2 : presI1 vd vib := presI1_allocateBlock_eq hib
              cases oib with
              | none => exact presI1_trans hd hv2
              | some ib =>
                  simp only
                  rcases hil : FileSystem.allocIndirectLoop inodeNum
                      (blocksNeeded - 12) (setBlockOwner vib ib inodeNum)
                      { inod with indirectBlock := ib } [] with ⟨oki, inoi, psi, vi⟩
                  have hi : presI1 (setBlockOwner vib ib inodeNum) vi := by
                    have := presI1_allocIndirectLoop inodeNum (blocksNeeded - 12)
                      (setBlockOwner vib ib inodeNum)
                      { inod with indirectBlock := ib } []
                    rw [hil] at this
                    exact this
                  have hchain : presI1 v vi :=
                    presI1_trans hd (presI1_trans hv2
                      (presI1_trans (presI1_setBlockOwner vib ib inodeNum) hi))
                  cases oki with
                  | false => exact hchain
                  | true =>
                      simp only
                      exact presI1_trans hchain (presI1_writeBlock vi ib _)
        · rw [if_neg hgt]
          exact hd

theorem presI1_writeFileVolSrc (v : Vol) (path : List Char) (data : List Nat) :
    presI1 v (FileSystem.writeFileVol v path data).2 := by
  unfold FileSystem.writeFileVol
  cases hf : FileSystem.writeFileFront v path with
  | none => exact presI1_rfl v
  | some r =>
      obtain ⟨fileInode, ino, v1⟩ := r
      simp only
      have hv1 : presI1 v v1 := presI1_writeFileFront hf
      rcases hal : FileSystem.allocateFileBlocks v1 ino
          ((data.length + BLOCK_SIZE - 1) / BLOCK_SIZE) fileInode with
        ⟨ok, ino2, v2⟩
      have hv2 : presI1 v1 v2 := by
        have := presI1_allocateFileBlocks v1 ino
          ((data.length + BLOCK_SIZE - 1) / BLOCK_SIZE) fileInode
        rw [hal] at this
        exact this
      cases ok with
      | false => exact presI1_trans hv1 hv2
      | true =>
          simp only
          exact presI1_trans hv1 (presI1_trans hv2
            (presI1_writeInode v2 fileInode _))

theorem presI1_allocDirectLoopA (inodeNum : Nat) (d : List Nat) :
    ∀ (n i : Nat) (v : Vol) (ino : Inode),
      presI1 v (FileSystemAlt.allocDirectLoopA inodeNum d i n v ino).2.2 := by
  intro n
  induction n with
  | zero => intro i v ino; exact presI1_rfl v
  | succ m ih =>
      intro i v ino
      unfold FileSystemAlt.allocDirectLoopA
      cases halloc : VirtualDisk.allocateBlock v with
      | mk ob v' =>
          have hv' : presI1 v v' := presI1_allocateBlock_eq halloc
          cases ob with
          | none => exact hv'
          | some b =>
              simp only
              exact presI1_trans2 (ih (i + 1) _ _)
                (presI1_trans2 (presI1_writeBlock _ b _)
                  (presI1_trans2 (presI1_setBlockOwner v' b inodeNum) hv'))

theorem presI1_allocIndirectLoopA (inodeNum : Nat) (d : List Nat) :
    ∀ (n i : Nat) (v : Vol) (ps : List Nat),
      presI1 v (FileSystemAlt.allocIndirectLoopA inodeNum d i n v ps).2.2 := by
  intro n
  induction n with
  | zero => intro i v ps; exact presI1_rfl v
  | succ m ih =>
      intro i v ps
      unfold FileSystemAlt.allocIndirectLoopA
      cases halloc : VirtualDisk.allocateBlock v with
      | mk ob v' =>
          have hv' : presI1 v v' := presI1_allocateBlock_eq halloc
          cases ob with
          | none => exact hv'
          | some b =>
              simp only
              exact presI1_trans2 (ih (i + 1) _ _)
                (presI1_trans2 (presI1_writeBlock _ b _)
                  (presI1_trans2 (presI1_setBlockOwner v' b inodeNum) hv'))

theorem presI1_allocateFileBlocksA (v : Vol) (inodeNum : Nat) (ino : Inode)
    (d : List Nat) :
    presI1 v (FileSystemAlt.allocateFileBlocks v inodeNum ino d).2.2 := by
  unfold FileSystemAlt.allocateFileBlocks
  cases hz : ((d.length + BLOCK_SIZE - 1) / BLOCK_SIZE == 0) with
  | true =>
      rw [if_pos hz]
      exact presI1_rfl v
  | false =>
      rw [if_neg (by simp [hz])]
      rcases hdl : FileSystemAlt.allocDirectLoopA inodeNum d 0
          (min ((d.length + BLOCK_SIZE - 1) / BLOCK_SIZE) 12) v ino with
        ⟨okd, inod, vd⟩
      have hd : presI1 v vd := by
        have := presI1_allocDirectLoopA inodeNum d
          (min ((d.length + BLOCK_SIZE - 1) / BLOCK_SIZE) 12) 0 v ino
        rw [hdl] at this
        exact this
      cases okd with
      | false => exact hd
      | true =>
          simp only
          by_cases hgt : ((d.length + BLOCK_SIZE - 1) / BLOCK_SIZE > 12)
          · rw [if_pos hgt]
            cases hib : VirtualDisk.allocateBlock vd with
            | mk oib vib =>
                have hv2 : presI1 vd vib := presI1_allocateBlock_eq hib
                cases oib with
                | none => exact presI1_trans hd hv2
                | some ib =>
                    simp only
                    rcases hil : FileSystemAlt.allocIndirectLoopA inodeNum d 0
                        ((d.length + BLOCK_SIZE - 1) / BLOCK_SIZE - 12)
                        vib [] with ⟨oki, psi, vi⟩
                    have hi : presI1 vib vi := by
                      have := presI1_allocIndirectLoopA inodeNum d
                        ((d.length + BLOCK_SIZE - 1) / BLOCK_SIZE - 12) 0 vib []
                      rw [hil] at this
                      exact this
                    have hchain : presI1 v vi :=
                      presI1_trans (presI1_trans hd hv2) hi
                    cases oki with
                    | false => exact hchain
                    | true =>
                        simp only
                        exact presI1_trans hchain (presI1_writeBlock vi ib _)
          · rw [if_neg hgt]
            exact hd

theorem presI1_writeFileVolAlt (v : Vol) (path : List Char) (data : List Nat) :
    presI1 v (FileSystemAlt.writeFileVol v path data).2 := by
  unfold FileSystemAlt.writeFileVol
  cases hf : FileSystem.writeFileFront v path with
  | none => exact presI1_rfl v
  | some r =>
      obtain ⟨fileInode, ino, v1⟩ := r
      simp only
      have hv1 : presI1 v v1 := presI1_writeFileFront hf
      rcases hal : FileSystemAlt.allocateFileBlocks v1 fileInode ino data with
        ⟨ok, ino2, v2⟩
      have hv2 : presI1 v1 v2 := by
        have := presI1_allocateFileBlocksA v1 fileInode ino data
        rw [hal] at this
        exact this
      cases ok with
      | false => exact presI1_trans hv1 hv2
      | true =>
          simp only
          exact presI1_trans hv1 (presI1_trans hv2
            (presI1_writeInode v2 fileInode _))

theorem presI1_drainFile (v : Vol) (fd : DefragManager.FileData) :
    presI1 v (DefragManager.drainFile v fd).2 := by
  unfold DefragManager.drainFile
  exact presI1_foldl _
    (fun v b => presI1_trans (presI1_freeBlock v b)
      (presI1_clearBlockOwner (VirtualDisk.freeBlock v b).2 b)) _ v

theorem presI1_drainAll_loop :
    ∀ (fds : List DefragManager.FileData)
      (acc : List DefragManager.FileData × Vol),
      presI1 acc.2 ((fds.foldl (fun acc fd =>
        (acc.1 ++ [(DefragManager.drainFile acc.2 fd).1],
         (DefragManager.drainFile acc.2 fd).2)) acc)).2 := by
  intro fds
  induction fds with
  | nil => intro acc; exact presI1_rfl acc.2
  | cons fd rest ih =>
      intro acc
      simp only [List.foldl_cons]
      exact presI1_trans (presI1_drainFile acc.2 fd)
        (ih (acc.1 ++ [(DefragManager.drainFile acc.2 fd).1],
          (DefragManager.drainFile acc.2 fd).2))

theorem presI1_drainAll (v : Vol) (fds : List DefragManager.FileData) :
    presI1 v (DefragManager.drainAll v fds).2 := by
  unfold DefragManager.drainAll
  exact presI1_drainAll_loop fds ([], v)

theorem presI1_allocCompactLoop (inodeNum : Nat) :
    ∀ (n : Nat) (v : Vol),
      presI1 v (DefragManager.allocCompactLoop inodeNum n v).2 := by
  intro n
  induction n with
  | zero => intro v; exact presI1_rfl v
  | succ m ih =>
      intro v
      unfold DefragManager.allocCompactLoop
      cases halloc : VirtualDisk.allocateBlockCompact v with
      | mk ob v' =>
          have hv' : presI1 v v' := by
            have halloc2 : VirtualDisk.allocateBlock v = (ob, v') := halloc
            exact presI1_allocateBlock_eq halloc2
          cases ob with
          | none => exact hv'
          | some b =>
              simp only
              exact presI1_trans hv'
                (presI1_trans (presI1_setBlockOwner v' b inodeNum)
                  (ih (setBlockOwner v' b inodeNum)))

theorem presI1_reallocFile (v : Vol) (fd : DefragManager.FileData) :
    presI1 v (DefragManager.reallocFile v fd) := by
  unfold DefragManager.reallocFile
  exact presI1_trans2 (presI1_writeInode _ fd.inodeNum _)
    (presI1_trans2 (presI1_foldl _ (fun v i => presI1_writeBlock v _ _) _ _)
      (presI1_allocCompactLoop fd.inodeNum _ v))

theorem presI1_defragmentFileSystem (v : Vol) :
    presI1 v (DefragManager.defragmentFileSystem v) := by
  unfold DefragManager.defragmentFileSystem VirtualDisk.writeSuperblock
    VirtualDisk.writeBitmap
  dsimp only
  rcases hda : DefragManager.drainAll v (DefragManager.collectFiles v) with
    ⟨fds2, v2⟩
  have hv2 : presI1 v v2 := by
    have := presI1_drainAll v (DefragManager.collectFiles v)
    rw [hda] at this
    exact this
  exact presI1_trans hv2
    (presI1_foldl _ (fun v fd => presI1_reallocFile v fd) fds2 v2)

theorem presI1_simulatePowerCut (s : FS) :
    presI1 s.vol (FileSystem.simulatePowerCut s).vol := by
  unfold FileSystem.simulatePowerCut
  dsimp only
  split
  · split
    · exact presI1_writeInode _ _ _
    · exact presI1_rfl _
  · exact presI1_rfl _

theorem presI1_powerCutWriteLoop (inodeNum : Nat) (fullData : List Nat) :
    ∀ (n i : Nat) (v : Vol) (ino : Inode) (acc : List Nat),
      presI1 v (FileSystem.powerCutWriteLoop inodeNum fullData i n v ino acc).2 := by
  intro n
  induction n with
  | zero => intro i v ino acc; exact presI1_rfl v
  | succ m ih =>
      intro i v ino acc
      unfold FileSystem.powerCutWriteLoop
      cases halloc : VirtualDisk.allocateBlock v with
      | mk ob v' =>
          have hv' : presI1 v v' := presI1_allocateBlock_eq halloc
          cases ob with
          | none => exact hv'
          | some b =>
              simp only
              exact presI1_trans2 (ih (i + 1) _ _ _)
                (presI1_trans2 (presI1_writeBlock _ b _)
                  (presI1_trans2 (presI1_setBlockOwner v' b inodeNum) hv'))

theorem presI1_simulatePowerCutDuringWrite (s : FS) (filename : List Char)
    (fullData : List Nat) (cn cd : Nat) :
    presI1 s.vol
      (FileSystem.simulatePowerCutDuringWrite s filename fullData cn cd).2.vol := by
  unfold FileSystem.simulatePowerCutDuringWrite
  by_cases hm : (!s.mounted) = true
  · rw [if_pos hm]
    exact presI1_rfl _
  · rw [if_neg hm]
    dsimp only
    rcases hcf : FileSystem.createFileVol s.vol filename with ⟨okc, v1⟩
    have hv1 : presI1 s.vol v1 := by
      have := presI1_createFileVol s.vol filename
      rw [hcf] at this
      exact this
    cases okc with
    | false => exact hv1
    | true =>
        simp only
        cases DirectoryManager.resolvePath v1 filename 0 with
        | none => exact hv1
        | some inodeNum =>
            simp only
            cases InodeManager.readInode v1 inodeNum with
            | none => exact hv1
            | some ino =>
                simp only
                rcases hpl : FileSystem.powerCutWriteLoop inodeNum fullData 0
                    (min ((fullData.length * cn / cd + BLOCK_SIZE - 1) /
                      BLOCK_SIZE) 12) v1 ino [] with ⟨orr, v2⟩
                have hv2 : presI1 v1 v2 := by
                  have := presI1_powerCutWriteLoop inodeNum fullData
                    (min ((fullData.length * cn / cd + BLOCK_SIZE - 1) /
                      BLOCK_SIZE) 12) 0 v1 ino []
                  rw [hpl] at this
                  exact this
                cases orr with
                | none => exact presI1_trans hv1 hv2
                | some r =>
                    obtain ⟨ino2, allocated, vdead⟩ := r
                    simp only
                    exact presI1_trans hv1 (presI1_trans hv2
                      (presI1_writeInode v2 inodeNum _))

theorem presI1_recoverInode (mounted : Bool) (corrupted : List Nat)
    (v : Vol) (k : Nat) :
    presI1 v (FileSystem.recoverInode mounted corrupted v k) := by
  unfold FileSystem.recoverInode
  cases hr : InodeManager.readInode v k with
  | none => exact presI1_rfl v
  | some ino =>
      simp only
      cases hfind : ((if mounted then FileSystem.listDirVol v ['/'] else
          ([] : List DirectoryEntry)).find? (fun e => e.inodeNumber == k)) with
      | none =>
          simp only [hfind]
          refine presI1_trans (presI1_foldl _ ?_ _ _) (presI1_freeInode _ k)
          intro v' b
          split
          · exact presI1_rfl v'
          · exact presI1_freeBlock v' b
      | some e =>
          simp only [hfind]
          refine presI1_trans (presI1_removeEntry v 0 e.getName) ?_
          refine presI1_trans (presI1_foldl _ ?_ _ _) (presI1_freeInode _ k)
          intro v' b
          split
          · exact presI1_rfl v'
          · exact presI1_freeBlock v' b

theorem presI1_runRecovery (s : FS) :
    presI1 s.vol (FileSystem.runRecovery s).2.vol := by
  unfold FileSystem.runRecovery
  by_cases hc : (!s.hasCorruption) = true
  · rw [if_pos hc]
    exact presI1_rfl _
  · rw [if_neg hc]
    dsimp only
    unfold VirtualDisk.writeSuperblock VirtualDisk.writeBitmap
    exact presI1_trans
      (presI1_foldl _ (fun v b => presI1_freeBlock v b) s.corruptedBlocks s.vol)
      (presI1_foldl _
        (fun v k => presI1_recoverInode s.mounted s.corruptedBlocks v k) _ _)

/-- I1 holds of a freshly formatted disk: the format marks exactly the
data region free and sets `freeBlocks = totalBlocks - dataBlocksStart`
(in wrapping `uint32` arithmetic, which for a disk large enough to hold
its own system area is the plain difference). -/
theorem I1_createDisk (diskSize : Nat)
    (h1 : (VirtualDisk.initializeSuperblock diskSize).dataBlocksStart ≤
      (VirtualDisk.initializeSuperblock diskSize).totalBlocks)
    (h2 : (VirtualDisk.initializeSuperblock diskSize).totalBlocks < 4294967296) :
    I1 (VirtualDisk.createDisk diskSize) := by
  have hfilter : ∀ i ∈ List.range'
      (VirtualDisk.initializeSuperblock diskSize).dataBlocksStart
      ((VirtualDisk.initializeSuperblock diskSize).totalBlocks -
        (VirtualDisk.initializeSuperblock diskSize).dataBlocksStart),
      ((List.range (VirtualDisk.initializeSuperblock diskSize).totalBlocks).map
        (fun i => decide
          ((VirtualDisk.initializeSuperblock diskSize).dataBlocksStart ≤ i))).getD
        i false = true := by
    intro i hi
    rw [List.mem_range'_1] at hi
    obtain ⟨hlo, hhi⟩ := hi
    have hilt : i < (VirtualDisk.initializeSuperblock diskSize).totalBlocks := by
      omega
    simp [List.getD, List.getElem?_map, List.getElem?_range, hilt, hlo]
  have hfree : (VirtualDisk.initializeSuperblock diskSize).freeBlocks =
      (VirtualDisk.initializeSuperblock diskSize).totalBlocks -
      (VirtualDisk.initializeSuperblock diskSize).dataBlocksStart := by
    unfold VirtualDisk.initializeSuperblock at h1 h2 ⊢
    dsimp only at h1 h2 ⊢
    omega
  constructor
  · show (VirtualDisk.initializeSuperblock diskSize).freeBlocks =
      countFreeData (VirtualDisk.createDisk diskSize)
    unfold countFreeData VirtualDisk.createDisk
    dsimp only
    rw [List.filter_eq_self.2 hfilter, List.length_range']
    exact hfree
  · show (VirtualDisk.createDisk diskSize).bitmap.length =
      (VirtualDisk.initializeSuperblock diskSize).totalBlocks
    unfold VirtualDisk.createDisk
    dsimp only
    rw [List.length_map, List.length_range]

/-- I1 holds of `createFileSystem`'s result: format establishes it, and
installing the root directory and marking clean preserve it. -/
theorem I1_createFileSystem (diskSize : Nat)
    (h1 : (VirtualDisk.initializeSuperblock diskSize).dataBlocksStart ≤
      (VirtualDisk.initializeSuperblock diskSize).totalBlocks)
    (h2 : (VirtualDisk.initializeSuperblock diskSize).totalBlocks < 4294967296) :
    I1 (FileSystem.createFileSystem diskSize).vol := by
  unfold FileSystem.createFileSystem
  dsimp only
  exact presI1_markClean _
    (presI1_initializeRootDirectory (VirtualDisk.createDisk diskSize)
      (I1_createDisk diskSize h1 h2))

/-- One facade call, as dispatched to the `FileSystem` facade (both
`writeFile` revisions), the defragmenter, or the crash/recovery tooling.
`read_file`, `list_dir` and `stat` return data without touching the
state. -/
inductive Op where
  | createFile (path : List Char)
  | writeFile (path : List Char) (data : List Nat)
  | writeFileAlt (path : List Char) (data : List Nat)
  | readFile (path : List Char)
  | deleteFile (path : List Char)
  | createDir (path : List Char)
  | listDir (path : List Char)
  | getFileInfo (path : List Char)
  | defragment
  | simulateCrash
  | simulateCrashDuringWrite (path : List Char) (data : List Nat) (num den : Nat)
  | runRecovery
deriving DecidableEq, Repr

/-- The action of one facade call on the facade state. -/
def applyOp (s : FS) : Op → FS
  | .createFile p => (FileSystem.createFile s p).2
  | .writeFile p d => (FileSystem.writeFile s p d).2
  | .writeFileAlt p d => (FileSystemAlt.writeFile s p d).2
  | .readFile _ => s
  | .deleteFile p => (FileSystem.deleteFile s p).2
  | .createDir p => (FileSystem.createDir s p).2
  | .listDir _ => s
  | .getFileInfo _ => s
  | .defragment => { s with vol := DefragManager.defragmentFileSystem s.vol }
  | .simulateCrash => FileSystem.simulatePowerCut s
  | .simulateCrashDuringWrite p d num den =>
      (FileSystem.simulatePowerCutDuringWrite s p d num den).2
  | .runRecovery => (FileSystem.runRecovery s).2

theorem presI1_applyOp (s : FS) (op : Op) :
    presI1 s.vol (applyOp s op).vol := by
  cases op with
  | createFile p =>
      show presI1 s.vol (FileSystem.createFile s p).2.vol
      unfold FileSystem.createFile
      by_cases hm : (!s.mounted) = true
      · rw [if_pos hm]
        exact presI1_rfl _
      · rw [if_neg hm]
        exact presI1_createFileVol s.vol p
  | writeFile p d =>
      show presI1 s.vol (FileSystem.writeFile s p d).2.vol
      unfold FileSystem.writeFile
      by_cases hm : (!s.mounted) = true
      · rw [if_pos hm]
        exact presI1_rfl _
      · rw [if_neg hm]
        exact presI1_writeFileVolSrc s.vol p d
  | writeFileAlt p d =>
      show presI1 s.vol (FileSystemAlt.writeFile s p d).2.vol
      unfold FileSystemAlt.writeFile
      by_cases hm : (!s.mounted) = true
      · rw [if_pos hm]
        exact presI1_rfl _
      · rw [if_neg hm]
        exact presI1_writeFileVolAlt s.vol p d
  | readFile p => exact presI1_rfl _
  | deleteFile p =>
      show presI1 s.vol (FileSystem.deleteFile s p).2.vol
      unfold FileSystem.deleteFile
      by_cases hm : (!s.mounted) = true
      · rw [if_pos hm]
        exact presI1_rfl _
      · rw [if_neg hm]
        exact presI1_deleteFileVol s.vol p
  | createDir p =>
      show presI1 s.vol (FileSystem.createDir s p).2.vol
      unfold FileSystem.createDir
      by_cases hm : (!s.mounted) = true
      · rw [if_pos hm]
        exact presI1_rfl _
      · rw [if_neg hm]
        exact presI1_createDirVol s.vol p
  | listDir p => exact presI1_rfl _
  | getFileInfo p => exact presI1_rfl _
  | defragment => exact presI1_defragmentFileSystem s.vol
  | simulateCrash => exact presI1_simulatePowerCut s
  | simulateCrashDuringWrite p d num den =>
      exact presI1_simulatePowerCutDuringWrite s p d num den
  | runRecovery => exact presI1_runRecovery s

theorem presI1_foldlOps :
    ∀ (ops : List Op) (s : FS), presI1 s.vol (ops.foldl applyOp s).vol := by
  intro ops
  induction ops with
  | nil => intro s; exact presI1_rfl s.vol
  | cons op rest ih =>
      intro s
      simp only [List.foldl_cons]
      exact presI1_trans (presI1_applyOp s op) (ih (applyOp s op))

/-- A successful allocation flips exactly the returned bit from free to
used and decrements `freeBlocks` by exactly one (given I1 of the
pre-state, which makes the counter positive). -/
theorem allocateBlock_flip {v : Vol} {i : Nat} {w : Vol} (h : I1 v)
    (ha : VirtualDisk.allocateBlock v = (some i, w)) :
    v.bitmap.getD i false = true ∧ w.bitmap = v.bitmap.set i false ∧
      w.sb.freeBlocks + 1 = v.sb.freeBlocks := by
  unfold VirtualDisk.allocateBlock at ha
  cases hf : VirtualDisk.findFree v with
  | none =>
      rw [hf] at ha
      simp at ha
  | some j =>
      rw [hf] at ha
      simp only [Option.some.injEq, Prod.mk.injEq] at ha
      obtain ⟨hji, hw⟩ := ha
      subst hji
      subst hw
      unfold VirtualDisk.findFree at hf
      have hbit : v.bitmap.getD j false = true := by
        have := List.find?_some hf
        simpa using this
      have hmem : j ∈ List.range' v.sb.dataBlocksStart
          (v.sb.totalBlocks - v.sb.dataBlocksStart) :=
        List.mem_of_find?_eq_some hf
      have hnd : (List.range' v.sb.dataBlocksStart
          (v.sb.totalBlocks - v.sb.dataBlocksStart)).Nodup :=
        List.nodup_range' _ _
      have hcount := filter_length_set_false _ hnd j hmem v.bitmap hbit
      have h1 := h.1
      unfold countFreeData at h1
      refine ⟨hbit, rfl, ?_⟩
      show v.sb.freeBlocks - 1 + 1 = v.sb.freeBlocks
      omega

/-- A successful free flips exactly the given bit from used to free and
increments `freeBlocks` by exactly one. -/
theorem freeBlock_flip {v : Vol} {b : Nat} {w : Vol}
    (hf : VirtualDisk.freeBlock v b = (true, w)) :
    v.bitmap.getD b false = false ∧ w.bitmap = v.bitmap.set b true ∧
      w.sb.freeBlocks = v.sb.freeBlocks + 1 := by
  unfold VirtualDisk.freeBlock at hf
  split at hf
  · exact absurd hf (by simp)
  · split at hf
    · exact absurd hf (by simp)
    · split at hf
      · rename_i hge hlt hbit
        simp only [Prod.mk.injEq] at hf
        obtain ⟨-, hw⟩ := hf
        subst hw
        exact ⟨hbit, rfl, rfl⟩
      · exact absurd hf (by simp)

/-- **C6**: for every volume state reachable from a freshly created file
system by any sequence of facade calls, `free_blocks()` equals the count
of free bits in the in-memory bitmap at or after `dataBlocksStart`; and a
successful `allocateBlock` flips exactly one bit to used while
decrementing the counter by one, a successful `freeBlock` flips exactly
one bit to free while incrementing it by one.  (The disk must be large
enough that the data region exists and small enough that the `uint32`
free-count does not wrap at format time.) -/
theorem C6_free_count_invariant (diskSize : Nat) (ops : List Op)
    (h1 : (VirtualDisk.initializeSuperblock diskSize).dataBlocksStart ≤
      (VirtualDisk.initializeSuperblock diskSize).totalBlocks)
    (h2 : (VirtualDisk.initializeSuperblock diskSize).totalBlocks < 4294967296) :
    ((ops.foldl applyOp (FileSystem.createFileSystem diskSize)).vol.sb.freeBlocks =
      countFreeData (ops.foldl applyOp (FileSystem.createFileSystem diskSize)).vol) ∧
    (∀ (v : Vol) (i : Nat) (w : Vol), I1 v →
      VirtualDisk.allocateBlock v = (some i, w) →
      v.bitmap.getD i false = true ∧ w.bitmap = v.bitmap.set i false ∧
        w.sb.freeBlocks + 1 = v.sb.freeBlocks) ∧
    (∀ (v : Vol) (b : Nat) (w : Vol),
      VirtualDisk.freeBlock v b = (true, w) →
      v.bitmap.getD b false = false ∧ w.bitmap = v.bitmap.set b true ∧
        w.sb.freeBlocks = v.sb.freeBlocks + 1) := by
  refine ⟨?_, ?_, ?_⟩
  · exact (presI1_foldlOps ops (FileSystem.createFileSystem diskSize)
      (I1_createFileSystem diskSize h1 h2)).1
  · intro v i w hv ha
    exact allocateBlock_flip hv ha
  · intro v b w hfr
    exact freeBlock_flip hfr

/-- Closed witness for C6: the 128-block demo volume, with a create/delete
call sequence. -/
theorem C6_witness :
    ((VirtualDisk.initializeSuperblock 524288).dataBlocksStart ≤
      (VirtualDisk.initializeSuperblock 524288).totalBlocks) ∧
    ((VirtualDisk.initializeSuperblock 524288).totalBlocks < 4294967296) ∧
    (([Op.createFile ['/', 'a'], Op.deleteFile ['/', 'a']].foldl applyOp
        (FileSystem.createFileSystem 524288)).vol.sb.freeBlocks =
      countFreeData ([Op.createFile ['/', 'a'], Op.deleteFile ['/', 'a']].foldl
        applyOp (FileSystem.createFileSystem 524288)).vol) :=
  ⟨by decide, by decide,
    (C6_free_count_invariant 524288
      [Op.createFile ['/', 'a'], Op.deleteFile ['/', 'a']]
      (by decide) (by decide)).1⟩

/-! ## C7 — the 13-block write through the part_006 facade.

The allocation loops are characterized on a packed volume: each call
takes the next block of the free suffix, so a successful run allocates a
consecutive range, writes the payload chunks into it, and leaves the
volume packed after the range. -/

theorem writeBlock_inodes (v : Vol) (b : Nat) (d : BlockData) :
    (VirtualDisk.writeBlock v b d).2.inodes = v.inodes := by
  unfold VirtualDisk.writeBlock
  split
  · rfl
  · rfl

theorem writeBlock_blocks_length (v : Vol) (b : Nat) (d : BlockData) :
    (VirtualDisk.writeBlock v b d).2.blocks.length = v.blocks.length := by
  unfold VirtualDisk.writeBlock
  split
  · simp
  · rfl

theorem writeBlock_getD_self (v : Vol) (b : Nat) (d : BlockData)
    (h1 : b < v.sb.totalBlocks) (h2 : b < v.blocks.length) :
    (VirtualDisk.writeBlock v b d).2.blocks.getD b .zeros = d := by
  unfold VirtualDisk.writeBlock
  rw [if_pos h1]
  exact getD_set_self h2 _ _

theorem writeBlock_getD_ne (v : Vol) (b : Nat) (d : BlockData) (b' : Nat)
    (h : b ≠ b') :
    (VirtualDisk.writeBlock v b d).2.blocks.getD b' .zeros =
      v.blocks.getD b' .zeros := by
  unfold VirtualDisk.writeBlock
  split
  · exact getD_set_ne h _ _
  · rfl

/-- The direct-slot image of the allocation loop: slots `i, i+1, …,
i+n-1` set to the consecutive blocks `k, k+1, …, k+n-1`. -/
def setRun : List Nat → Nat → Nat → Nat → List Nat
  | db, _, _, 0 => db
  | db, i, k, n + 1 => setRun (db.set i k) (i + 1) (k + 1) n

/-- A full successful run of the part_006 direct-allocation loop on a
volume whose free blocks are the packed suffix `[k, totalBlocks)`:
the loop takes blocks `k, …, k+n-1` in order, stores them in slots
`i, …, i+n-1`, writes the payload chunks into them, and decrements
`freeBlocks` by `n`. -/
theorem allocDirectLoopA_run (inodeNum : Nat) (d : List Nat) :
    ∀ (n i k : Nat) (v : Vol) (ino : Inode),
      packedFrom v k = true →
      v.sb.dataBlocksStart ≤ k →
      k + n ≤ v.sb.totalBlocks →
      v.blocks.length = v.sb.totalBlocks →
      ∃ vF,
        FileSystemAlt.allocDirectLoopA inodeNum d i n v ino =
          (true, { ino with directBlocks := setRun ino.directBlocks i k n }, vF) ∧
        packedFrom vF (k + n) = true ∧
        vF.sb.totalBlocks = v.sb.totalBlocks ∧
        vF.sb.dataBlocksStart = v.sb.dataBlocksStart ∧
        vF.sb.freeBlocks = v.sb.freeBlocks - n ∧
        vF.sb.inodeCount = v.sb.inodeCount ∧
        vF.inodes = v.inodes ∧
        vF.blocks.length = v.blocks.length ∧
        (∀ b, b < k → vF.blocks.getD b .zeros = v.blocks.getD b .zeros) ∧
        (∀ j, j < n → vF.blocks.getD (k + j) .zeros =
          .bytes ((d.drop ((i + j) * BLOCK_SIZE)).take
            (min BLOCK_SIZE (d.length - (i + j) * BLOCK_SIZE)))) := by
  intro n
  induction n with
  | zero =>
      intro i k v ino hp hds hbound hblen
      refine ⟨v, rfl, ?_, rfl, rfl, ?_, rfl, rfl, rfl, fun b _ => rfl,
        fun j hj => absurd hj (by omega)⟩
      · have : k + 0 = k := by omega
        rw [this]
        exact hp
      · have : v.sb.freeBlocks - 0 = v.sb.freeBlocks := by omega
        rw [this]
  | succ m ih =>
      intro i k v ino hp hds hbound hblen
      have hklt : k < v.sb.totalBlocks := by omega
      obtain ⟨halloc, hpk1⟩ := allocateBlock_packed hp hds hklt
      unfold FileSystemAlt.allocDirectLoopA
      rw [halloc]
      generalize hL :
        ({ v with bitmap := v.bitmap.set k false,
                  sb := { v.sb with freeBlocks := v.sb.freeBlocks - 1 } } : Vol)
          = w at hpk1
      have hwsb : w.sb = { v.sb with freeBlocks := v.sb.freeBlocks - 1 } := by
        rw [← hL]
      have hwblocks : w.blocks = v.blocks := by
        rw [← hL]
      have hwino : w.inodes = v.inodes := by
        rw [← hL]
      dsimp only
      have hsb2 : (VirtualDisk.writeBlock (setBlockOwner w k inodeNum) k
          (.bytes ((d.drop (i * BLOCK_SIZE)).take
            (min BLOCK_SIZE (d.length - i * BLOCK_SIZE))))).2.sb = w.sb :=
        writeBlock_sb (setBlockOwner w k inodeNum) k _
      have hbl2 : (VirtualDisk.writeBlock (setBlockOwner w k inodeNum) k
          (.bytes ((d.drop (i * BLOCK_SIZE)).take
            (min BLOCK_SIZE (d.length - i * BLOCK_SIZE))))).2.blocks.length =
          v.blocks.length := by
        rw [writeBlock_blocks_length]
        exact congrArg List.length hwblocks
      have hin2 : (VirtualDisk.writeBlock (setBlockOwner w k inodeNum) k
          (.bytes ((d.drop (i * BLOCK_SIZE)).take
            (min BLOCK_SIZE (d.length - i * BLOCK_SIZE))))).2.inodes =
          v.inodes := by
        rw [writeBlock_inodes]
        exact hwino
      have hp2 : packedFrom (VirtualDisk.writeBlock (setBlockOwner w k inodeNum) k
          (.bytes ((d.drop (i * BLOCK_SIZE)).take
            (min BLOCK_SIZE (d.length - i * BLOCK_SIZE))))).2 (k + 1) = true := by
        rw [packedFrom_writeBlock]
        exact (@packedFrom_congr w (setBlockOwner w k inodeNum) rfl rfl
          (k + 1)).trans hpk1
      obtain ⟨vF, heq, hFp, hFt, hFd, hFf, hFic, hFin, hFbl, hFpres, hFcont⟩ :=
        ih (i + 1) (k + 1)
          (VirtualDisk.writeBlock (setBlockOwner w k inodeNum) k
            (.bytes ((d.drop (i * BLOCK_SIZE)).take
              (min BLOCK_SIZE (d.length - i * BLOCK_SIZE))))).2
          { ino with directBlocks := ino.directBlocks.set i k }
          hp2
          (by rw [hsb2, hwsb]; show v.sb.dataBlocksStart ≤ k + 1; omega)
          (by rw [hsb2, hwsb]; show k + 1 + m ≤ v.sb.totalBlocks; omega)
          (by rw [hbl2, hsb2, hwsb]; exact hblen)
      refine ⟨vF, heq, ?_, ?_, ?_, ?_, ?_, ?_, ?_, ?_, ?_⟩
      · have : k + (m + 1) = k + 1 + m := by omega
        rw [this]
        exact hFp
      · rw [hFt, hsb2, hwsb]
      · rw [hFd, hsb2, hwsb]
      · rw [hFf, hsb2, hwsb]
        show v.sb.freeBlocks - 1 - m = v.sb.freeBlocks - (m + 1)
        omega
      · rw [hFic, hsb2, hwsb]
      · rw [hFin, hin2]
      · rw [hFbl, hbl2]
      · intro b hb
        rw [hFpres b (by omega), writeBlock_getD_ne _ _ _ _ (by omega)]
        show w.blocks.getD b BlockData.zeros = v.blocks.getD b BlockData.zeros
        rw [hwblocks]
      · intro j hj
        match j with
        | 0 =>
            have h0 : k + 0 = k := by omega
            rw [h0, hFpres k (by omega)]
            rw [writeBlock_getD_self _ _ _
              (show k < (setBlockOwner w k inodeNum).sb.totalBlocks by
                show k < w.sb.totalBlocks
                rw [hwsb]
                exact hklt)
              (show k < (setBlockOwner w k inodeNum).blocks.length by
                show k < w.blocks.length
                rw [hwblocks, hblen]
                exact hklt)]
            have hi0 : i + 0 = i := by omega
            rw [hi0]
        | j' + 1 =>
            have hk' : k + (j' + 1) = k + 1 + j' := by omega
            have hi' : i + (j' + 1) = i + 1 + j' := by omega
            rw [hk', hi']
            exact hFcont j' (by omega)

/-- A full successful run of the part_006 indirect-entry loop on a packed
volume: it appends the consecutive blocks `k, …, k+n-1` to the pointer
accumulator and writes the payload chunks `12+i, …, 12+i+n-1` into
them. -/
theorem allocIndirectLoopA_run (inodeNum : Nat) (d : List Nat) :
    ∀ (n i k : Nat) (v : Vol) (ps : List Nat),
      packedFrom v k = true →
      v.sb.dataBlocksStart ≤ k →
      k + n ≤ v.sb.totalBlocks →
      v.blocks.length = v.sb.totalBlocks →
      ∃ vF,
        FileSystemAlt.allocIndirectLoopA inodeNum d i n v ps =
          (true, ps ++ List.range' k n, vF) ∧
        packedFrom vF (k + n) = true ∧
        vF.sb.totalBlocks = v.sb.totalBlocks ∧
        vF.sb.dataBlocksStart = v.sb.dataBlocksStart ∧
        vF.sb.freeBlocks = v.sb.freeBlocks - n ∧
        vF.sb.inodeCount = v.sb.inodeCount ∧
        vF.inodes = v.inodes ∧
        vF.blocks.length = v.blocks.length ∧
        (∀ b, b < k → vF.blocks.getD b .zeros = v.blocks.getD b .zeros) ∧
        (∀ j, j < n → vF.blocks.getD (k + j) .zeros =
          .bytes ((d.drop ((12 + (i + j)) * BLOCK_SIZE)).take
            (min BLOCK_SIZE (d.length - (12 + (i + j)) * BLOCK_SIZE)))) := by
  intro n
  induction n with
  | zero =>
      intro i k v ps hp hds hbound hblen
      refine ⟨v, by simp [FileSystemAlt.allocIndirectLoopA], ?_, rfl, rfl, ?_,
        rfl, rfl, rfl, fun b _ => rfl, fun j hj => absurd hj (by omega)⟩
      · have : k + 0 = k := by omega
        rw [this]
        exact hp
      · have : v.sb.freeBlocks - 0 = v.sb.freeBlocks := by omega
        rw [this]
  | succ m ih =>
      intro i k v ps hp hds hbound hblen
      have hklt : k < v.sb.totalBlocks := by omega
      obtain ⟨halloc, hpk1⟩ := allocateBlock_packed hp hds hklt
      unfold FileSystemAlt.allocIndirectLoopA
      rw [halloc]
      generalize hL :
        ({ v with bitmap := v.bitmap.set k false,
                  sb := { v.sb with freeBlocks := v.sb.freeBlocks - 1 } } : Vol)
          = w at hpk1
      have hwsb : w.sb = { v.sb with freeBlocks := v.sb.freeBlocks - 1 } := by
        rw [← hL]
      have hwblocks : w.blocks = v.blocks := by
        rw [← hL]
      have hwino : w.inodes = v.inodes := by
        rw [← hL]
      dsimp only
      have hsb2 : (VirtualDisk.writeBlock (setBlockOwner w k inodeNum) k
          (.bytes ((d.drop ((12 + i) * BLOCK_SIZE)).take
            (min BLOCK_SIZE (d.length - (12 + i) * BLOCK_SIZE))))).2.sb = w.sb :=
        writeBlock_sb (setBlockOwner w k inodeNum) k _
      have hbl2 : (VirtualDisk.writeBlock (setBlockOwner w k inodeNum) k
          (.bytes ((d.drop ((12 + i) * BLOCK_SIZE)).take
            (min BLOCK_SIZE (d.length - (12 + i) * BLOCK_SIZE))))).2.blocks.length =
          v.blocks.length := by
        rw [writeBlock_blocks_length]
        exact congrArg List.length hwblocks
      have hin2 : (VirtualDisk.writeBlock (setBlockOwner w k inodeNum) k
          (.bytes ((d.drop ((12 + i) * BLOCK_SIZE)).take
            (min BLOCK_SIZE (d.length - (12 + i) * BLOCK_SIZE))))).2.inodes =
          v.inodes := by
        rw [writeBlock_inodes]
        exact hwino
      have hp2 : packedFrom (VirtualDisk.writeBlock (setBlockOwner w k inodeNum) k
          (.bytes ((d.drop ((12 + i) * BLOCK_SIZE)).take
            (min BLOCK_SIZE (d.length - (12 + i) * BLOCK_SIZE))))).2 (k + 1) =
          true := by
        rw [packedFrom_writeBlock]
        exact (@packedFrom_congr w (setBlockOwner w k inodeNum) rfl rfl
          (k + 1)).trans hpk1
      obtain ⟨vF, heq, hFp, hFt, hFd, hFf, hFic, hFin, hFbl, hFpres, hFcont⟩ :=
        ih (i + 1) (k + 1)
          (VirtualDisk.writeBlock (setBlockOwner w k inodeNum) k
            (.bytes ((d.drop ((12 + i) * BLOCK_SIZE)).take
              (min BLOCK_SIZE (d.length - (12 + i) * BLOCK_SIZE))))).2
          (ps ++ [k])
          hp2
          (by rw [hsb2, hwsb]; show v.sb.dataBlocksStart ≤ k + 1; omega)
          (by rw [hsb2, hwsb]; show k + 1 + m ≤ v.sb.totalBlocks; omega)
          (by rw [hbl2, hsb2, hwsb]; exact hblen)
      have hps : (ps ++ [k]) ++ List.range' (k + 1) m = ps ++ List.range' k (m + 1) := by
        rw [List.append_assoc, List.range'_succ]
        rfl
      rw [hps] at heq
      refine ⟨vF, heq, ?_, ?_, ?_, ?_, ?_, ?_, ?_, ?_, ?_⟩
      · have : k + (m + 1) = k + 1 + m := by omega
        rw [this]
        exact hFp
      · rw [hFt, hsb2, hwsb]
      · rw [hFd, hsb2, hwsb]
      · rw [hFf, hsb2, hwsb]
        show v.sb.freeBlocks - 1 - m = v.sb.freeBlocks - (m + 1)
        omega
      · rw [hFic, hsb2, hwsb]
      · rw [hFin, hin2]
      · rw [hFbl, hbl2]
      · intro b hb
        rw [hFpres b (by omega), writeBlock_getD_ne _ _ _ _ (by omega)]
        show w.blocks.getD b BlockData.zeros = v.blocks.getD b BlockData.zeros
        rw [hwblocks]
      · intro j hj
        match j with
        | 0 =>
            have h0 : k + 0 = k := by omega
            rw [h0, hFpres k (by omega)]
            rw [writeBlock_getD_self _ _ _
              (show k < (setBlockOwner w k inodeNum).sb.totalBlocks by
                show k < w.sb.totalBlocks
                rw [hwsb]
                exact hklt)
              (show k < (setBlockOwner w k inodeNum).blocks.length by
                show k < w.blocks.length
                rw [hwblocks, hblen]
                exact hklt)]
            have hi0 : i + 0 = i := by omega
            rw [hi0]
        | j' + 1 =>
            have hi' : 12 + (i + (j' + 1)) = 12 + (i + 1 + j') := by omega
            have hk' : k + (j' + 1) = k + 1 + j' := by omega
            rw [hk', hi']
            exact hFcont j' (by omega)

/-- The read loop of `readFileData` reconstructs `d` when the file's
block list holds exactly the consecutive `BLOCK_SIZE`-byte chunks of `d`
(`m` full chunks in total, the first `j` of them already read). -/
theorem readFileData_loop (v : Vol) (ino : Inode) (d : List Nat) (m : Nat)
    (hsize : ino.fileSize = d.length) (hlen : d.length = m * BLOCK_SIZE) :
    ∀ (bs : List Nat) (j : Nat), j + bs.length = m →
      (∀ idx, idx < bs.length →
        v.blocks.getD (bs.getD idx 0) .zeros =
          .bytes ((d.drop ((j + idx) * BLOCK_SIZE)).take
            (min BLOCK_SIZE (d.length - (j + idx) * BLOCK_SIZE)))) →
      bs.foldl (fun data b =>
        data ++ ((v.blocks.getD b .zeros).asBytes).take
          (min BLOCK_SIZE (ino.fileSize - data.length)))
        (d.take (j * BLOCK_SIZE)) = d := by
  intro bs
  induction bs with
  | nil =>
      intro j hj _
      simp only [List.foldl_nil, List.length_nil] at hj ⊢
      have hjm : j = m := by omega
      subst hjm
      rw [← hlen]
      exact List.take_length d
  | cons b rest ih =>
      intro j hj hcont
      simp only [List.length_cons] at hj
      have hb0 := hcont 0 (by simp)
      have hgb : (b :: rest).getD 0 0 = b := rfl
      rw [hgb, Nat.add_zero] at hb0
      have hBS : BLOCK_SIZE = 4096 := rfl
      have hmin1 : min BLOCK_SIZE (d.length - j * BLOCK_SIZE) = BLOCK_SIZE := by
        rw [hlen, hBS]
        omega
      rw [hmin1] at hb0
      have hlenC : ((d.drop (j * BLOCK_SIZE)).take BLOCK_SIZE).length =
          BLOCK_SIZE := by
        rw [List.length_take, List.length_drop, hlen, hBS]
        omega
      have hacc : (d.take (j * BLOCK_SIZE)).length = j * BLOCK_SIZE := by
        rw [List.length_take, hlen, hBS]
        omega
      have hmin2 : min BLOCK_SIZE (ino.fileSize - j * BLOCK_SIZE) = BLOCK_SIZE := by
        rw [hsize, hlen, hBS]
        omega
      have hmul : (j + 1) * BLOCK_SIZE = j * BLOCK_SIZE + BLOCK_SIZE := by
        rw [hBS]
        omega
      have hstep : d.take (j * BLOCK_SIZE) ++
          ((v.blocks.getD b BlockData.zeros).asBytes).take
            (min BLOCK_SIZE (ino.fileSize - (d.take (j * BLOCK_SIZE)).length)) =
          d.take ((j + 1) * BLOCK_SIZE) := by
        rw [hb0, hacc, hmin2]
        simp only [BlockData.asBytes]
        rw [hlenC]
        simp only [Nat.sub_self, List.replicate, List.append_nil]
        rw [hmul, List.take_add]
        simp only [List.take_take, min_self]
      simp only [List.foldl_cons]
      rw [hstep]
      apply ih (j + 1) (by omega)
      intro idx hidx
      have h1 := hcont (idx + 1) (by simp only [List.length_cons]; omega)
      have hg : (b :: rest).getD (idx + 1) 0 = rest.getD idx 0 := rfl
      have hidx' : j + (idx + 1) = j + 1 + idx := by omega
      rw [hg, hidx'] at h1
      exact h1

namespace Demo

/-- `create_file("/big")` on the fresh 128-block volume: inode 1 is
allocated (blocks untouched, 60 data blocks still free, packed from 68)
and the root directory gains the `big` entry. -/
def demoBig : FS := (FileSystem.createFile demoFS ['/', 'b', 'i', 'g']).2

/-- The freshly created `/big` inode record. -/
def inoBig : Inode := (InodeManager.readInode demoBig.vol 1).getD Inode.reset

/-- The root inode record of `demoBig`. -/
def rootBig : Inode := (InodeManager.readInode demoBig.vol 0).getD Inode.reset

/-- The pointer block the 13-block write stores at block 80. -/
def bigPtrs : BlockData := .ptrs (81 :: List.replicate 1023 U32MAX)

/-- The `/big` inode record as the 13-block write leaves it, before the
final `fileSize` update: direct blocks 68–79, indirect block 80. -/
def inoBigW : Inode :=
  { inoBig with
    directBlocks := [68, 69, 70, 71, 72, 73, 74, 75, 76, 77, 78, 79],
    indirectBlock := 80 }

end Demo

/-- Path resolution of `/big` on any volume that agrees with `demoBig` on
the superblock geometry, the root inode record, and the root body block:
the lookup lands on inode 1. -/
theorem resolveBig {v : Vol} (ht : v.sb.totalBlocks = 128)
    (hic : v.sb.inodeCount = 16)
    (hroot : v.inodes.getD 0 Inode.reset = Demo.rootBig)
    (hblk : v.blocks.getD 67 .zeros = Demo.demoBig.vol.blocks.getD 67 .zeros) :
    DirectoryManager.resolvePath v ['/', 'b', 'i', 'g'] 0 = some 1 := by
  have hread : InodeManager.readInode v 0 = some Demo.rootBig := by
    unfold InodeManager.readInode
    rw [hic, if_pos (by omega), hroot]
  have hblocks : InodeManager.getInodeBlocks v Demo.rootBig = [67] := by
    unfold InodeManager.getInodeBlocks
    rw [ht]
    rw [if_neg (by decide)]
    decide
  have hlook : DirectoryManager.lookupEntry v 0 ['b', 'i', 'g'] = some 1 := by
    unfold DirectoryManager.lookupEntry
    rw [hread]
    dsimp only
    unfold DirectoryManager.readDirectoryEntries
    rw [hblocks]
    simp only [List.map_cons, List.map_nil, List.flatten_cons, List.flatten_nil,
      List.append_nil]
    rw [hblk]
    decide
  unfold DirectoryManager.resolvePath
  rw [if_neg (by decide)]
  have hsplit : DirectoryManager.splitPath ['/', 'b', 'i', 'g'] [] =
      [['b', 'i', 'g']] := by decide
  rw [hsplit, if_pos (by decide)]
  exact hlook

theorem writeInode_success {v : Vol} {k : Nat} (ino : Inode)
    (h : k < v.sb.inodeCount) :
    InodeManager.writeInode v k ino =
      (true, { v with inodes := v.inodes.set k ino }) := by
  unfold InodeManager.writeInode
  rw [if_pos h]

set_option maxRecDepth 8000 in
/-- Block enumeration of the written `/big` inode on any volume holding
the pointer block at 80. -/
theorem getInodeBlocksBig (v : Vol) (ino : Inode) (ht : v.sb.totalBlocks = 128)
    (hdb : ino.directBlocks = [68, 69, 70, 71, 72, 73, 74, 75, 76, 77, 78, 79])
    (hib : ino.indirectBlock = 80)
    (hb80 : v.blocks.getD 80 .zeros = Demo.bigPtrs) :
    InodeManager.getInodeBlocks v ino =
      [68, 69, 70, 71, 72, 73, 74, 75, 76, 77, 78, 79, 81] := by
  unfold InodeManager.getInodeBlocks
  rw [ht, hdb, hib]
  rw [if_pos (by decide)]
  unfold VirtualDisk.readBlock
  rw [ht, if_pos (by decide), hb80]
  decide

set_option maxRecDepth 8000 in
/-- The volume-level content of the 13-block write: `writeFileVol`
(part_006 revision) on `demoBig` succeeds, and the resulting volume and
inode satisfy every fact the facade-level claims need. -/
theorem writeFileAlt_bigVol (d : List Nat) (hd : d.length = 53248) :
    ∃ vFin inoF,
      FileSystemAlt.writeFileVol Demo.demoBig.vol ['/', 'b', 'i', 'g'] d =
        (true, vFin) ∧
      InodeManager.readInode vFin 1 = some inoF ∧
      inoF.blockCount = 0 ∧
      inoF.indirectBlock = 80 ∧
      inoF.fileType = .REGULAR_FILE ∧
      DirectoryManager.resolvePath vFin ['/', 'b', 'i', 'g'] 0 = some 1 ∧
      FileSystem.readFileData vFin inoF = d ∧
      vFin.sb.freeBlocks + 14 = Demo.demoBig.vol.sb.freeBlocks := by
  have hlook : DirectoryManager.lookupEntry Demo.demoBig.vol 0
      (FileSystem.writeFileName ['/', 'b', 'i', 'g']) = some 1 := by decide
  have hreadIno : InodeManager.readInode Demo.demoBig.vol 1 =
      some Demo.inoBig := by decide
  have hfront := writeFileFront_some Demo.demoBig.vol ['/', 'b', 'i', 'g'] 1
    Demo.inoBig hlook hreadIno
  rw [show InodeManager.getInodeBlocks Demo.demoBig.vol Demo.inoBig = [] from
    by decide] at hfront
  simp only [List.foldl_nil] at hfront
  have hbn : (d.length + BLOCK_SIZE - 1) / BLOCK_SIZE = 13 := by
    rw [hd]
    decide
  obtain ⟨vD, hDeq, hDp, hDt, hDd, hDf, hDic, hDin, hDbl, hDpres, hDcont⟩ :=
    allocDirectLoopA_run 1 d 12 0 68 Demo.demoBig.vol
      { Demo.inoBig with directBlocks := List.replicate 12 U32MAX,
                         indirectBlock := U32MAX }
      (by decide) (by decide) (by decide) (by decide)
  have hp80 : packedFrom vD 80 = true := hDp
  have htD : vD.sb.totalBlocks = 128 := by
    rw [hDt]
    decide
  have hdD : vD.sb.dataBlocksStart = 67 := by
    rw [hDd]
    decide
  obtain ⟨halloc80, hp81⟩ := allocateBlock_packed hp80
    (by rw [hdD]; omega) (by rw [htD]; omega)
  obtain ⟨vI, hIeq, hIp, hIt, hId, hIf, hIic, hIin, hIbl, hIpres, hIcont⟩ :=
    allocIndirectLoopA_run 1 d 1 0 81
      { vD with bitmap := vD.bitmap.set 80 false,
                sb := { vD.sb with freeBlocks := vD.sb.freeBlocks - 1 } }
      []
      hp81
      (by show vD.sb.dataBlocksStart ≤ 81; rw [hdD]; omega)
      (by show (81 : Nat) + 1 ≤ vD.sb.totalBlocks; rw [htD]; omega)
      (by show vD.blocks.length = vD.sb.totalBlocks; rw [hDbl, htD]; decide)
  rw [show ([] : List Nat) ++ List.range' 81 1 = [81] from rfl] at hIeq
  have htI : vI.sb.totalBlocks = 128 := by
    rw [hIt]
    show vD.sb.totalBlocks = 128
    exact htD
  have hicI : vI.sb.inodeCount = 16 := by
    rw [hIic]
    show vD.sb.inodeCount = 16
    rw [hDic]
    decide
  have hinI : vI.inodes = Demo.demoBig.vol.inodes := by
    rw [hIin]
    show vD.inodes = _
    exact hDin
  have hblI : vI.blocks.length = 128 := by
    rw [hIbl]
    show vD.blocks.length = 128
    rw [hDbl]
    decide
  have hfI : vI.sb.freeBlocks = 46 := by
    rw [hIf]
    show vD.sb.freeBlocks - 1 - 1 = 46
    rw [hDf]
    decide
  rcases hwb : VirtualDisk.writeBlock vI 80 Demo.bigPtrs with ⟨okwb, v7⟩
  have hsb7 : v7.sb = vI.sb := by
    have := writeBlock_sb vI 80 Demo.bigPtrs
    rw [hwb] at this
    exact this
  have hin7 : v7.inodes = vI.inodes := by
    have := writeBlock_inodes vI 80 Demo.bigPtrs
    rw [hwb] at this
    exact this
  have hgd780 : v7.blocks.getD 80 BlockData.zeros = Demo.bigPtrs := by
    have := writeBlock_getD_self vI 80 Demo.bigPtrs
      (by rw [htI]; omega) (by rw [hblI]; omega)
    rw [hwb] at this
    exact this
  have hpres7 : ∀ b', 80 ≠ b' →
      v7.blocks.getD b' BlockData.zeros = vI.blocks.getD b' BlockData.zeros := by
    intro b' hne
    have := writeBlock_getD_ne vI 80 Demo.bigPtrs b' hne
    rw [hwb] at this
    exact this
  have hic7 : v7.sb.inodeCount = 16 := by
    rw [hsb7]
    exact hicI
  have ht7 : v7.sb.totalBlocks = 128 := by
    rw [hsb7]
    exact htI
  have hf7 : v7.sb.freeBlocks = 46 := by
    rw [hsb7]
    exact hfI
  have hinoLen : v7.inodes.length = 16 := by
    rw [hin7, hinI]
    decide
  have h1lt : (1 : Nat) < v7.inodes.length := by
    rw [hinoLen]
    omega
  have hroot7 : v7.inodes.getD 0 Inode.reset = Demo.rootBig := by
    rw [hin7, hinI]
    decide
  have hblk67 : v7.blocks.getD 67 BlockData.zeros =
      Demo.demoBig.vol.blocks.getD 67 BlockData.zeros := by
    rw [hpres7 67 (by omega), hIpres 67 (by omega)]
    show vD.blocks.getD 67 BlockData.zeros = _
    rw [hDpres 67 (by omega)]
  let inoN : Inode :=
    { Demo.inoBig with
      directBlocks := setRun (List.replicate 12 U32MAX) 0 68 12,
      indirectBlock := 80, fileSize := d.length }
  refine ⟨{ v7 with inodes := v7.inodes.set 1 inoN }, inoN,
    ?_, ?_, ?_, ?_, ?_, ?_, ?_, ?_⟩
  · -- the equation, assigning the final volume
    unfold FileSystemAlt.writeFileVol
    rw [hfront]
    dsimp only
    unfold FileSystemAlt.allocateFileBlocks
    dsimp only
    rw [hbn]
    rw [if_neg (show ¬ ((13 : Nat) == 0) = true from by decide)]
    rw [show min (13 : Nat) 12 = 12 from by decide]
    rw [hDeq]
    dsimp only
    rw [if_pos (show (13 : Nat) > 12 from by decide)]
    rw [halloc80]
    dsimp only
    rw [show (13 : Nat) - 12 = 1 from by decide]
    rw [hIeq]
    dsimp only
    rw [show BlockData.ptrs (([81] : List Nat) ++
        List.replicate (PTRS_PER_BLOCK - ([81] : List Nat).length) U32MAX) =
      Demo.bigPtrs from by decide]
    rw [hwb]
    dsimp only
    rw [writeInode_success _ (by rw [hic7]; omega)]
  · -- reading the final inode back
    unfold InodeManager.readInode
    dsimp only
    rw [hic7, if_pos (by omega)]
    rw [getD_set_self h1lt]
  · rfl
  · rfl
  · rfl
  · -- path resolution on the final volume
    apply resolveBig
    · exact ht7
    · exact hic7
    · dsimp only
      rw [getD_set_ne (show (1 : Nat) ≠ 0 from by decide)]
      exact hroot7
    · dsimp only
      exact hblk67
  · -- reading the payload back
    unfold FileSystem.readFileData
    have hdir : ∀ j, j < 12 →
        v7.blocks.getD (68 + j) BlockData.zeros =
        .bytes ((d.drop ((0 + j) * BLOCK_SIZE)).take
          (min BLOCK_SIZE (d.length - (0 + j) * BLOCK_SIZE))) := by
      intro j hj
      rw [hpres7 (68 + j) (by omega), hIpres (68 + j) (by omega)]
      show vD.blocks.getD (68 + j) BlockData.zeros = _
      exact hDcont j hj
    have hindir : v7.blocks.getD 81 BlockData.zeros =
        .bytes ((d.drop ((0 + 12) * BLOCK_SIZE)).take
          (min BLOCK_SIZE (d.length - (0 + 12) * BLOCK_SIZE))) := by
      rw [hpres7 81 (by omega)]
      exact hIcont 0 (by omega)
    rw [getInodeBlocksBig]
    · refine readFileData_loop _ _ d 13 ?_ (by rw [hd]; decide) _ 0 (by decide) ?_
      · rfl
      · intro idx hidx
        dsimp only
        have hidx13 : idx < 13 := by simpa using hidx
        interval_cases idx
        · exact hdir 0 (by omega)
        · exact hdir 1 (by omega)
        · exact hdir 2 (by omega)
        · exact hdir 3 (by omega)
        · exact hdir 4 (by omega)
        · exact hdir 5 (by omega)
        · exact hdir 6 (by omega)
        · exact hdir 7 (by omega)
        · exact hdir 8 (by omega)
        · exact hdir 9 (by omega)
        · exact hdir 10 (by omega)
        · exact hdir 11 (by omega)
        · exact hindir
    · exact ht7
    · rfl
    · rfl
    · exact hgd780
  · -- free-block accounting
    show v7.sb.freeBlocks + 14 = Demo.demoBig.vol.sb.freeBlocks
    rw [hf7]
    decide

set_option maxRecDepth 8000 in
/-- Facade-level consequences of the 13-block write through the part_006
`writeFile`. -/
theorem writeFileAlt_bigFacts (d : List Nat) (hd : d.length = 53248) :
    (FileSystemAlt.writeFile Demo.demoBig ['/', 'b', 'i', 'g'] d).1 = true ∧
    ((FileSystem.getFileInfo
      (FileSystemAlt.writeFile Demo.demoBig ['/', 'b', 'i', 'g'] d).2
      ['/', 'b', 'i', 'g']).map (fun i => i.blockCount)) = some 0 ∧
    ((FileSystem.getFileInfo
      (FileSystemAlt.writeFile Demo.demoBig ['/', 'b', 'i', 'g'] d).2
      ['/', 'b', 'i', 'g']).map (fun i => i.indirectBlock)) = some 80 ∧
    FileSystem.readFile
      (FileSystemAlt.writeFile Demo.demoBig ['/', 'b', 'i', 'g'] d).2
      ['/', 'b', 'i', 'g'] = some d ∧
    (FileSystemAlt.writeFile Demo.demoBig
      ['/', 'b', 'i', 'g'] d).2.vol.sb.freeBlocks + 14 =
      Demo.demoBig.vol.sb.freeBlocks := by
  obtain ⟨vFin, inoF, hEq, hRead, hBC, hIB, hFT, hRes, hRFD, hFree⟩ :=
    writeFileAlt_bigVol d hd
  have hw : FileSystemAlt.writeFile Demo.demoBig ['/', 'b', 'i', 'g'] d =
      (true, { Demo.demoBig with vol := vFin }) := by
    unfold FileSystemAlt.writeFile
    rw [if_neg (show ¬ ((!Demo.demoBig.mounted) = true) from by decide), hEq]
  refine ⟨by rw [hw], ?_, ?_, ?_, ?_⟩
  · rw [hw]
    unfold FileSystem.getFileInfo
    dsimp only
    rw [if_neg (show ¬ ((!Demo.demoBig.mounted) = true) from by decide)]
    unfold FileSystem.getFileInfoVol
    rw [hRes]
    dsimp only
    rw [hRead]
    show some inoF.blockCount = some 0
    rw [hBC]
  · rw [hw]
    unfold FileSystem.getFileInfo
    dsimp only
    rw [if_neg (show ¬ ((!Demo.demoBig.mounted) = true) from by decide)]
    unfold FileSystem.getFileInfoVol
    rw [hRes]
    dsimp only
    rw [hRead]
    show some inoF.indirectBlock = some 80
    rw [hIB]
  · rw [hw]
    unfold FileSystem.readFile
    dsimp only
    rw [if_neg (show ¬ ((!Demo.demoBig.mounted) = true) from by decide)]
    unfold FileSystem.readFileVol
    rw [hRes]
    dsimp only
    rw [hRead]
    dsimp only
    rw [if_neg (show ¬ ((inoF.fileType != FileType.REGULAR_FILE) = true) from by
      rw [hFT]; decide)]
    show some (FileSystem.readFileData vFin inoF) = some d
    rw [hRFD]
  · rw [hw]
    show vFin.sb.freeBlocks + 14 = Demo.demoBig.vol.sb.freeBlocks
    exact hFree

/-- **C7** (corrected): on the fresh volume, after `create_file("/big")`
and a 13·4096 = 53248-byte `write_file` through the part_006 facade, the
write succeeds, `read_file("/big")` returns exactly the payload, the
indirect block (80) is stored and is not a sentinel, and `free_blocks`
drops by exactly 14 (13 data blocks plus the indirect block) — but
`stat("/big").blockCount` is 0, NOT 13: this revision's allocator never
increments `blockCount`. -/
theorem C7_thirteen_block_write (d : List Nat) (hd : d.length = 53248) :
    (FileSystemAlt.writeFile Demo.demoBig ['/', 'b', 'i', 'g'] d).1 = true ∧
    ((FileSystem.getFileInfo
      (FileSystemAlt.writeFile Demo.demoBig ['/', 'b', 'i', 'g'] d).2
      ['/', 'b', 'i', 'g']).map (fun i => i.blockCount)) = some 0 ∧
    ((FileSystem.getFileInfo
      (FileSystemAlt.writeFile Demo.demoBig ['/', 'b', 'i', 'g'] d).2
      ['/', 'b', 'i', 'g']).map (fun i => i.indirectBlock)) = some 80 ∧
    (80 : Nat) ≠ U32MAX ∧
    FileSystem.readFile
      (FileSystemAlt.writeFile Demo.demoBig ['/', 'b', 'i', 'g'] d).2
      ['/', 'b', 'i', 'g'] = some d ∧
    (FileSystemAlt.writeFile Demo.demoBig
      ['/', 'b', 'i', 'g'] d).2.vol.sb.freeBlocks + 14 =
      Demo.demoBig.vol.sb.freeBlocks := by
  obtain ⟨h1, h2, h3, h4, h5⟩ := writeFileAlt_bigFacts d hd
  exact ⟨h1, h2, h3, by decide, h4, h5⟩

/-- C7 counterexample: after the 13-block write the facade's `stat`
reports `blockCount = 0`, not the claimed 13 — the part_006 allocator
never increments `blockCount`. -/
theorem C7_counterexample :
    ((FileSystem.getFileInfo
      (FileSystemAlt.writeFile Demo.demoBig ['/', 'b', 'i', 'g']
        (List.replicate 53248 0)).2 ['/', 'b', 'i', 'g']).map
      (fun i => i.blockCount)) = some 0 ∧
    (some 0 : Option Nat) ≠ some 13 :=
  ⟨(writeFileAlt_bigFacts (List.replicate 53248 0)
      (List.length_replicate 53248 0)).2.1,
   by decide⟩

/-- C7 witness: the amended theorem at the concrete 53248-byte zero
payload. -/
theorem C7_witness :
    (List.replicate 53248 0).length = 53248 ∧
    ((FileSystemAlt.writeFile Demo.demoBig ['/', 'b', 'i', 'g']
        (List.replicate 53248 0)).1 = true ∧
      ((FileSystem.getFileInfo
        (FileSystemAlt.writeFile Demo.demoBig ['/', 'b', 'i', 'g']
          (List.replicate 53248 0)).2
        ['/', 'b', 'i', 'g']).map (fun i => i.blockCount)) = some 0 ∧
      ((FileSystem.getFileInfo
        (FileSystemAlt.writeFile Demo.demoBig ['/', 'b', 'i', 'g']
          (List.replicate 53248 0)).2
        ['/', 'b', 'i', 'g']).map (fun i => i.indirectBlock)) = some 80 ∧
      (80 : Nat) ≠ U32MAX ∧
      FileSystem.readFile
        (FileSystemAlt.writeFile Demo.demoBig ['/', 'b', 'i', 'g']
          (List.replicate 53248 0)).2
        ['/', 'b', 'i', 'g'] = some (List.replicate 53248 0) ∧
      (FileSystemAlt.writeFile Demo.demoBig
        ['/', 'b', 'i', 'g'] (List.replicate 53248 0)).2.vol.sb.freeBlocks + 14 =
        Demo.demoBig.vol.sb.freeBlocks) :=
  ⟨List.length_replicate 53248 0,
   C7_thirteen_block_write (List.replicate 53248 0)
     (List.length_replicate 53248 0)⟩

/-! ## C8: a removed directory entry never reappears in listings.

`removeEntry` drops the matching entries and `writeDirectoryEntries`
rewrites the directory body: each still-needed block receives a 64-entry
chunk of the kept vector (zero-padded on read), and every block beyond
`blocksNeeded` is explicitly zeroed.  So after a successful removal every
body block holds only kept entries or invalid zeroed slots, and the
removed name cannot be listed again. -/

/-- No valid entry of this block content bears `name`. -/
def nameAbsent (name : List Char) (c : BlockData) : Prop :=
  ∀ e ∈ c.asDirents, e.isValid = true → ¬(e.getName = name)

theorem nameAbsent_zeros (name : List Char) :
    nameAbsent name BlockData.zeros := by
  intro e he hv
  have hz : e = DirectoryEntry.zeroed := by
    simp only [BlockData.asDirents] at he
    exact List.eq_of_mem_replicate he
  rw [hz] at hv
  exact absurd hv (by decide)

/-- A block written with a 64-entry chunk of the kept vector contains no
valid entry bearing the removed name. -/
theorem nameAbsent_chunk (name : List Char) (K : List DirectoryEntry)
    (hk : ∀ e ∈ K, ¬(e.getName = name)) (i : Nat) :
    nameAbsent name
      (BlockData.dirents
        ((K.drop (i * ENTRIES_PER_BLOCK)).take ENTRIES_PER_BLOCK)) := by
  intro e he hv
  simp only [BlockData.asDirents] at he
  rcases List.mem_append.1 he with h | h
  · exact hk e (List.drop_subset _ _ (List.take_subset _ _
      (List.take_subset _ _ h)))
  · have hz : e = DirectoryEntry.zeroed := List.eq_of_mem_replicate h
    rw [hz] at hv
    exact absurd hv (by decide)

/-- An element of `l.take n` sits at a `getD`-addressable position below
both `n` and `l.length`. -/
theorem mem_take_getD :
    ∀ (l : List Nat) (n : Nat) (b : Nat), b ∈ l.take n →
      ∃ j, j < n ∧ j < l.length ∧ l.getD j 0 = b := by
  intro l
  induction l with
  | nil =>
      intro n b h
      rw [List.take_nil] at h
      exact absurd h (List.not_mem_nil b)
  | cons a rest ih =>
      intro n b h
      cases n with
      | zero =>
          rw [List.take_zero] at h
          exact absurd h (List.not_mem_nil b)
      | succ m =>
          rw [List.take_succ_cons] at h
          rcases List.mem_cons.1 h with rfl | h2
          · exact ⟨0, Nat.succ_pos m, Nat.succ_pos rest.length, rfl⟩
          · obtain ⟨j, hj1, hj2, hj3⟩ := ih m b h2
            exact ⟨j + 1, Nat.succ_lt_succ hj1, Nat.succ_lt_succ hj2, hj3⟩

theorem getD_mem_of_lt :
    ∀ (l : List Nat) (i : Nat), i < l.length → l.getD i 0 ∈ l := by
  intro l
  induction l with
  | nil => intro i h; exact absurd h (Nat.not_lt_zero i)
  | cons a rest ih =>
      intro i h
      cases i with
      | zero => exact List.mem_cons_self a rest
      | succ j =>
          exact List.mem_cons_of_mem a (ih j (Nat.lt_of_succ_lt_succ h))

/-- The chunk-writing fold of `writePhase` preserves superblock, block
count and inode table. -/
theorem fold1_dims (K : List DirectoryEntry) (B : List Nat) :
    ∀ (n : Nat) (v : Vol),
      ((List.range n).foldl (fun v i =>
        (VirtualDisk.writeBlock v (B.getD i 0)
          (BlockData.dirents ((K.drop (i * ENTRIES_PER_BLOCK)).take
            ENTRIES_PER_BLOCK))).2) v).sb = v.sb ∧
      ((List.range n).foldl (fun v i =>
        (VirtualDisk.writeBlock v (B.getD i 0)
          (BlockData.dirents ((K.drop (i * ENTRIES_PER_BLOCK)).take
            ENTRIES_PER_BLOCK))).2) v).blocks.length = v.blocks.length ∧
      ((List.range n).foldl (fun v i =>
        (VirtualDisk.writeBlock v (B.getD i 0)
          (BlockData.dirents ((K.drop (i * ENTRIES_PER_BLOCK)).take
            ENTRIES_PER_BLOCK))).2) v).inodes = v.inodes := by
  intro n
  induction n with
  | zero => exact fun v => ⟨rfl, rfl, rfl⟩
  | succ m ih =>
      intro v
      rw [List.range_succ, List.foldl_append]
      simp only [List.foldl_cons, List.foldl_nil]
      obtain ⟨h1, h2, h3⟩ := ih v
      exact ⟨(writeBlock_sb _ _ _).trans h1,
             (writeBlock_blocks_length _ _ _).trans h2,
             (writeBlock_inodes _ _ _).trans h3⟩

/-- After the chunk-writing fold, every block addressed by a position
below `n` holds a kept-entry chunk (whichever position wrote it last),
hence contains no valid entry bearing the removed name. -/
theorem fold1_covered (name : List Char) (K : List DirectoryEntry)
    (B : List Nat) (hk : ∀ e ∈ K, ¬(e.getName = name)) :
    ∀ (n : Nat) (v : Vol),
      (∀ i, i < n → B.getD i 0 < v.sb.totalBlocks ∧
        B.getD i 0 < v.blocks.length) →
      ∀ i, i < n →
        nameAbsent name
          (((List.range n).foldl (fun v i =>
            (VirtualDisk.writeBlock v (B.getD i 0)
              (BlockData.dirents ((K.drop (i * ENTRIES_PER_BLOCK)).take
                ENTRIES_PER_BLOCK))).2) v).blocks.getD (B.getD i 0)
            BlockData.zeros) := by
  intro n
  induction n with
  | zero => intro v _ i hi; exact absurd hi (Nat.not_lt_zero i)
  | succ m ih =>
      intro v hbound i hi
      rw [List.range_succ, List.foldl_append]
      simp only [List.foldl_cons, List.foldl_nil]
      obtain ⟨hd1, hd2, hd3⟩ := fold1_dims K B m v
      by_cases heq : B.getD i 0 = B.getD m 0
      · rw [heq]
        rw [writeBlock_getD_self _ _ _
          (by rw [hd1]; exact (hbound m m.lt_succ_self).1)
          (by rw [hd2]; exact (hbound m m.lt_succ_self).2)]
        exact nameAbsent_chunk name K hk m
      · rw [writeBlock_getD_ne _ _ _ _ (fun h => heq h.symm)]
        have him : i < m := by
          rcases Nat.lt_succ_iff_lt_or_eq.1 hi with h | h
          · exact h
          · exact absurd (by rw [h]) heq
        exact ih v (fun j hj => hbound j (Nat.lt_succ_of_lt hj)) i him

/-- The zeroing fold of `writePhase` preserves superblock, block count
and inode table. -/
theorem fold2_dims :
    ∀ (L : List Nat) (v : Vol),
      ((L.foldl (fun v b =>
        (VirtualDisk.writeBlock v b BlockData.zeros).2) v).sb = v.sb ∧
      ((L.foldl (fun v b =>
        (VirtualDisk.writeBlock v b BlockData.zeros).2) v).blocks.length =
        v.blocks.length) ∧
      ((L.foldl (fun v b =>
        (VirtualDisk.writeBlock v b BlockData.zeros).2) v).inodes =
        v.inodes)) := by
  intro L
  induction L with
  | nil => exact fun v => ⟨rfl, rfl, rfl⟩
  | cons a rest ih =>
      intro v
      simp only [List.foldl_cons]
      obtain ⟨h1, h2, h3⟩ := ih ((VirtualDisk.writeBlock v a BlockData.zeros).2)
      exact ⟨h1.trans (writeBlock_sb _ _ _),
             h2.trans (writeBlock_blocks_length _ _ _),
             h3.trans (writeBlock_inodes _ _ _)⟩

/-- The zeroing fold leaves any given block either untouched or zeroed. -/
theorem fold2_dichotomy :
    ∀ (L : List Nat) (v : Vol) (b : Nat),
      (L.foldl (fun v b =>
        (VirtualDisk.writeBlock v b BlockData.zeros).2) v).blocks.getD b
        BlockData.zeros = v.blocks.getD b BlockData.zeros ∨
      (L.foldl (fun v b =>
        (VirtualDisk.writeBlock v b BlockData.zeros).2) v).blocks.getD b
        BlockData.zeros = BlockData.zeros := by
  intro L
  induction L with
  | nil => intro v b; exact Or.inl rfl
  | cons a rest ih =>
      intro v b
      simp only [List.foldl_cons]
      rcases ih ((VirtualDisk.writeBlock v a BlockData.zeros).2) b with h | h
      · by_cases hab : a = b
        · subst hab
          rw [h]
          unfold VirtualDisk.writeBlock
          split
          · by_cases hlen : a < v.blocks.length
            · exact Or.inr (getD_set_self hlen BlockData.zeros BlockData.zeros)
            · exact Or.inl (by
                show (v.blocks.set a BlockData.zeros).getD a BlockData.zeros =
                  v.blocks.getD a BlockData.zeros
                rw [List.set_eq_of_length_le (Nat.le_of_not_lt hlen)])
          · exact Or.inl rfl
        · rw [h, writeBlock_getD_ne _ _ _ _ hab]
          exact Or.inl rfl
      · exact Or.inr h

/-- Every block the zeroing fold visits ends up zeroed. -/
theorem fold2_zeros :
    ∀ (L : List Nat) (v : Vol),
      (∀ b ∈ L, b < v.sb.totalBlocks ∧ b < v.blocks.length) →
      ∀ b ∈ L,
        (L.foldl (fun v b =>
          (VirtualDisk.writeBlock v b BlockData.zeros).2) v).blocks.getD b
          BlockData.zeros = BlockData.zeros := by
  intro L
  induction L with
  | nil => intro v _ b hb; exact absurd hb (List.not_mem_nil b)
  | cons a rest ih =>
      intro v hbound b hb
      simp only [List.foldl_cons]
      rcases List.mem_cons.1 hb with rfl | hmem
      · have hwa : (VirtualDisk.writeBlock v b BlockData.zeros).2.blocks.getD b
            BlockData.zeros = BlockData.zeros :=
          writeBlock_getD_self v b BlockData.zeros
            (hbound b (List.mem_cons_self b rest)).1
            (hbound b (List.mem_cons_self b rest)).2
        rcases fold2_dichotomy rest
            ((VirtualDisk.writeBlock v b BlockData.zeros).2) b with h | h
        · rw [h]; exact hwa
        · exact h
      · refine ih ((VirtualDisk.writeBlock v a BlockData.zeros).2) ?_ b hmem
        intro x hx
        have hxv := hbound x (List.mem_cons_of_mem a hx)
        exact ⟨by rw [writeBlock_sb]; exact hxv.1,
               by rw [writeBlock_blocks_length]; exact hxv.2⟩

/-- When the indirect reference is invalid, `getInodeBlocks` depends only
on the direct slots and the total-block count. -/
theorem getInodeBlocks_noind (v w : Vol) (ino inoW : Inode)
    (hdb : inoW.directBlocks = ino.directBlocks)
    (hib : inoW.indirectBlock = ino.indirectBlock)
    (ht : w.sb.totalBlocks = v.sb.totalBlocks)
    (hind : validRef v.sb.totalBlocks ino.indirectBlock = false) :
    InodeManager.getInodeBlocks w inoW = InodeManager.getInodeBlocks v ino := by
  unfold InodeManager.getInodeBlocks
  rw [hdb, hib, ht, hind]
  simp

/-- A successful `writePhase` of a kept vector free of the removed name
leaves a directory whose listing is free of that name: needed blocks get
kept-entry chunks, the rest are zeroed. -/
theorem writePhase_no_name (v : Vol) (dirInode : Inode) (B : List Nat)
    (K : List DirectoryEntry) (blocksNeeded : Nat) (w : Vol)
    (name : List Char) (dirNum : Nat)
    (hself : dirInode.inodeNumber = dirNum)
    (hind : validRef v.sb.totalBlocks dirInode.indirectBlock = false)
    (hil : v.inodes.length = v.sb.inodeCount)
    (hK : ∀ e ∈ K, ¬(e.getName = name))
    (hBmem : ∀ b ∈ B, b < v.sb.totalBlocks ∧ b < v.blocks.length)
    (hBeq : InodeManager.getInodeBlocks v dirInode = B)
    (hw : DirectoryManager.writePhase v dirInode B K blocksNeeded = (true, w)) :
    ∀ e ∈ DirectoryManager.listDirectory w dirNum, ¬(e.getName = name) := by
  subst hself
  unfold DirectoryManager.writePhase at hw
  simp only [Vol.tick] at hw
  set F1 := (List.range (min blocksNeeded B.length)).foldl (fun v i =>
    (VirtualDisk.writeBlock v (B.getD i 0)
      (BlockData.dirents ((K.drop (i * ENTRIES_PER_BLOCK)).take
        ENTRIES_PER_BLOCK))).2) v with hF1
  set F2 := (B.drop blocksNeeded).foldl (fun v b =>
    (VirtualDisk.writeBlock v b BlockData.zeros).2) F1 with hF2
  obtain ⟨h1sb, h1len, h1ino⟩ := fold1_dims K B (min blocksNeeded B.length) v
  rw [← hF1] at h1sb h1len h1ino
  obtain ⟨h2sb, h2len, h2ino⟩ := fold2_dims (B.drop blocksNeeded) F1
  rw [← hF2] at h2sb h2len h2ino
  unfold InodeManager.writeInode at hw
  split at hw
  · rename_i hlt2
    simp only [Prod.mk.injEq] at hw
    obtain ⟨-, hw2⟩ := hw
    have hltv : dirInode.inodeNumber < v.sb.inodeCount := by
      have h3 : ({ F2 with clock := F2.clock + 1 } : Vol).sb.inodeCount =
          v.sb.inodeCount := by
        show F2.sb.inodeCount = v.sb.inodeCount
        rw [h2sb, h1sb]
      rw [h3] at hlt2
      exact hlt2
    have hwsb : w.sb = v.sb := by
      rw [← hw2]
      show F2.sb = v.sb
      rw [h2sb, h1sb]
    have hwblocks : w.blocks = F2.blocks := by
      rw [← hw2]
    have hwinodes : w.inodes = F2.inodes.set dirInode.inodeNumber
        { dirInode with fileSize := K.length * DIR_ENTRY_SIZE,
                        modifiedTime := F2.clock } := by
      rw [← hw2]
    have hlen2 : dirInode.inodeNumber < F2.inodes.length := by
      rw [h2ino, h1ino, hil]
      exact hltv
    have hreadW : InodeManager.readInode w dirInode.inodeNumber =
        some { dirInode with fileSize := K.length * DIR_ENTRY_SIZE,
                             modifiedTime := F2.clock } := by
      unfold InodeManager.readInode
      rw [if_pos (show dirInode.inodeNumber < w.sb.inodeCount from by
        rw [hwsb]; exact hltv)]
      rw [hwinodes]
      rw [getD_set_self hlen2]
    have hlist : DirectoryManager.listDirectory w dirInode.inodeNumber =
        DirectoryManager.readDirectoryEntries w
          { dirInode with fileSize := K.length * DIR_ENTRY_SIZE,
                          modifiedTime := F2.clock } := by
      unfold DirectoryManager.listDirectory
      rw [hreadW]
    have hwtot : w.sb.totalBlocks = v.sb.totalBlocks := by rw [hwsb]
    intro e he
    rw [hlist] at he
    unfold DirectoryManager.readDirectoryEntries at he
    rw [getInodeBlocks_noind v w dirInode
      { dirInode with fileSize := K.length * DIR_ENTRY_SIZE,
                      modifiedTime := F2.clock } rfl rfl hwtot hind, hBeq] at he
    simp only [List.mem_flatten, List.mem_map] at he
    obtain ⟨l, ⟨b, hbB, rfl⟩, hel⟩ := he
    have hmemval := List.mem_filter.1 hel
    have habs : nameAbsent name (w.blocks.getD b BlockData.zeros) := by
      rw [hwblocks]
      have hsplit : b ∈ B.take blocksNeeded ∨ b ∈ B.drop blocksNeeded := by
        rw [← List.mem_append, List.take_append_drop]
        exact hbB
      rcases hsplit with hb1 | hb2
      · obtain ⟨j, hjn, hjl, hgd⟩ := mem_take_getD B blocksNeeded b hb1
        have hcov := fold1_covered name K B hK (min blocksNeeded B.length) v
          (fun i hi => hBmem (B.getD i 0)
            (getD_mem_of_lt B i (lt_of_lt_of_le hi (min_le_right _ _))))
          j (lt_min hjn hjl)
        rw [← hF1, hgd] at hcov
        rcases fold2_dichotomy (B.drop blocksNeeded) F1 b with hdi | hdi
        · rw [← hF2] at hdi
          rw [hdi]
          exact hcov
        · rw [← hF2] at hdi
          rw [hdi]
          exact nameAbsent_zeros name
      · have hz := fold2_zeros (B.drop blocksNeeded) F1
          (fun x hx =>
            ⟨by rw [h1sb]; exact (hBmem x (List.drop_subset _ _ hx)).1,
             by rw [h1len]; exact (hBmem x (List.drop_subset _ _ hx)).2⟩)
          b hb2
        rw [← hF2] at hz
        rw [hz]
        exact nameAbsent_zeros name
    exact habs e hmemval.1 hmemval.2
  · simp at hw

/-- **C8**: after a successful `removeEntry(name)` on a well-formed
directory (self-numbered inode record, no indirect body block, bitmap
and inode table sized per the superblock), `listDirectory` of that
directory contains no entry bearing the removed name — the shrink
rewrites every needed body block with kept entries and zeroes every
block no longer needed. -/
theorem C8_removed_entry_gone (v : Vol) (dirNum : Nat) (name : List Char)
    (dirInode : Inode) (w : Vol)
    (hread : InodeManager.readInode v dirNum = some dirInode)
    (hself : dirInode.inodeNumber = dirNum)
    (hind : validRef v.sb.totalBlocks dirInode.indirectBlock = false)
    (hbl : v.blocks.length = v.sb.totalBlocks)
    (hil : v.inodes.length = v.sb.inodeCount)
    (hrm : DirectoryManager.removeEntry v dirNum name = (true, w)) :
    ∀ e ∈ DirectoryManager.listDirectory w dirNum, ¬(e.getName = name) := by
  unfold DirectoryManager.removeEntry at hrm
  rw [hread] at hrm
  dsimp only at hrm
  by_cases hfound : (((DirectoryManager.readDirectoryEntries v dirInode).filter
      (fun e => e.getName != name)).length ==
      (DirectoryManager.readDirectoryEntries v dirInode).length) = true
  · rw [if_pos hfound] at hrm
    simp at hrm
  · rw [if_neg hfound] at hrm
    set ents := DirectoryManager.readDirectoryEntries v dirInode with hents
    set K := ents.filter (fun e => e.getName != name) with hKdef
    have hle : K.length ≤ ents.length := List.length_filter_le _ _
    have hlt : K.length < ents.length := by
      simp only [beq_iff_eq] at hfound
      omega
    have hcap0 := readDirectoryEntries_length_le v dirInode
    rw [← hents] at hcap0
    unfold DirectoryManager.writeDirectoryEntries at hrm
    set B := InodeManager.getInodeBlocks v dirInode with hBdef
    have hzero : (if K.isEmpty then 1
        else (K.length + ENTRIES_PER_BLOCK - 1) / ENTRIES_PER_BLOCK) -
        B.length = 0 := by
      have h64 : ENTRIES_PER_BLOCK = 64 := rfl
      by_cases hemp : K.isEmpty
      · rw [if_pos hemp]
        omega
      · rw [if_neg hemp]
        rw [h64]
        omega
    simp only [hzero, DirectoryManager.growBlocks] at hrm
    have hKprop : ∀ e ∈ K, ¬(e.getName = name) := by
      intro e he
      have h2 := (List.mem_filter.1 (hKdef ▸ he)).2
      simpa using h2
    have hBmem : ∀ b ∈ B, b < v.sb.totalBlocks ∧ b < v.blocks.length := by
      intro b hb
      rw [hBdef] at hb
      unfold InodeManager.getInodeBlocks at hb
      dsimp only at hb
      rw [if_neg (by rw [hind]; exact Bool.false_ne_true)] at hb
      rw [List.append_nil] at hb
      have hv := (List.mem_filter.1 hb).2
      rw [validRef_iff] at hv
      exact ⟨hv.2.2, by rw [hbl]; exact hv.2.2⟩
    exact writePhase_no_name v dirInode B K
      (if K.isEmpty then 1
       else (K.length + ENTRIES_PER_BLOCK - 1) / ENTRIES_PER_BLOCK)
      w name dirNum hself hind hil hKprop hBmem hBdef.symm hrm

/-! ## C3: what `defragment()` does and does not guarantee.

`usedData` formalises the spec's "set of used data-region blocks": the
indices at or after `dataBlocksStart` whose bitmap bit is cleared
(`bitmap_[i] = true` means FREE).  The spec claims this set is the
contiguous prefix `[dataBlocksStart, dataBlocksStart + used)` after
`defragment()`; the defragmenter of `src/unnamed/part_009` only collects
valid REGULAR files with nonzero size, so directory body blocks are never
drained or moved and can leave holes. -/

/-- The used blocks of the data region, in ascending order (the set the
spec's contiguity clause quantifies over). -/
def usedData (v : Vol) : List Nat :=
  (List.range' v.sb.dataBlocksStart
    (v.sb.totalBlocks - v.sb.dataBlocksStart)).filter
    (fun i => !(v.bitmap.getD i false))

namespace Demo

/-- A fragmented mounted volume: `/a` (100 bytes at block 68) and `/b`
(100 bytes of filler `x` at block 69) are created in order and `/a` is
then deleted, leaving the hole 68 below `/b`'s block. -/
def demoFrag (x : Nat) : FS :=
  let s1 := (FileSystem.createFile demoFS ['/', 'a']).2
  let s2 := (FileSystemAlt.writeFile s1 ['/', 'a'] (List.replicate 100 7)).2
  let s3 := (FileSystem.createFile s2 ['/', 'b']).2
  let s4 := (FileSystemAlt.writeFile s3 ['/', 'b'] (List.replicate 100 x)).2
  (FileSystem.deleteFile s4 ['/', 'a']).2

/-- The state `demoFrag x` reaches, written out as an explicit volume
(verified against the call pipeline at filler 9 in `C3_defrag`'s first
conjunct): root body at 67 holding only the valid `b` entry, the hole at
68, `/b`'s 100 filler bytes at 69, inode 1 freed, a stale ownership entry
for the freed block 68. -/
def fragVol (x : Nat) : Vol :=
  { sb := { totalBlocks := 128, freeBlocks := 59, inodeCount := 16,
            bitmapStart := 1, inodeTableStart := 2, dataBlocksStart := 67,
            journalStart := 3, journalSize := 64, cleanShutdown := 1 },
    bitmap := (((List.range 128).map (fun i => decide (67 ≤ i))).set 67
      false).set 69 false,
    blocks := ((List.replicate 128 BlockData.zeros).set 67
      (.dirents [{ inodeNumber := 2, nameLength := 1, fileType := 1,
                   filename := ['b'] }])).set 69
      (.bytes (List.replicate 100 x)),
    inodes := ((List.replicate 16 Inode.reset).set 0
      { inodeNumber := 0, fileType := .DIRECTORY, permissions := 493,
        linkCount := 2, fileSize := 64, blockCount := 1, createdTime := 1,
        modifiedTime := 7, accessedTime := 1,
        directBlocks := [67, 0, 0, 0, 0, 0, 0, 0, 0, 0, 0, 0],
        indirectBlock := 0 }).set 2
      { inodeNumber := 2, fileType := .REGULAR_FILE, permissions := 420,
        linkCount := 1, fileSize := 100, blockCount := 0, createdTime := 5,
        modifiedTime := 5, accessedTime := 5,
        directBlocks := [69, U32MAX, U32MAX, U32MAX, U32MAX, U32MAX, U32MAX,
          U32MAX, U32MAX, U32MAX, U32MAX, U32MAX],
        indirectBlock := U32MAX },
    blockOwners := [(69, 2), (68, 1)],
    clock := 8 }

/-- The facade state around `fragVol`: mounted and non-corrupted. -/
def fragFS (x : Nat) : FS :=
  { vol := fragVol x, mounted := true, hasCorruption := false,
    corruptedBlocks := [], activeWriteInodeNum := U32MAX }

/-- `fragFS` after the facade defragment call. -/
def fragFSD (x : Nat) : FS :=
  { fragFS x with vol := DefragManager.defragmentFileSystem (fragVol x) }

/-- Like `demoFrag`, but the surviving occupant of the upper block is the
DIRECTORY `/d` (body block 69) instead of a regular file: `/a` (block 68)
is created, `/d` is created, `/a` is deleted. -/
def demoHole : FS :=
  let s1 := (FileSystem.createFile demoFS ['/', 'a']).2
  let s2 := (FileSystemAlt.writeFile s1 ['/', 'a'] (List.replicate 100 7)).2
  let s3 := (FileSystem.createDir s2 ['/', 'd']).2
  (FileSystem.deleteFile s3 ['/', 'a']).2

end Demo

set_option maxRecDepth 8000 in
set_option maxHeartbeats 1000000 in
/-- **C3** (amended): on the fragmented mounted, non-corrupted volume
`fragFS 9` (file `/b` at block 69 above the hole 68; the first conjunct
verifies it is exactly the state the five facade calls of `demoFrag`
reach), `defragment()` does deliver the spec's guarantees for the live
regular file: `/b` reads back byte-identical, its block list after
defragmentation is the single run `[68]` with fragment count 1, and the
used data-region set becomes the contiguous prefix `[67, 68] =
[dataBlocksStart, dataBlocksStart + used)`. -/
theorem C3_defrag :
    Demo.demoFrag 9 = Demo.fragFS 9 ∧
    (Demo.fragFS 9).mounted = true ∧
    (Demo.fragFS 9).hasCorruption = false ∧
    FileSystem.readFile (Demo.fragFS 9) ['/', 'b'] =
      some (List.replicate 100 9) ∧
    usedData (Demo.fragFS 9).vol = [67, 69] ∧
    FileSystem.readFile (Demo.fragFSD 9) ['/', 'b'] =
      some (List.replicate 100 9) ∧
    InodeManager.getInodeBlocks (Demo.fragFSD 9).vol
      ((FileSystem.getFileInfoVol (Demo.fragFSD 9).vol ['/', 'b']).getD
        Inode.reset) = [68] ∧
    DefragManager.fragmentCount
      (InodeManager.getInodeBlocks (Demo.fragFSD 9).vol
        ((FileSystem.getFileInfoVol (Demo.fragFSD 9).vol ['/', 'b']).getD
          Inode.reset)) = 1 ∧
    usedData (Demo.fragFSD 9).vol = [67, 68] ∧
    usedData (Demo.fragFSD 9).vol =
      List.range' (Demo.fragFSD 9).vol.sb.dataBlocksStart
        (usedData (Demo.fragFSD 9).vol).length := by
  have hblocks : InodeManager.getInodeBlocks (Demo.fragFSD 9).vol
      ((FileSystem.getFileInfoVol (Demo.fragFSD 9).vol ['/', 'b']).getD
        Inode.reset) = [68] := by decide
  refine ⟨by decide, by decide, by decide, by decide, by decide, by decide,
    hblocks, ?_, by decide, by decide⟩
  rw [hblocks]
  unfold DefragManager.fragmentCount
  rw [List.mergeSort_singleton]
  rfl

set_option maxRecDepth 8000 in
/-- C3 counterexample: on the mounted, non-corrupted volume `demoHole`
(directory `/d`'s body at block 69 above the hole 68), `defragment()`
leaves the used data-region set `[67, 69]` — NOT the contiguous range
`[dataBlocksStart, dataBlocksStart + used) = [67, 68]` — because the
defragmenter only collects regular files and never moves directory body
blocks. -/
theorem C3_counterexample :
    Demo.demoHole.mounted = true ∧
    Demo.demoHole.hasCorruption = false ∧
    usedData (DefragManager.defragmentFileSystem Demo.demoHole.vol) =
      [67, 69] ∧
    ¬(usedData (DefragManager.defragmentFileSystem Demo.demoHole.vol) =
      List.range'
        (DefragManager.defragmentFileSystem Demo.demoHole.vol).sb.dataBlocksStart
        (usedData
          (DefragManager.defragmentFileSystem Demo.demoHole.vol)).length) :=
  ⟨rfl, rfl, rfl, by decide⟩

set_option maxRecDepth 8000 in
/-- C8 witness: removing `a` from the root directory of the `/a` demo
volume, with every well-formedness hypothesis discharged concretely. -/
theorem C8_witness :
    InodeManager.readInode Demo.demoA.vol 0 =
      some (Demo.demoA.vol.inodes.getD 0 Inode.reset) ∧
    (Demo.demoA.vol.inodes.getD 0 Inode.reset).inodeNumber = 0 ∧
    validRef Demo.demoA.vol.sb.totalBlocks
      (Demo.demoA.vol.inodes.getD 0 Inode.reset).indirectBlock = false ∧
    Demo.demoA.vol.blocks.length = Demo.demoA.vol.sb.totalBlocks ∧
    Demo.demoA.vol.inodes.length = Demo.demoA.vol.sb.inodeCount ∧
    DirectoryManager.removeEntry Demo.demoA.vol 0 ['a'] =
      (true, (DirectoryManager.removeEntry Demo.demoA.vol 0 ['a']).2) ∧
    ∀ e ∈ DirectoryManager.listDirectory
        (DirectoryManager.removeEntry Demo.demoA.vol 0 ['a']).2 0,
      ¬(e.getName = ['a']) :=
  ⟨by decide, by decide, by decide, by decide, by decide, by decide,
   C8_removed_entry_gone Demo.demoA.vol 0 ['a']
     (Demo.demoA.vol.inodes.getD 0 Inode.reset)
     (DirectoryManager.removeEntry Demo.demoA.vol 0 ['a']).2
     (by decide) (by decide) (by decide) (by decide) (by decide) (by decide)⟩

end FsTool
